import Mathlib

/-!
Shallow embedding of the `dsync` diff/sync engine (src/dsync/__init__.py and
src/dsync/diff.py) and verification of its specification claims.

Python dicts are embedded as association lists (`AttrDict`), preserving
insertion order as Python dicts do.  Attribute values are embedded as strings;
the engine only ever compares them for equality.  Exceptions are embedded as
`Except` results whose error carries the state at raise time, mirroring the
fact that a Python exception leaves all mutations made so far in place.
-/

namespace Dsync

/-- Attribute dictionaries: insertion-ordered string-keyed maps. -/
abbrev AttrDict := List (String × String)

/-- First-match association-list lookup (Python `d[k]` / `d.get(k)`). -/
def alookup (d : List (String × α)) (k : String) : Option α :=
  match d with
  | [] => none
  | (k', v) :: rest => if k' = k then some v else alookup rest k

/-- Python `d[k] = v`: replace in place if the key exists, else append. -/
def aset (d : List (String × α)) (k : String) (v : α) : List (String × α) :=
  match d with
  | [] => [(k, v)]
  | (k', v') :: rest => if k' = k then (k, v) :: rest else (k', v') :: aset rest k v

/-- Python `del d[k]`: drop the first binding of `k`. -/
def adel (d : List (String × α)) (k : String) : List (String × α) :=
  match d with
  | [] => []
  | (k', v') :: rest => if k' = k then rest else (k', v') :: adel rest k

/-- Python dict equality: same keys bound to equal values, order-insensitive. -/
def dictBeq (d1 d2 : AttrDict) : Bool :=
  (d1.all fun kv => alookup d2 kv.1 == alookup d1 kv.1) &&
  (d2.all fun kv => alookup d1 kv.1 == alookup d2 kv.1)

/-- Modelled from the spec: `utils.intersection` (src/dsync/utils.py is not in
the sources; only its callers are).  Per spec section 4.2 step 1 the
intersection preserves the first argument's order. -/
def intersection (a b : List String) : List String :=
  a.filter fun x => b.contains x

/-- Modelled from the spec: the exception classes of src/dsync/exceptions.py
(not in the sources).  `notCreated`, `notUpdated` and `notDeleted` are the
domain CRUD errors (subclasses of `ObjectCrudException`); `alreadyExists`,
`notFound` and `wrongType` are the lookup/store errors; `typeMismatch`,
`valueMismatch` and `runtimeError` embed the built-in exceptions raised by the
differ; `attrError` embeds `AttributeError` from a failed class lookup;
`fuel` marks exhaustion of the recursion bound in this embedding (the Python
code recurses unboundedly and terminates only on acyclic inputs). -/
inductive Err where
  | notCreated
  | notUpdated
  | notDeleted
  | alreadyExists
  | notFound
  | wrongType
  | typeMismatch
  | valueMismatch
  | runtimeError
  | attrError
  | fuel
deriving DecidableEq, Repr

/-- Which errors are `ObjectCrudException`s (caught by the sync loop). -/
def Err.isCrud : Err → Bool
  | .notCreated | .notUpdated | .notDeleted => true
  | _ => false

/-! ## diff.py: Diff and DiffElement -/

/-- `DiffElement` (src/dsync/diff.py lines 111-242).  The nested `child_diff`
Diff is embedded directly as its grouped children map
(`children[group][name] = element`, both levels insertion-ordered). -/
inductive DiffElement where
  | mk (type : String) (name : String) (keys : AttrDict)
    (source_attrs : Option AttrDict) (dest_attrs : Option AttrDict)
    (children : List (String × List (String × DiffElement)))

def DiffElement.type : DiffElement → String
  | .mk t _ _ _ _ _ => t

def DiffElement.name : DiffElement → String
  | .mk _ n _ _ _ _ => n

def DiffElement.keys : DiffElement → AttrDict
  | .mk _ _ k _ _ _ => k

def DiffElement.source_attrs : DiffElement → Option AttrDict
  | .mk _ _ _ s _ _ => s

def DiffElement.dest_attrs : DiffElement → Option AttrDict
  | .mk _ _ _ _ d _ => d

def DiffElement.children : DiffElement → List (String × List (String × DiffElement))
  | .mk _ _ _ _ _ c => c

/-- `DiffElement.get_attrs_keys` (diff.py lines 194-207), abstracted over the
two attribute dictionaries. -/
def attrsKeysOf (sattrs dattrs : Option AttrDict) : List String :=
  match sattrs, dattrs with
  | some s, some d => intersection (d.map Prod.fst) (s.map Prod.fst)
  | none, some d => d.map Prod.fst
  | some s, none => s.map Prod.fst
  | none, none => []

def DiffElement.get_attrs_keys (el : DiffElement) : List String :=
  attrsKeysOf el.source_attrs el.dest_attrs

/-- `DiffElement.action` (diff.py lines 164-182). -/
def DiffElement.action (el : DiffElement) : Option String :=
  if el.source_attrs.isSome && el.dest_attrs.isNone then some "create"
  else if el.source_attrs.isNone && el.dest_attrs.isSome then some "delete"
  else if el.source_attrs.isSome && el.dest_attrs.isSome &&
      el.get_attrs_keys.any (fun k =>
        (alookup (el.source_attrs.getD []) k).getD "" !=
        (alookup (el.dest_attrs.getD []) k).getD "") then
    some "update"
  else none

mutual

/-- `DiffElement.has_diffs` (diff.py lines 223-242). -/
def DiffElement.has_diffs : DiffElement → Bool → Bool
  | .mk _ _ _ sattrs dattrs children, include_children =>
    if (sattrs.isSome && dattrs.isNone) || (sattrs.isNone && dattrs.isSome) then true
    else if sattrs.isSome && dattrs.isSome &&
        (attrsKeysOf sattrs dattrs).any (fun k =>
          alookup (sattrs.getD []) k != alookup (dattrs.getD []) k) then true
    else if include_children then groupsHasDiffs children
    else false

/-- `Diff.has_diffs` (diff.py lines 57-68) over the grouped children map. -/
def groupsHasDiffs : List (String × List (String × DiffElement)) → Bool
  | [] => false
  | (_, g) :: rest => groupHasDiffs g || groupsHasDiffs rest

def groupHasDiffs : List (String × DiffElement) → Bool
  | [] => false
  | (_, el) :: rest => el.has_diffs true || groupHasDiffs rest

end

/-- `Diff` (diff.py lines 23-94): insertion-ordered map group -> name -> element. -/
structure Diff where
  children : List (String × List (String × DiffElement))

def Diff.has_diffs (d : Diff) : Bool :=
  groupsHasDiffs d.children

/-- `Diff.add` (diff.py lines 41-51): store under `(type, name)`, failing on a
duplicate pair. -/
def diffAdd (ch : List (String × List (String × DiffElement))) (el : DiffElement) :
    Except Err (List (String × List (String × DiffElement))) :=
  match alookup ch el.type with
  | none => .ok (ch ++ [(el.type, [(el.name, el)])])
  | some grp =>
    if (alookup grp el.name).isSome then .error .alreadyExists
    else .ok (aset ch el.type (grp ++ [(el.name, el)]))

/-- `Diff.get_children` (diff.py lines 70-94): groups in insertion order, then
elements in insertion order (the default ordering method). -/
def diffGetChildren (ch : List (String × List (String × DiffElement))) : List DiffElement :=
  ch.flatMap fun g => g.2.map Prod.snd

/-! ## Flags (src/dsync/__init__.py lines 39-84), embedded as Nat bitmasks. -/

def IGNORE : Nat := 1
def SKIP_CHILDREN_ON_DELETE : Nat := 2

def CONTINUE_ON_FAILURE : Nat := 1
def SKIP_UNMATCHED_SRC : Nat := 2
def SKIP_UNMATCHED_DST : Nat := 4
def LOG_UNCHANGED_RECORDS : Nat := 8

/-- Python truthiness of `flags & FLAG`. -/
def hasFlag (flags flag : Nat) : Bool :=
  flags &&& flag != 0

/-! ## DSyncModel (src/dsync/__init__.py lines 87-382)

A model instance is embedded by its class-level metadata (`_modelname`,
`_identifiers`, `_shortname`, `_attributes`, `_children`) plus its field
values.  Scalar fields live in `fields`; the list-valued child-uid fields live
in `childFields`.  Python raises `KeyError`/`AttributeError` on access to a
missing field; pydantic guarantees all declared fields exist on an instance,
so the embedding totalises missing scalar fields to `""` and missing child
list fields to `[]` (the pydantic default for the list fields). -/

structure ModelClass where
  modelname : String
  identifiers : List String
  shortname : List String
  attributes : List String
  children : List (String × String)
deriving DecidableEq, Repr, Inhabited

structure Model where
  cls : ModelClass
  fields : AttrDict
  childFields : List (String × List String)
  model_flags : Nat
  dsync : Option Nat
deriving DecidableEq, Repr, Inhabited

/-- `DSyncModel.get_type` (lines 272-279). -/
def Model.get_type (m : Model) : String :=
  m.cls.modelname

/-- `DSyncModel.create_unique_id` (lines 281-288). -/
def ModelClass.create_unique_id (cls : ModelClass) (ids : AttrDict) : String :=
  String.intercalate "__" (cls.identifiers.map fun k => (alookup ids k).getD "")

/-- `DSyncModel.get_identifiers` (lines 295-301): the identifier fields and
their values. -/
def Model.get_identifiers (m : Model) : AttrDict :=
  m.cls.identifiers.map fun k => (k, (alookup m.fields k).getD "")

/-- `DSyncModel.get_attrs` (lines 303-314): the `_attributes` fields and their
values. -/
def Model.get_attrs (m : Model) : AttrDict :=
  m.cls.attributes.map fun k => (k, (alookup m.fields k).getD "")

/-- `DSyncModel.get_unique_id` (lines 316-324). -/
def Model.get_unique_id (m : Model) : String :=
  m.cls.create_unique_id m.get_identifiers

/-- `DSyncModel.get_shortname` (lines 326-337). -/
def Model.get_shortname (m : Model) : String :=
  if m.cls.shortname ≠ [] then
    String.intercalate "__" (m.cls.shortname.map fun k => (alookup m.fields k).getD "")
  else m.get_unique_id

/-- `getattr(m, child_fieldname)` for a child-uid list field. -/
def Model.getChildList (m : Model) (fieldname : String) : List String :=
  (alookup m.childFields fieldname).getD []

/-- `DSyncModel.add_child` (lines 339-360). -/
def Model.add_child (m child : Model) : Except Err Model :=
  match alookup m.cls.children child.get_type with
  | none => .error .wrongType
  | some attrName =>
    let childs := m.getChildList attrName
    if childs.contains child.get_unique_id then .error .alreadyExists
    else .ok { m with childFields := aset m.childFields attrName (childs ++ [child.get_unique_id]) }

/-- `DSyncModel.remove_child` (lines 362-382); `list.remove` drops the first
occurrence. -/
def Model.remove_child (m child : Model) : Except Err Model :=
  match alookup m.cls.children child.get_type with
  | none => .error .wrongType
  | some attrName =>
    let childs := m.getChildList attrName
    if childs.contains child.get_unique_id then
      .ok { m with childFields := aset m.childFields attrName (childs.erase child.get_unique_id) }
    else .error .notFound

/-! ## DSync store (src/dsync/__init__.py lines 385-721)

A store is embedded by its identity `sid` (used for the `dsync`
back-reference from models, which in Python is an object reference), its
registered model classes (the class attributes resolved by
`getattr(self, modelname)`; `DSync.__init_subclass__` enforces that each is
stored under its own `_modelname`), its `top_level` list and its `_data`
mapping `modelname -> unique_id -> model`. -/

structure Store where
  sid : Nat
  name : String
  top_level : List String
  classes : List (String × ModelClass)
  data : List (String × List (String × Model))
deriving DecidableEq, Repr

/-- `self._data[modelname]` (a defaultdict: missing keys read as empty). -/
def Store.getData (st : Store) (modelname : String) : List (String × Model) :=
  (alookup st.data modelname).getD []

/-- Replace the inner mapping for one modelname. -/
def Store.setData (st : Store) (modelname : String) (entries : List (String × Model)) : Store :=
  { st with data := aset st.data modelname entries }

/-- `DSync.get` (lines 608-638) specialised to the model-class-plus-identifier
form used by the sync algorithm: `self.get(object_class, element.keys)`. -/
def Store.getByClass (st : Store) (cls : ModelClass) (keys : AttrDict) : Option Model :=
  alookup (st.getData cls.modelname) (cls.create_unique_id keys)

/-- `DSync.get_all` (lines 640-654): all models of a type, insertion order. -/
def Store.get_all (st : Store) (modelname : String) : List Model :=
  (st.getData modelname).map Prod.snd

/-- `DSync.get_by_uids` (lines 656-673): the loop
`for uid in uids: if uid in data: results.append(data[uid])`. -/
def Store.get_by_uids (st : Store) (uids : List String) (modelname : String) : List Model :=
  match uids with
  | [] => []
  | uid :: rest =>
    match alookup (st.getData modelname) uid with
    | some m => m :: st.get_by_uids rest modelname
    | none => st.get_by_uids rest modelname

/-- `DSync.add` (lines 675-693).  The error carries the state at raise time
(the raise happens before any mutation). -/
def Store.add (st : Store) (obj : Model) : Except (Err × Store × Model) (Store × Model) :=
  let modelname := obj.get_type
  let uid := obj.get_unique_id
  if (alookup (st.getData modelname) uid).isSome then
    .error (.alreadyExists, st, obj)
  else
    let obj := if obj.dsync.isNone then { obj with dsync := some st.sid } else obj
    .ok (st.setData modelname (aset (st.getData modelname) uid obj), obj)

mutual

/-- `DSync.remove` (lines 695-721).  The Python recursion
(`remove` -> loop over child types -> loop over child uids -> `remove`) is
unbounded; the embedding bounds it by `fuel` (consumed at every recursive
step, including list steps, so that the recursion is structural and the
function evaluates by reduction); exhaustion yields `Err.fuel`.  The error
carries the state at raise time.  The returned model is `obj` with its
back-reference cleared when it pointed at this store (Python mutates `obj`
in place). -/
def Store.remove : Nat → Store → Model → Bool → Except (Err × Store × Model) (Store × Model)
  | 0, st, obj, _ => .error (.fuel, st, obj)
  | fuel + 1, st, obj, remove_children =>
    let modelname := obj.get_type
    let uid := obj.get_unique_id
    if (alookup (st.getData modelname) uid).isNone then
      .error (.notFound, st, obj)
    else
      let obj := if obj.dsync == some st.sid then { obj with dsync := none } else obj
      let st := st.setData modelname (adel (st.getData modelname) uid)
      if remove_children then
        match removeTypes fuel st obj obj.cls.children with
        | .ok st => .ok (st, obj)
        | .error (e, st) => .error (e, st, obj)
      else
        .ok (st, obj)
termination_by structural fuel => fuel

/-- The loop `for child_type, child_fieldname in obj.get_children_mapping().items()`. -/
def removeTypes : Nat → Store → Model → List (String × String) → Except (Err × Store) Store
  | 0, st, _, _ => .error (.fuel, st)
  | fuel + 1, st, obj, cmap =>
    match cmap with
    | [] => .ok st
    | (child_type, child_fieldname) :: rest => do
      let st ← removeUids fuel st child_type (obj.getChildList child_fieldname)
      removeTypes fuel st obj rest
termination_by structural fuel => fuel

/-- The loop `for child_id in getattr(obj, child_fieldname)`: look the child up
in the current store, silently skip it if absent, else remove it recursively. -/
def removeUids : Nat → Store → String → List String → Except (Err × Store) Store
  | 0, st, _, _ => .error (.fuel, st)
  | fuel + 1, st, child_type, uids =>
    match uids with
    | [] => .ok st
    | child_id :: rest => do
      let st ←
        match alookup (st.getData child_type) child_id with
        | some child_obj =>
          match Store.remove fuel st child_obj true with
          | .ok (st, _) => .ok st
          | .error (e, st, _) => .error (e, st)
        | none => (.ok st : Except (Err × Store) Store)
      removeUids fuel st child_type rest
termination_by structural fuel => fuel

end

/-! ## DSyncDiffer (src/dsync/__init__.py lines 728-905)

The recursion `diff_object_list -> diff_object_pair -> diff_child_objects ->
diff_object_list` is unbounded in Python (it terminates only on acyclic
child-reference structures); the embedding bounds it by `fuel` and signals
exhaustion with `Err.fuel`. -/

/-- A Python dict built from a model list keyed by unique id:
`{item.get_unique_id(): item for item in src}`. -/
def toDict (l : List Model) : List (String × Model) :=
  l.foldl (fun acc m => aset acc m.get_unique_id m) []

/-- `DSyncDiffer.validate_objects_for_diff` (lines 798-817). -/
def validate_objects_for_diff : List (Option Model × Option Model) → Except Err Unit
  | [] => .ok ()
  | (s, d) :: rest =>
    match s, d with
    | some so, some dobj =>
      if so.get_type ≠ dobj.get_type then .error .typeMismatch
      else if so.get_shortname ≠ dobj.get_shortname then .error .valueMismatch
      else if ¬ dictBeq so.get_identifiers dobj.get_identifiers then .error .valueMismatch
      else validate_objects_for_diff rest
    | _, _ => validate_objects_for_diff rest

/-- Modelled from the spec: `DiffElement.get_attrs_diffs` is called at
src/dsync/__init__.py line 521 but is missing from src/dsync/diff.py.  Per
spec section 4.3 step 2 it maps every attribute key whose source and
destination values differ to its value pair; the sync algorithm consumes only
the source side (`diffs[key]["src"]`), so the embedding keeps key -> source
value.  When the destination side is absent every source key differs; when
the source side is absent there are no source values to consume. -/
def DiffElement.get_attrs_diffs (el : DiffElement) : AttrDict :=
  match el.source_attrs, el.dest_attrs with
  | some s, none => s
  | some s, some d =>
    (attrsKeysOf (some s) (some d)).filterMap fun k =>
      if alookup s k ≠ alookup d k then some (k, (alookup s k).getD "") else none
  | none, _ => []

/-- The `combined_dict` construction of `diff_object_list` (lines 773-787):
keys are the source uids in source-dict order followed by the
destination-only uids in destination-dict order; each key maps to the pair
of its (optional) source and destination records. -/
def combinedPairs (src dst : List Model) : List (Option Model × Option Model) :=
  let dict_src := toDict src
  let dict_dst := toDict dst
  let uids := dict_src.map Prod.fst ++
    (dict_dst.map Prod.fst).filter fun u => ¬ (dict_src.map Prod.fst).contains u
  uids.map fun u => (alookup dict_src u, alookup dict_dst u)

/-- The loop `for diff_element in diff_elements: self.diff.add(diff_element)`
(also `diff_element.add_child` in `diff_child_objects`). -/
def addElems (ch : List (String × List (String × DiffElement))) :
    List DiffElement → Except Err (List (String × List (String × DiffElement)))
  | [] => .ok ch
  | e :: rest => do
    let ch ← diffAdd ch e
    addElems ch rest

mutual

/-- `DSyncDiffer.diff_object_list` (lines 763-796).  Fuel is consumed at every
recursive step (list steps included) so that the recursion is structural. -/
def diff_object_list : Nat → Nat → Store → Store → List Model → List Model →
    Except Err (List DiffElement)
  | 0, _, _, _, _, _ => .error .fuel
  | fuel + 1, flags, src_dsync, dst_dsync, src, dst =>
    let pairs := combinedPairs src dst
    match validate_objects_for_diff pairs with
    | .error e => .error e
    | .ok _ => pairsLoop fuel flags src_dsync dst_dsync pairs
termination_by structural fuel => fuel

/-- The loop `for uid in combined_dict: ... if diff_element: append`. -/
def pairsLoop : Nat → Nat → Store → Store → List (Option Model × Option Model) →
    Except Err (List DiffElement)
  | 0, _, _, _, _ => .error .fuel
  | fuel + 1, flags, src_dsync, dst_dsync, pairs =>
    match pairs with
    | [] => .ok []
    | (s, d) :: rest => do
      let el? ← diff_object_pair fuel flags src_dsync dst_dsync s d
      let rest' ← pairsLoop fuel flags src_dsync dst_dsync rest
      match el? with
      | some el => .ok (el :: rest')
      | none => .ok rest'
termination_by structural fuel => fuel

/-- `DSyncDiffer.diff_object_pair` (lines 819-866). -/
def diff_object_pair : Nat → Nat → Store → Store → Option Model → Option Model →
    Except Err (Option DiffElement)
  | 0, _, _, _, _, _ => .error .fuel
  | fuel + 1, flags, src_dsync, dst_dsync, src_obj, dst_obj =>
    match src_obj, dst_obj with
    | none, none => .error .runtimeError
    | _, _ =>
      let base := match src_obj with
        | some so => (so.get_type, so.get_shortname, so.get_identifiers)
        | none => ((dst_obj.getD default).get_type, (dst_obj.getD default).get_shortname,
            (dst_obj.getD default).get_identifiers)
      if hasFlag flags SKIP_UNMATCHED_SRC && dst_obj.isNone then .ok none
      else if hasFlag flags SKIP_UNMATCHED_DST && src_obj.isNone then .ok none
      else if src_obj.any (fun so => hasFlag so.model_flags IGNORE) then .ok none
      else if dst_obj.any (fun dobj => hasFlag dobj.model_flags IGNORE) then .ok none
      else do
        let el := DiffElement.mk base.1 base.2.1 base.2.2
          (src_obj.map Model.get_attrs) (dst_obj.map Model.get_attrs) []
        let el ← diff_child_objects fuel flags src_dsync dst_dsync el src_obj dst_obj
        .ok (some el)
termination_by structural fuel => fuel

/-- `DSyncDiffer.diff_child_objects` (lines 868-905). -/
def diff_child_objects : Nat → Nat → Store → Store → DiffElement →
    Option Model → Option Model → Except Err DiffElement
  | 0, _, _, _, _, _, _ => .error .fuel
  | fuel + 1, flags, src_dsync, dst_dsync, el, src_obj, dst_obj =>
    let children_mapping : List (String × String) :=
      match src_obj, dst_obj with
      | some so, some dobj =>
        so.cls.children.filter fun ct => (alookup dobj.cls.children ct.1).isSome
      | some so, none => so.cls.children
      | none, some dobj => dobj.cls.children
      | none, none => []
    childMapLoop fuel flags src_dsync dst_dsync el src_obj dst_obj children_mapping
termination_by structural fuel => fuel

/-- The loop `for child_type, child_fieldname in children_mapping.items()`. -/
def childMapLoop : Nat → Nat → Store → Store → DiffElement → Option Model → Option Model →
    List (String × String) → Except Err DiffElement
  | 0, _, _, _, _, _, _, _ => .error .fuel
  | fuel + 1, flags, src_dsync, dst_dsync, el, src_obj, dst_obj, cmap =>
    match cmap with
    | [] => .ok el
    | (child_type, child_fieldname) :: rest => do
      let src_objs := match src_obj with
        | some so => src_dsync.get_by_uids (so.getChildList child_fieldname) child_type
        | none => []
      let dst_objs := match dst_obj with
        | some dobj => dst_dsync.get_by_uids (dobj.getChildList child_fieldname) child_type
        | none => []
      let child_elems ← diff_object_list fuel flags src_dsync dst_dsync src_objs dst_objs
      let ch ← addElems el.children child_elems
      let el := DiffElement.mk el.type el.name el.keys el.source_attrs el.dest_attrs ch
      childMapLoop fuel flags src_dsync dst_dsync el src_obj dst_obj rest
termination_by structural fuel => fuel

end

/-- The top-level loop of `DSyncDiffer.calculate_diffs` (lines 744-761). -/
def calcTopLevel (fuel : Nat) (flags : Nat) (src_dsync dst_dsync : Store)
    (types : List String) (ch : List (String × List (String × DiffElement))) :
    Except Err (List (String × List (String × DiffElement))) :=
  match types with
  | [] => .ok ch
  | t :: rest => do
    let elems ← diff_object_list fuel flags src_dsync dst_dsync
      (src_dsync.get_all t) (dst_dsync.get_all t)
    let ch ← addElems ch elems
    calcTopLevel fuel flags src_dsync dst_dsync rest ch

/-- `DSyncDiffer.calculate_diffs` (lines 744-761): iterate
`intersection(dst.top_level, src.top_level)` and collect elements into a Diff. -/
def calculate_diffs (fuel : Nat) (flags : Nat) (src_dsync dst_dsync : Store) :
    Except Err Diff := do
  let ch ← calcTopLevel fuel flags src_dsync dst_dsync
    (intersection dst_dsync.top_level src_dsync.top_level) []
  .ok ⟨ch⟩

/-- `DSync.diff_from` (lines 583-592): diff with `source` as src and `self` as
dst. -/
def Store.diff_from (fuel : Nat) (st source : Store) (flags : Nat) : Except Err Diff :=
  calculate_diffs fuel flags source st

/-! ## Syncer (src/dsync/__init__.py lines 471-577)

The lifecycle hooks `create`/`update`/`delete` are overridable per concrete
model class, so the sync algorithm is embedded parametrically in a `Hooks`
record; `defaultHooks` embeds the default bodies from DSyncModel (lines
224-270).  A hook outcome is a returned model, a returned `None` (a soft
failure), or a raised exception.

Python mutates model objects in place, and a store holding an object sees the
mutation through the shared reference.  The embedding threads model values
explicitly and mirrors the aliasing by writing a mutated model back into the
store entry it was read from (`writeBackIfPresent`).

The trace records, per processed DiffElement, a `visited` event and one event
per lifecycle-hook invocation, so that "this element's children were not
processed" and "the delete hook was not invoked" are observable. -/

inductive Ev where
  | visited (type uid : String)
  | hookCreate (type uid : String)
  | hookUpdate (type uid : String)
  | hookDelete (type uid : String)
deriving DecidableEq, Repr

inductive HookRes where
  | ok (m : Model)
  | absent
  | err (e : Err)
deriving DecidableEq, Repr

structure Hooks where
  create : ModelClass → Nat → AttrDict → AttrDict → HookRes
  update : Model → AttrDict → HookRes
  delete : Model → HookRes

/-- The default lifecycle hooks of DSyncModel (lines 224-270): `create` builds
an instance from the ids and attrs with `dsync` set and empty child lists;
`update` does `setattr` per attribute and returns `self`; `delete` returns
`self`. -/
def defaultHooks : Hooks where
  create := fun cls sid ids attrs => .ok
    { cls := cls
      fields := attrs.foldl (fun f kv => aset f kv.1 kv.2) ids
      childFields := cls.children.map fun cf => (cf.2, [])
      model_flags := 0
      dsync := some sid }
  update := fun m attrs => .ok
    { m with fields := attrs.foldl (fun f kv => aset f kv.1 kv.2) m.fields }
  delete := fun m => .ok m

/-- Mirror of Python reference aliasing: if the store holds an entry for this
model under the given key, the in-place mutation is visible there. -/
def writeBackIfPresent (st : Store) (modelname uid : String) (m : Model) : Store :=
  if (alookup (st.getData modelname) uid).isSome then
    st.setData modelname (aset (st.getData modelname) uid m)
  else st

mutual

/-- `DSync._sync_from_diff_element` (lines 497-577), returning the updated
store, the updated `parent_model` (mutated via `add_child`/`remove_child`),
and the extended trace.  Errors carry the state at raise time.  Fuel is
consumed at every recursive step so that the recursion is structural. -/
def sync_from_diff_element : Nat → Hooks → Nat → Store → Option Model → List Ev →
    DiffElement → Except (Err × Store × List Ev) (Store × Option Model × List Ev)
  | 0, _, _, st, _, tr, _ => .error (.fuel, st, tr)
  | fuel + 1, hooks, flags, st, parent, tr, el =>
    match el with
    | .mk elType elName elKeys sattrs dattrs elChildren =>
      let el := DiffElement.mk elType elName elKeys sattrs dattrs elChildren
      match alookup st.classes elType with
      | none => .error (.attrError, st, tr)
      | some object_class =>
        let uid := object_class.create_unique_id elKeys
        let obj0 := st.getByClass object_class elKeys
        let diffs := el.get_attrs_diffs
        let tr := tr ++ [.visited elType uid]
        -- the try block (lines 529-557): raised = the caught-or-raised CRUD
        -- error if any; obj = the value of the local `obj` after the block;
        -- st picks up the write-back for an in-place successful update.
        let afterTry : Option Err × Option Model × Store × List Ev :=
          if el.action = some "create" then
            if obj0.isSome then (some .notCreated, obj0, st, tr)
            else
              let tr := tr ++ [.hookCreate elType uid]
              match hooks.create object_class st.sid elKeys diffs with
              | .ok m => (none, some m, st, tr)
              | .absent => (none, none, st, tr)
              | .err e => (some e, none, st, tr)
          else if el.action = some "update" then
            match obj0 with
            | none => (some .notUpdated, none, st, tr)
            | some o =>
              let tr := tr ++ [.hookUpdate elType uid]
              match hooks.update o diffs with
              | .ok m => (none, some m, writeBackIfPresent st object_class.modelname uid m, tr)
              | .absent => (none, none, st, tr)
              | .err e => (some e, some o, st, tr)
          else if el.action = some "delete" then
            match obj0 with
            | none => (some .notDeleted, none, st, tr)
            | some o =>
              let tr := tr ++ [.hookDelete elType uid]
              match hooks.delete o with
              | .ok m => (none, some m, st, tr)
              | .absent => (none, none, st, tr)
              | .err e => (some e, some o, st, tr)
          else (none, obj0, st, tr)
        let raised := afterTry.1
        let obj? := afterTry.2.1
        let st := afterTry.2.2.1
        let tr := afterTry.2.2.2
        match raised with
        | some e =>
          if e.isCrud && hasFlag flags CONTINUE_ON_FAILURE then
            afterCatch fuel hooks flags st parent tr el.action elChildren obj?
          else
            .error (e, st, tr)
        | none =>
          afterCatch fuel hooks flags st parent tr el.action elChildren obj?
termination_by structural fuel => fuel

/-- Lines 559-577: the code after the try/except.  Skip the children if `obj`
is absent; apply the store-membership changes for create/delete; then recurse
into the element's children with `obj` as the new parent. -/
def afterCatch : Nat → Hooks → Nat → Store → Option Model → List Ev → Option String →
    List (String × List (String × DiffElement)) → Option Model →
    Except (Err × Store × List Ev) (Store × Option Model × List Ev)
  | 0, _, _, st, _, tr, _, _, _ => .error (.fuel, st, tr)
  | fuel + 1, hooks, flags, st, parent, tr, elAction, elChildren, obj? =>
    match obj? with
    | none => .ok (st, parent, tr)  -- "Not syncing children"
    | some obj =>
      if elAction = some "create" then
        match (match parent with
               | some p =>
                 match p.add_child obj with
                 | .ok p' => .ok (some p', writeBackIfPresent st p'.get_type p'.get_unique_id p')
                 | .error e => .error e
               | none => .ok (none, st) : Except Err (Option Model × Store)) with
        | .error e => .error (e, st, tr)
        | .ok (parent', st) =>
          match st.add obj with
          | .error (e, st, _) => .error (e, st, tr)
          | .ok (st, obj) => syncGroups fuel hooks flags st obj tr parent' elChildren
      else if elAction = some "delete" then
        match (match parent with
               | some p =>
                 match p.remove_child obj with
                 | .ok p' => .ok (some p', writeBackIfPresent st p'.get_type p'.get_unique_id p')
                 | .error e => .error e
               | none => .ok (none, st) : Except Err (Option Model × Store)) with
        | .error e => .error (e, st, tr)
        | .ok (parent', st) =>
          if hasFlag obj.model_flags SKIP_CHILDREN_ON_DELETE then
            -- discard the children without processing them
            match st.remove fuel obj true with
            | .error (e, st, _) => .error (e, st, tr)
            | .ok (st, _) => .ok (st, parent', tr)
          else
            match st.remove fuel obj false with
            | .error (e, st, _) => .error (e, st, tr)
            | .ok (st, obj) => syncGroups fuel hooks flags st obj tr parent' elChildren
      else
        syncGroups fuel hooks flags st obj tr parent elChildren
termination_by structural fuel => fuel

/-- The loop `for child in element.get_children()` (line 576), across the
groups of the nested Diff; threads the store, the parent model of THIS loop's
elements (`obj`), and the trace; returns the caller's own updated parent. -/
def syncGroups : Nat → Hooks → Nat → Store → Model → List Ev → Option Model →
    List (String × List (String × DiffElement)) →
    Except (Err × Store × List Ev) (Store × Option Model × List Ev)
  | 0, _, _, st, _, tr, _, _ => .error (.fuel, st, tr)
  | fuel + 1, hooks, flags, st, obj, tr, parentOut, groups =>
    match groups with
    | [] => .ok (st, parentOut, tr)
    | (_, g) :: rest =>
      match syncNames fuel hooks flags st obj tr g with
      | .error e => .error e
      | .ok (st, obj?, tr) =>
        syncGroups fuel hooks flags st (obj?.getD obj) tr parentOut rest
termination_by structural fuel => fuel

/-- One group of the child Diff: run each child element with `obj` as parent,
threading the parent value the children mutate. -/
def syncNames : Nat → Hooks → Nat → Store → Model → List Ev →
    List (String × DiffElement) →
    Except (Err × Store × List Ev) (Store × Option Model × List Ev)
  | 0, _, _, st, _, tr, _ => .error (.fuel, st, tr)
  | fuel + 1, hooks, flags, st, obj, tr, g =>
    match g with
    | [] => .ok (st, some obj, tr)
    | (_, child) :: rest =>
      match sync_from_diff_element fuel hooks flags st (some obj) tr child with
      | .error e => .error e
      | .ok (st, obj?, tr) =>
        syncNames fuel hooks flags st (obj?.getD obj) tr rest
termination_by structural fuel => fuel

end

/-- The loop in `DSync.sync_from` (lines 483-484): each top-level DiffElement
is applied with no parent model. -/
def syncTop (fuel : Nat) (hooks : Hooks) (flags : Nat) (st : Store) (tr : List Ev) :
    List DiffElement → Except (Err × Store × List Ev) (Store × List Ev)
  | [] => .ok (st, tr)
  | el :: rest =>
    match sync_from_diff_element fuel hooks flags st none tr el with
    | .error e => .error e
    | .ok (st, _, tr) => syncTop fuel hooks flags st tr rest

/-- `DSync.sync_from` (lines 471-485): compute the diff from `source` into
`st`, then apply each top-level element. -/
def Store.sync_from (hooks : Hooks) (fuel : Nat) (st source : Store) (flags : Nat) :
    Except (Err × Store × List Ev) (Store × List Ev) :=
  match st.diff_from fuel source flags with
  | .error e => .error (e, st, [])
  | .ok diff => syncTop fuel hooks flags st [] (diffGetChildren diff.children)

/-! ## Basic lemmas about the embedding -/

@[simp] theorem DiffElement.type_mk (t n : String) (k : AttrDict)
    (sa da : Option AttrDict) (c : List (String × List (String × DiffElement))) :
    (DiffElement.mk t n k sa da c).type = t := rfl

@[simp] theorem DiffElement.name_mk (t n : String) (k : AttrDict)
    (sa da : Option AttrDict) (c : List (String × List (String × DiffElement))) :
    (DiffElement.mk t n k sa da c).name = n := rfl

@[simp] theorem DiffElement.keys_mk (t n : String) (k : AttrDict)
    (sa da : Option AttrDict) (c : List (String × List (String × DiffElement))) :
    (DiffElement.mk t n k sa da c).keys = k := rfl

@[simp] theorem DiffElement.source_attrs_mk (t n : String) (k : AttrDict)
    (sa da : Option AttrDict) (c : List (String × List (String × DiffElement))) :
    (DiffElement.mk t n k sa da c).source_attrs = sa := rfl

@[simp] theorem DiffElement.dest_attrs_mk (t n : String) (k : AttrDict)
    (sa da : Option AttrDict) (c : List (String × List (String × DiffElement))) :
    (DiffElement.mk t n k sa da c).dest_attrs = da := rfl

@[simp] theorem DiffElement.children_mk (t n : String) (k : AttrDict)
    (sa da : Option AttrDict) (c : List (String × List (String × DiffElement))) :
    (DiffElement.mk t n k sa da c).children = c := rfl

theorem alookup_isSome_of_mem_keys {l : List (String × α)} {k : String}
    (h : k ∈ l.map Prod.fst) : (alookup l k).isSome := by
  induction l with
  | nil => simp at h
  | cons p rest ih =>
    simp only [List.map_cons, List.mem_cons] at h
    by_cases hk : p.1 = k
    · simp [alookup, hk]
    · rcases h with h | h
      · exact absurd h.symm hk
      · simpa [alookup, hk] using ih h

theorem mem_intersection {a b : List String} {k : String} :
    k ∈ intersection a b ↔ k ∈ a ∧ k ∈ b := by
  simp [intersection, List.mem_filter, List.contains, List.elem_iff]

theorem getD_ne_iff_of_isSome {o1 o2 : Option String} (h1 : o1.isSome) (h2 : o2.isSome) :
    o1.getD "" ≠ o2.getD "" ↔ o1 ≠ o2 := by
  cases o1 <;> cases o2 <;> simp_all

/-- The attribute-difference condition used by `DiffElement.action` and, for
two present sides, by `DiffElement.has_diffs`. -/
def attrsDiffer (s d : AttrDict) : Prop :=
  ∃ k ∈ intersection (d.map Prod.fst) (s.map Prod.fst), alookup s k ≠ alookup d k

instance (s d : AttrDict) : Decidable (attrsDiffer s d) := by
  unfold attrsDiffer; infer_instance

theorem attrsDiffer_iff_any_getD {s d : AttrDict} :
    attrsDiffer s d ↔
      ((intersection (d.map Prod.fst) (s.map Prod.fst)).any fun k =>
        (alookup s k).getD "" != (alookup d k).getD "") = true := by
  rw [List.any_eq_true]
  constructor
  · rintro ⟨k, hk, hne⟩
    refine ⟨k, hk, ?_⟩
    rw [bne_iff_ne]
    rw [getD_ne_iff_of_isSome] <;> try assumption
    · exact alookup_isSome_of_mem_keys (mem_intersection.mp hk).2
    · exact alookup_isSome_of_mem_keys (mem_intersection.mp hk).1
  · rintro ⟨k, hk, hne⟩
    refine ⟨k, hk, ?_⟩
    rw [bne_iff_ne] at hne
    rw [← getD_ne_iff_of_isSome]
    · exact hne
    · exact alookup_isSome_of_mem_keys (mem_intersection.mp hk).2
    · exact alookup_isSome_of_mem_keys (mem_intersection.mp hk).1

theorem attrsDiffer_iff_any_alookup {s d : AttrDict} :
    attrsDiffer s d ↔
      ((intersection (d.map Prod.fst) (s.map Prod.fst)).any fun k =>
        alookup s k != alookup d k) = true := by
  rw [List.any_eq_true]
  unfold attrsDiffer
  constructor
  · rintro ⟨k, hk, hne⟩
    exact ⟨k, hk, bne_iff_ne.mpr hne⟩
  · rintro ⟨k, hk, hne⟩
    exact ⟨k, hk, bne_iff_ne.mp hne⟩

/-- C4: Action derivation.  For every DiffElement, `action` is `"create"` iff
source attrs are present and dest attrs absent; `"delete"` iff source absent
and dest present; `"update"` iff both present and some key in the
intersection of their attribute-key sets has differing values; `none`
otherwise; and `has_diffs(include_children=False)` is true iff the action is
not `none`. -/
theorem C4_action_derivation (el : DiffElement) :
    (el.action = some "create" ↔ el.source_attrs.isSome ∧ el.dest_attrs = none) ∧
    (el.action = some "delete" ↔ el.source_attrs = none ∧ el.dest_attrs.isSome) ∧
    (el.action = some "update" ↔ ∃ s d, el.source_attrs = some s ∧ el.dest_attrs = some d ∧
      attrsDiffer s d) ∧
    (el.action = none ↔ ¬ ((el.source_attrs.isSome ∧ el.dest_attrs = none) ∨
      (el.source_attrs = none ∧ el.dest_attrs.isSome) ∨
      (∃ s d, el.source_attrs = some s ∧ el.dest_attrs = some d ∧ attrsDiffer s d))) ∧
    (el.has_diffs false = true ↔ el.action ≠ none) := by
  obtain ⟨t, n, k, sa, da, ch⟩ := el
  cases sa with
  | none =>
    cases da with
    | none => simp [DiffElement.action, DiffElement.has_diffs]
    | some d => simp [DiffElement.action, DiffElement.has_diffs]
  | some s =>
    cases da with
    | none => simp [DiffElement.action, DiffElement.has_diffs]
    | some d =>
      by_cases hdiff : attrsDiffer s d
      · have h1 := attrsDiffer_iff_any_getD.mp hdiff
        have h2 := attrsDiffer_iff_any_alookup.mp hdiff
        simp [DiffElement.action, DiffElement.has_diffs, DiffElement.get_attrs_keys,
          attrsKeysOf, h1, h2, hdiff]
      · have h1 : ¬ ((intersection (d.map Prod.fst) (s.map Prod.fst)).any fun k =>
            (alookup s k).getD "" != (alookup d k).getD "") = true := fun h =>
          hdiff (attrsDiffer_iff_any_getD.mpr h)
        have h2 : ¬ ((intersection (d.map Prod.fst) (s.map Prod.fst)).any fun k =>
            alookup s k != alookup d k) = true := fun h =>
          hdiff (attrsDiffer_iff_any_alookup.mpr h)
        simp only [Bool.not_eq_true] at h1 h2
        simp [DiffElement.action, DiffElement.has_diffs, DiffElement.get_attrs_keys,
          attrsKeysOf, h1, h2, hdiff]

@[simp] theorem alookup_aset_self (l : List (String × α)) (k : String) (v : α) :
    alookup (aset l k v) k = some v := by
  induction l with
  | nil => simp [aset, alookup]
  | cons p rest ih =>
    by_cases h : p.1 = k <;> simp [aset, alookup, h, ih]

theorem alookup_aset_ne (l : List (String × α)) {k k' : String} (v : α) (h : k ≠ k') :
    alookup (aset l k v) k' = alookup l k' := by
  induction l with
  | nil => simp [aset, alookup, h]
  | cons p rest ih =>
    by_cases hp : p.1 = k
    · simp [aset, alookup, hp, h]
    · simp only [aset, hp, if_false]
      by_cases hp' : p.1 = k' <;> simp [alookup, hp', ih]

theorem alookup_adel_ne (l : List (String × α)) {k k' : String} (h : k ≠ k') :
    alookup (adel l k) k' = alookup l k' := by
  induction l with
  | nil => simp [adel]
  | cons p rest ih =>
    obtain ⟨pk, pv⟩ := p
    by_cases hp : pk = k
    · subst hp
      simp [adel, alookup, h]
    · by_cases hpk : pk = k'
      · subst hpk
        simp [adel, alookup, hp, Ne.symm h]
      · simp [adel, alookup, hp, hpk, ih]

@[simp] theorem getData_setData_self (st : Store) (t : String) (e : List (String × Model)) :
    (st.setData t e).getData t = e := by
  simp [Store.setData, Store.getData]

theorem getData_setData_ne (st : Store) {t t' : String} (e : List (String × Model))
    (h : t ≠ t') : (st.setData t e).getData t' = st.getData t' := by
  simp [Store.setData, Store.getData, alookup_aset_ne st.data e h]

/-- C9: `get_by_uids` returns exactly the stored records of the requested type
whose unique ids appear in the list, in the order the ids were requested,
silently omitting ids that are not found; it is a total function (it never
raises). -/
theorem C9_get_by_uids (st : Store) (uids : List String) (modelname : String) :
    st.get_by_uids uids modelname =
      uids.filterMap (fun uid => alookup (st.getData modelname) uid) ∧
    (∀ m : Model, m ∈ st.get_by_uids uids modelname ↔
      ∃ uid ∈ uids, alookup (st.getData modelname) uid = some m) := by
  have h1 : st.get_by_uids uids modelname =
      uids.filterMap fun uid => alookup (st.getData modelname) uid := by
    induction uids with
    | nil => simp [Store.get_by_uids]
    | cons u rest ih =>
      cases h : alookup (st.getData modelname) u <;>
        simp [Store.get_by_uids, h, ih, List.filterMap_cons]
  refine ⟨h1, fun m => ?_⟩
  rw [h1, List.mem_filterMap]

/-- C8: `add` fails with AlreadyExists iff the store already holds an entry
under the record's type and unique id (the identifier field values joined in
identifier order); otherwise the record is stored under that type and unique
id, every other entry is untouched, and the stored record's back-reference is
set to this store exactly when it had none. -/
theorem C8_add_contract (st : Store) (obj : Model) :
    ((alookup (st.getData obj.get_type) obj.get_unique_id).isSome →
      st.add obj = .error (.alreadyExists, st, obj)) ∧
    (alookup (st.getData obj.get_type) obj.get_unique_id = none →
      ∃ st' obj', st.add obj = .ok (st', obj') ∧
        alookup (st'.getData obj.get_type) obj.get_unique_id = some obj' ∧
        (∀ t u, t ≠ obj.get_type ∨ u ≠ obj.get_unique_id →
          alookup (st'.getData t) u = alookup (st.getData t) u) ∧
        obj' = { obj with dsync := if obj.dsync.isNone then some st.sid else obj.dsync }) := by
  constructor
  · intro h
    simp [Store.add, h]
  · intro h
    refine ⟨st.setData obj.get_type (aset (st.getData obj.get_type) obj.get_unique_id
        (if obj.dsync.isNone then { obj with dsync := some st.sid } else obj)),
      (if obj.dsync.isNone then { obj with dsync := some st.sid } else obj),
      ?_, ?_, ?_, ?_⟩
    · simp [Store.add, h]
    · simp
    · intro t u htu
      rcases htu with ht | hu
      · rw [getData_setData_ne _ _ (Ne.symm ht)]
      · by_cases ht : t = obj.get_type
        · subst ht
          rw [getData_setData_self, alookup_aset_ne _ _ (Ne.symm hu)]
        · rw [getData_setData_ne _ _ (Ne.symm ht)]
    · cases obj with
      | mk cls fields childFields model_flags dsync => cases dsync <;> simp

/-- Concrete store and record used by the C8 witness: the record is already
stored under its type and unique id. -/
def wModel8 : Model :=
  { cls := { modelname := "site", identifiers := ["name"], shortname := [],
             attributes := [], children := [] },
    fields := [("name", "nyc")], childFields := [], model_flags := 0, dsync := some 7 }

def wStore8 : Store :=
  { sid := 7, name := "w", top_level := ["site"],
    classes := [("site", wModel8.cls)], data := [("site", [("nyc", wModel8)])] }

/-- C8 witness: adding a record equal to one already stored fails with
AlreadyExists and leaves the state as it was. -/
theorem C8_add_contract_witness :
    wStore8.add wModel8 = .error (.alreadyExists, wStore8, wModel8) :=
  (C8_add_contract wStore8 wModel8).1 (by decide)

/-! ## The store representation invariant and atomicity of add/remove -/

deriving instance DecidableEq for Except

@[simp] theorem except_bind_ok (a : α) (f : α → Except ε β) :
    (Except.ok a >>= f : Except ε β) = f a := rfl

@[simp] theorem except_bind_error (e : ε) (f : α → Except ε β) :
    ((Except.error e : Except ε α) >>= f) = Except.error e := rfl

theorem except_bind_eq_ok {x : Except ε α} {f : α → Except ε β} {b : β}
    (h : (x >>= f) = .ok b) : ∃ a, x = .ok a ∧ f a = .ok b := by
  cases x with
  | ok a => exact ⟨a, rfl, h⟩
  | error e => simp at h

theorem mem_of_alookup_eq_some {l : List (String × α)} {k : String} {v : α}
    (h : alookup l k = some v) : (k, v) ∈ l := by
  induction l with
  | nil => simp [alookup] at h
  | cons p rest ih =>
    obtain ⟨pk, pv⟩ := p
    by_cases hp : pk = k
    · subst hp
      have hv : pv = v := by simpa [alookup] using h
      subst hv
      exact List.mem_cons_self _ _
    · simp only [alookup, if_neg hp] at h
      exact List.mem_cons_of_mem _ (ih h)

theorem mem_aset {l : List (String × α)} {k : String} {v : α} {p : String × α}
    (h : p ∈ aset l k v) : p ∈ l ∨ p = (k, v) := by
  induction l with
  | nil => simpa [aset] using h
  | cons q rest ih =>
    by_cases hq : q.1 = k
    · simp only [aset, if_pos hq, List.mem_cons] at h
      rcases h with h | h
      · exact Or.inr h
      · exact Or.inl (List.mem_cons_of_mem _ h)
    · simp only [aset, if_neg hq, List.mem_cons] at h
      rcases h with h | h
      · exact Or.inl (h ▸ List.mem_cons_self _ _)
      · rcases ih h with h | h
        · exact Or.inl (List.mem_cons_of_mem _ h)
        · exact Or.inr h

theorem mem_adel {l : List (String × α)} {k : String} {p : String × α}
    (h : p ∈ adel l k) : p ∈ l := by
  induction l with
  | nil => simpa [adel] using h
  | cons q rest ih =>
    by_cases hq : q.1 = k
    · simp only [adel, if_pos hq] at h
      exact List.mem_cons_of_mem _ h
    · simp only [adel, if_neg hq, List.mem_cons] at h
      rcases h with h | h
      · exact h ▸ List.mem_cons_self _ _
      · exact List.mem_cons_of_mem _ (ih h)

/-- The documented representation invariant of `_data` (lines 398-402):
`self._data[modelname][unique_id] == model_instance`.  Every stored entry is
keyed by its record's own type and unique id. -/
def WellKeyed (st : Store) : Prop :=
  ∀ p ∈ st.data, ∀ q ∈ p.2, (q.2 : Model).get_type = p.1 ∧ (q.2 : Model).get_unique_id = q.1

instance (st : Store) : Decidable (WellKeyed st) := by
  unfold WellKeyed; infer_instance

theorem wellKeyed_getData {st : Store} (hwk : WellKeyed st) {t u : String} {m : Model}
    (h : alookup (st.getData t) u = some m) : m.get_type = t ∧ m.get_unique_id = u := by
  unfold Store.getData at h
  cases hd : alookup st.data t with
  | none => rw [hd] at h; simp [alookup] at h
  | some entries =>
    rw [hd] at h
    exact hwk (t, entries) (mem_of_alookup_eq_some hd) (u, m) (mem_of_alookup_eq_some h)

theorem wellKeyed_adel (st : Store) (t u : String) (hwk : WellKeyed st) :
    WellKeyed (st.setData t (adel (st.getData t) u)) := by
  intro p hp q hq
  simp only [Store.setData] at hp
  rcases mem_aset hp with hp | rfl
  · exact hwk p hp q hq
  · have hq' := mem_adel hq
    unfold Store.getData at hq'
    cases hd : alookup st.data t with
    | none => rw [hd] at hq'; simp at hq'
    | some entries =>
      rw [hd] at hq'
      exact hwk (t, entries) (mem_of_alookup_eq_some hd) q hq'

/-- The goal of the fuel induction for `Store.remove`: under the
representation invariant, a successful removal preserves the invariant, a
NotFound error leaves the state at its pre-call value (the raise happens
before any mutation), and a removal of a record actually present never fails
with NotFound (only with exhausted fuel). -/
def RemovePred (fuel : Nat) : Prop :=
  ∀ st obj rc, WellKeyed st →
    (∀ st' o', Store.remove fuel st obj rc = .ok (st', o') → WellKeyed st') ∧
    (∀ e st' o', Store.remove fuel st obj rc = .error (e, st', o') →
      (e = .notFound → st' = st ∧ o' = obj) ∧
      ((alookup (st.getData obj.get_type) obj.get_unique_id).isSome → e = .fuel))

def RemoveUidsPred (fuel : Nat) : Prop :=
  ∀ st ct uids, WellKeyed st →
    (∀ st', removeUids fuel st ct uids = .ok st' → WellKeyed st') ∧
    (∀ e st', removeUids fuel st ct uids = .error (e, st') → e = .fuel)

def RemoveTypesPred (fuel : Nat) : Prop :=
  ∀ st obj cmap, WellKeyed st →
    (∀ st', removeTypes fuel st obj cmap = .ok st' → WellKeyed st') ∧
    (∀ e st', removeTypes fuel st obj cmap = .error (e, st') → e = .fuel)

theorem removeAllPred (fuel : Nat) :
    RemovePred fuel ∧ RemoveUidsPred fuel ∧ RemoveTypesPred fuel := by
  induction fuel with
  | zero =>
    refine ⟨?_, ?_, ?_⟩
    · intro st obj rc hwk
      constructor
      · intro st' o' h
        simp [Store.remove] at h
      · intro e st' o' h
        simp only [Store.remove, Except.error.injEq, Prod.mk.injEq] at h
        obtain ⟨he, hst, ho⟩ := h
        refine ⟨fun hnf => ⟨hst.symm, ho.symm⟩, fun _ => he.symm⟩
    · intro st ct uids hwk
      constructor
      · intro st' h
        simp [removeUids] at h
      · intro e st' h
        simp only [removeUids, Except.error.injEq, Prod.mk.injEq] at h
        exact h.1.symm
    · intro st obj cmap hwk
      constructor
      · intro st' h
        simp [removeTypes] at h
      · intro e st' h
        simp only [removeTypes, Except.error.injEq, Prod.mk.injEq] at h
        exact h.1.symm
  | succ f ih =>
    obtain ⟨ihRem, ihUids, ihTypes⟩ := ih
    have huids : RemoveUidsPred (f + 1) := by
      intro st ct uids hwk
      match uids with
      | [] =>
        constructor
        · intro st' h
          simp only [removeUids] at h
          cases h
          exact hwk
        · intro e st' h
          simp [removeUids] at h
      | u :: rest =>
        cases hl : alookup (st.getData ct) u with
        | none =>
          have heq : removeUids (f + 1) st ct (u :: rest) = removeUids f st ct rest := by
            simp [removeUids, hl]
          rw [heq]
          exact ihUids st ct rest hwk
        | some c =>
          have hck := wellKeyed_getData hwk hl
          cases hr : Store.remove f st c true with
          | error p =>
            obtain ⟨e, st2, o2⟩ := p
            have heq : removeUids (f + 1) st ct (u :: rest) = .error (e, st2) := by
              simp [removeUids, hl, hr]
            have hfuel : e = .fuel := by
              apply ((ihRem st c true hwk).2 e st2 o2 hr).2
              rw [hck.1, hck.2, hl]
              rfl
            constructor
            · intro st' h
              rw [heq] at h
              cases h
            · intro e' st' h
              rw [heq] at h
              cases h
              exact hfuel
          | ok p =>
            obtain ⟨st2, o2⟩ := p
            have heq : removeUids (f + 1) st ct (u :: rest) = removeUids f st2 ct rest := by
              simp [removeUids, hl, hr]
            rw [heq]
            exact ihUids st2 ct rest ((ihRem st c true hwk).1 st2 o2 hr)
    have htypes : RemoveTypesPred (f + 1) := by
      intro st obj cmap hwk
      match cmap with
      | [] =>
        constructor
        · intro st' h
          simp only [removeTypes] at h
          cases h
          exact hwk
        · intro e st' h
          simp [removeTypes] at h
      | (ct, cf) :: rest =>
        cases hr : removeUids f st ct (obj.getChildList cf) with
        | error q =>
          obtain ⟨e, st2⟩ := q
          have heq : removeTypes (f + 1) st obj ((ct, cf) :: rest) = .error (e, st2) := by
            simp [removeTypes, hr]
          have hfuel : e = .fuel := (ihUids st ct (obj.getChildList cf) hwk).2 e st2 hr
          constructor
          · intro st' h
            rw [heq] at h
            cases h
          · intro e' st' h
            rw [heq] at h
            cases h
            exact hfuel
        | ok st2 =>
          have heq : removeTypes (f + 1) st obj ((ct, cf) :: rest) =
              removeTypes f st2 obj rest := by
            simp [removeTypes, hr]
          rw [heq]
          exact ihTypes st2 obj rest ((ihUids st ct (obj.getChildList cf) hwk).1 st2 hr)
    refine ⟨?_, huids, htypes⟩
    intro st obj rc hwk
    by_cases hg : (alookup (st.getData obj.get_type) obj.get_unique_id).isNone
    · have heq : Store.remove (f + 1) st obj rc = .error (.notFound, st, obj) := by
        simp [Store.remove, Model.get_type, Model.get_unique_id] at hg ⊢
        simp [hg]
      constructor
      · intro st' o' h
        rw [heq] at h
        cases h
      · intro e st' o' h
        rw [heq] at h
        cases h
        constructor
        · intro _
          exact ⟨rfl, rfl⟩
        · intro hsome
          rw [Option.isNone_iff_eq_none] at hg
          rw [hg] at hsome
          cases hsome
    · have hwk1 : WellKeyed (st.setData obj.get_type (adel (st.getData obj.get_type)
          obj.get_unique_id)) := wellKeyed_adel st _ _ hwk
      set obj1 := if obj.dsync == some st.sid then { obj with dsync := none } else obj with hobj1
      set st1 := st.setData obj.get_type (adel (st.getData obj.get_type) obj.get_unique_id)
        with hst1
      cases hrc : rc with
      | false =>
        have heq : Store.remove (f + 1) st obj false = .ok (st1, obj1) := by
          simp only [Store.remove, Model.get_type, Model.get_unique_id] at hg ⊢
          simp [hg, hobj1, hst1, Store.setData, Model.get_type, Model.get_unique_id]
        constructor
        · intro st' o' h
          rw [heq] at h
          cases h
          exact hwk1
        · intro e st' o' h
          rw [heq] at h
          cases h
      | true =>
        cases ht : removeTypes f st1 obj1 obj1.cls.children with
        | error q =>
          obtain ⟨e, st2⟩ := q
          have hfuel : e = .fuel := (ihTypes st1 obj1 obj1.cls.children hwk1).2 e st2 ht
          have heq : Store.remove (f + 1) st obj true = .error (e, st2, obj1) := by
            simp only [Store.remove, Model.get_type, Model.get_unique_id] at hg ⊢
            simp [hg, hobj1, hst1, Store.setData, Model.get_type, Model.get_unique_id] at ht ⊢
            rw [ht]
          constructor
          · intro st' o' h
            rw [heq] at h
            cases h
          · intro e' st' o' h
            rw [heq] at h
            cases h
            constructor
            · intro hnf
              rw [hfuel] at hnf
              cases hnf
            · intro _
              exact hfuel
        | ok st2 =>
          have heq : Store.remove (f + 1) st obj true = .ok (st2, obj1) := by
            simp only [Store.remove, Model.get_type, Model.get_unique_id] at hg ⊢
            simp [hg, hobj1, hst1, Store.setData, Model.get_type, Model.get_unique_id] at ht ⊢
            rw [ht]
          constructor
          · intro st' o' h
            rw [heq] at h
            cases h
            exact (ihTypes st1 obj1 obj1.cls.children hwk1).1 st2 ht
          · intro e st' o' h
            rw [heq] at h
            cases h

/-- C10: atomicity of store mutation on error, under the documented `_data`
representation invariant (every entry keyed by its record's type and unique
id).  When `add` raises AlreadyExists, or `remove` raises NotFound, the
store's contents and the record's owning-store back-reference are exactly as
they were before the call (the error carries the state at raise time). -/
theorem C10_atomic_on_error (fuel : Nat) (st : Store) (obj : Model) (rc : Bool)
    (hwk : WellKeyed st) :
    (∀ e st' o', st.add obj = .error (e, st', o') → st' = st ∧ o' = obj) ∧
    (∀ st' o', Store.remove fuel st obj rc = .error (.notFound, st', o') →
      st' = st ∧ o' = obj) := by
  constructor
  · intro e st' o' h
    unfold Store.add at h
    by_cases hp : (alookup (st.getData obj.get_type) obj.get_unique_id).isSome
    · rw [if_pos hp] at h
      simp only [Except.error.injEq, Prod.mk.injEq] at h
      exact ⟨h.2.1.symm, h.2.2.symm⟩
    · rw [if_neg hp] at h
      simp at h
  · intro st' o' h
    exact (((removeAllPred fuel).1 st obj rc hwk).2 .notFound st' o' h).1 rfl

/-- A record whose unique id is absent from the witness store. -/
def wModel10 : Model :=
  { cls := wModel8.cls, fields := [("name", "sfo")], childFields := [],
    model_flags := 0, dsync := some 7 }

/-- C10 witness: on a concrete well-keyed store, removing an absent record
fails with NotFound and the theorem yields that the carried state equals the
input state. -/
theorem C10_atomic_on_error_witness : wStore8 = wStore8 ∧ wModel10 = wModel10 :=
  (C10_atomic_on_error 5 wStore8 wModel10 true (by decide)).2 wStore8 wModel10 (by decide)

/-! ## Diff-pair validation and filtering -/

/-- C7: pair validation.  `validate_objects_for_diff` succeeds exactly when
every pair with both sides present agrees on type, shortname and identifier
mapping; and when it fails, `diff_object_list` raises that same fatal error
instead of producing elements (the diff does not proceed). -/
theorem C7_validation (pairs : List (Option Model × Option Model)) (fuel flags : Nat)
    (src_dsync dst_dsync : Store) (src dst : List Model) :
    (validate_objects_for_diff pairs = .ok () ↔
      ∀ p ∈ pairs, ∀ so dobj, p.1 = some so → p.2 = some dobj →
        so.get_type = dobj.get_type ∧ so.get_shortname = dobj.get_shortname ∧
        dictBeq so.get_identifiers dobj.get_identifiers = true) ∧
    (∀ e, validate_objects_for_diff (combinedPairs src dst) = .error e →
      diff_object_list (fuel + 1) flags src_dsync dst_dsync src dst = .error e) := by
  constructor
  · induction pairs with
    | nil => simp [validate_objects_for_diff]
    | cons p rest ih =>
      obtain ⟨s, d⟩ := p
      cases s with
      | none =>
        simp only [validate_objects_for_diff]
        rw [ih]
        constructor
        · intro h
          intro q hq so dobj h1 h2
          rcases List.mem_cons.mp hq with rfl | hq
          · cases h1
          · exact h q hq so dobj h1 h2
        · intro h q hq so dobj h1 h2
          exact h q (List.mem_cons_of_mem _ hq) so dobj h1 h2
      | some so =>
        cases d with
        | none =>
          simp only [validate_objects_for_diff]
          rw [ih]
          constructor
          · intro h q hq so' dobj h1 h2
            rcases List.mem_cons.mp hq with rfl | hq
            · cases h2
            · exact h q hq so' dobj h1 h2
          · intro h q hq so' dobj h1 h2
            exact h q (List.mem_cons_of_mem _ hq) so' dobj h1 h2
        | some dobj =>
          simp only [validate_objects_for_diff]
          by_cases h1 : so.get_type ≠ dobj.get_type
          · simp only [if_pos h1]
            constructor
            · intro h
              cases h
            · intro h
              exact absurd (h (some so, some dobj) (List.mem_cons_self _ _) so dobj rfl rfl).1 h1
          · simp only [if_neg h1]
            by_cases h2 : so.get_shortname ≠ dobj.get_shortname
            · simp only [if_pos h2]
              constructor
              · intro h
                cases h
              · intro h
                exact absurd (h (some so, some dobj) (List.mem_cons_self _ _) so dobj rfl rfl).2.1 h2
            · simp only [if_neg h2]
              by_cases h3 : ¬ dictBeq so.get_identifiers dobj.get_identifiers = true
              · simp only [if_pos h3]
                constructor
                · intro h
                  cases h
                · intro h
                  exact absurd (h (some so, some dobj) (List.mem_cons_self _ _) so dobj rfl rfl).2.2 h3
              · simp only [if_neg h3]
                rw [ih]
                push_neg at h1 h2 h3
                constructor
                · intro h q hq so' dobj' ha hb
                  rcases List.mem_cons.mp hq with rfl | hq
                  · cases ha
                    cases hb
                    exact ⟨h1, h2, h3⟩
                  · exact h q hq so' dobj' ha hb
                · intro h q hq so' dobj' ha hb
                  exact h q (List.mem_cons_of_mem _ hq) so' dobj' ha hb
  · intro e he
    simp [diff_object_list, he]

/-- C7 witness: two records sharing a unique id but disagreeing on their
attribute sets make validation fail and the list diff abort with that error. -/
theorem C7_validation_witness :
    validate_objects_for_diff [(some wModel8, some wModel10)] = .ok () ↔
      ∀ p ∈ [(some wModel8, some wModel10)], ∀ so dobj,
        p.1 = some so → p.2 = some dobj →
        so.get_type = dobj.get_type ∧ so.get_shortname = dobj.get_shortname ∧
        dictBeq so.get_identifiers dobj.get_identifiers = true :=
  (C7_validation [(some wModel8, some wModel10)] 3 0 wStore8 wStore8 [] []).1

/-- C5: diff filtering.  For a pair actually compared during a diff (at least
one side present), no DiffElement is produced when SKIP_UNMATCHED_SRC is set
and the destination side is absent, or SKIP_UNMATCHED_DST is set and the
source side is absent, or either present record carries the IGNORE flag; the
pair contributes nothing (so neither the record nor its subtree appears). -/
theorem C5_diff_filtering (fuel flags : Nat) (src_dsync dst_dsync : Store)
    (s d : Option Model) (hne : s.isSome ∨ d.isSome)
    (h : (hasFlag flags SKIP_UNMATCHED_SRC = true ∧ d = none) ∨
         (hasFlag flags SKIP_UNMATCHED_DST = true ∧ s = none) ∨
         (∃ m, s = some m ∧ hasFlag m.model_flags IGNORE = true) ∨
         (∃ m, d = some m ∧ hasFlag m.model_flags IGNORE = true)) :
    diff_object_pair (fuel + 1) flags src_dsync dst_dsync s d = .ok none := by
  rcases h with ⟨hf, rfl⟩ | ⟨hf, rfl⟩ | ⟨m, rfl, hf⟩ | ⟨m, rfl, hf⟩
  · cases s with
    | none => simp at hne
    | some so => simp [diff_object_pair, hf]
  · cases d with
    | none => simp at hne
    | some dobj => simp [diff_object_pair, hf]
  · cases d with
    | none =>
      by_cases hs : hasFlag flags SKIP_UNMATCHED_SRC = true
      · simp [diff_object_pair, hs]
      · simp [diff_object_pair, hs, hf]
    | some dobj =>
      by_cases hd : hasFlag dobj.model_flags IGNORE = true <;>
        simp [diff_object_pair, hf, hd]
  · cases s with
    | none =>
      by_cases hs : hasFlag flags SKIP_UNMATCHED_DST = true
      · simp [diff_object_pair, hs]
      · simp [diff_object_pair, hs, hf]
    | some so =>
      by_cases hs : hasFlag so.model_flags IGNORE = true <;>
        simp [diff_object_pair, hf, hs]

/-- C5 witness: with SKIP_UNMATCHED_SRC set and no destination record, the
pair yields no DiffElement. -/
theorem C5_diff_filtering_witness :
    diff_object_pair 3 SKIP_UNMATCHED_SRC wStore8 wStore8 (some wModel8) none = .ok none :=
  C5_diff_filtering 2 SKIP_UNMATCHED_SRC wStore8 wStore8 (some wModel8) none
    (Or.inl (by decide)) (Or.inl ⟨by decide, rfl⟩)

/-! ## Self-diff emptiness -/

theorem groupHasDiffs_eq_any (g : List (String × DiffElement)) :
    groupHasDiffs g = g.any fun p => p.2.has_diffs true := by
  induction g with
  | nil => rfl
  | cons p rest ih => simp [groupHasDiffs, ih]

theorem any_map_snd_has_diffs (g : List (String × DiffElement)) :
    (g.map Prod.snd).any (fun el => el.has_diffs true) =
      g.any fun p => p.2.has_diffs true := by
  induction g with
  | nil => rfl
  | cons q qs ihq => simp [ihq]

theorem groupsHasDiffs_eq_any (ch : List (String × List (String × DiffElement))) :
    groupsHasDiffs ch = (diffGetChildren ch).any fun el => el.has_diffs true := by
  induction ch with
  | nil => rfl
  | cons g rest ih =>
    obtain ⟨t, g2⟩ := g
    have hd : diffGetChildren ((t, g2) :: rest) = g2.map Prod.snd ++ diffGetChildren rest := by
      simp [diffGetChildren]
    have h0 : groupsHasDiffs ((t, g2) :: rest) = (groupHasDiffs g2 || groupsHasDiffs rest) := rfl
    rw [h0, hd, List.any_append, groupHasDiffs_eq_any, ih, any_map_snd_has_diffs]

theorem mem_diffGetChildren_aset {ch : List (String × List (String × DiffElement))}
    {k : String} {v : List (String × DiffElement)} {x : DiffElement}
    (hx : x ∈ diffGetChildren (aset ch k v)) :
    x ∈ diffGetChildren ch ∨ x ∈ v.map Prod.snd := by
  induction ch with
  | nil => simpa [aset, diffGetChildren] using hx
  | cons g rest ih =>
    by_cases hg : g.1 = k
    · simp only [aset, if_pos hg, diffGetChildren, List.flatMap_cons, List.mem_append] at hx ⊢
      rcases hx with hx | hx
      · exact Or.inr hx
      · exact Or.inl (Or.inr (by simpa [diffGetChildren] using hx))
    · simp only [aset, if_neg hg, diffGetChildren, List.flatMap_cons, List.mem_append] at hx ⊢
      rcases hx with hx | hx
      · exact Or.inl (Or.inl hx)
      · rcases ih (by simpa [diffGetChildren] using hx) with h | h
        · exact Or.inl (Or.inr (by simpa [diffGetChildren] using h))
        · exact Or.inr h

theorem mem_diffGetChildren_of_mem {ch : List (String × List (String × DiffElement))}
    {t : String} {g : List (String × DiffElement)} (hg : (t, g) ∈ ch) {x : DiffElement}
    (hx : x ∈ g.map Prod.snd) : x ∈ diffGetChildren ch := by
  simp only [diffGetChildren, List.mem_flatMap]
  exact ⟨(t, g), hg, hx⟩

theorem mem_diffGetChildren_diffAdd {ch ch' : List (String × List (String × DiffElement))}
    {el x : DiffElement} (h : diffAdd ch el = .ok ch')
    (hx : x ∈ diffGetChildren ch') : x ∈ diffGetChildren ch ∨ x = el := by
  unfold diffAdd at h
  cases hgrp : alookup ch el.type with
  | none =>
    rw [hgrp] at h
    simp only [Except.ok.injEq] at h
    subst h
    simp only [diffGetChildren, List.flatMap_append, List.mem_append] at hx
    rcases hx with hx | hx
    · exact Or.inl hx
    · simp at hx
      exact Or.inr hx
  | some grp =>
    rw [hgrp] at h
    by_cases hdup : (alookup grp el.name).isSome
    · simp only [hdup, if_true] at h
      cases h
    · simp only [hdup, if_false, Bool.false_eq_true, Except.ok.injEq] at h
      subst h
      rcases mem_diffGetChildren_aset hx with hx | hx
      · exact Or.inl hx
      · simp only [List.map_append, List.mem_append, List.map_cons, List.map_nil,
          List.mem_singleton] at hx
        rcases hx with hx | hx
        · exact Or.inl (mem_diffGetChildren_of_mem (mem_of_alookup_eq_some hgrp) hx)
        · exact Or.inr hx

theorem addElems_no_diffs {ch ch' : List (String × List (String × DiffElement))}
    {els : List DiffElement} (hch : groupsHasDiffs ch = false)
    (hels : ∀ el ∈ els, el.has_diffs true = false)
    (h : addElems ch els = .ok ch') : groupsHasDiffs ch' = false := by
  induction els generalizing ch with
  | nil =>
    simp only [addElems] at h
    cases h
    exact hch
  | cons e rest ih =>
    simp only [addElems] at h
    cases hadd : diffAdd ch e with
    | error err => rw [hadd] at h; simp at h
    | ok ch1 =>
      rw [hadd] at h
      simp only [except_bind_ok] at h
      refine ih ?_ (fun el hel => hels el (List.mem_cons_of_mem _ hel)) h
      rw [groupsHasDiffs_eq_any, List.any_eq_false]
      intro x hx
      rcases mem_diffGetChildren_diffAdd hadd hx with hx | rfl
      · rw [groupsHasDiffs_eq_any, List.any_eq_false] at hch
        exact hch x hx
      · simp [hels x (List.mem_cons_self _ _)]

theorem has_diffs_of_eq_attrs {el : DiffElement} (he : el.source_attrs = el.dest_attrs)
    (hch : groupsHasDiffs el.children = false) : el.has_diffs true = false := by
  obtain ⟨t, n, k, sa, da, ch⟩ := el
  simp only [DiffElement.source_attrs_mk, DiffElement.dest_attrs_mk,
    DiffElement.children_mk] at he hch
  subst he
  cases sa with
  | none => simp [DiffElement.has_diffs, hch]
  | some a => simp [DiffElement.has_diffs, hch]

/-- The five self-diff invariants, one per function of the differ's mutual
recursion: diffing any value against itself yields only diff-free elements. -/
def SelfPairPred (fuel : Nat) : Prop :=
  ∀ flags S s r, diff_object_pair fuel flags S S s s = .ok r →
    ∀ el, r = some el → el.has_diffs true = false

def SelfPairsPred (fuel : Nat) : Prop :=
  ∀ flags S ps els, (∀ p ∈ ps, p.1 = p.2) → pairsLoop fuel flags S S ps = .ok els →
    ∀ el ∈ els, el.has_diffs true = false

def SelfListPred (fuel : Nat) : Prop :=
  ∀ flags S l els, diff_object_list fuel flags S S l l = .ok els →
    ∀ el ∈ els, el.has_diffs true = false

def SelfChildMapPred (fuel : Nat) : Prop :=
  ∀ flags S el x cmap el', el.source_attrs = el.dest_attrs →
    groupsHasDiffs el.children = false →
    childMapLoop fuel flags S S el (some x) (some x) cmap = .ok el' →
    el'.source_attrs = el.source_attrs ∧ el'.dest_attrs = el.dest_attrs ∧
    groupsHasDiffs el'.children = false

def SelfChildObjPred (fuel : Nat) : Prop :=
  ∀ flags S el x el', el.source_attrs = el.dest_attrs →
    groupsHasDiffs el.children = false →
    diff_child_objects fuel flags S S el (some x) (some x) = .ok el' →
    el'.source_attrs = el.source_attrs ∧ el'.dest_attrs = el.dest_attrs ∧
    groupsHasDiffs el'.children = false

theorem selfDiffPred (fuel : Nat) :
    SelfPairPred fuel ∧ SelfPairsPred fuel ∧ SelfListPred fuel ∧
    SelfChildMapPred fuel ∧ SelfChildObjPred fuel := by
  induction fuel with
  | zero =>
    refine ⟨?_, ?_, ?_, ?_, ?_⟩
    · intro flags S s r h
      simp [diff_object_pair] at h
    · intro flags S ps els _ h
      simp [pairsLoop] at h
    · intro flags S l els h
      simp [diff_object_list] at h
    · intro flags S el x cmap el' _ _ h
      simp [childMapLoop] at h
    · intro flags S el x el' _ _ h
      simp [diff_child_objects] at h
  | succ f ih =>
    obtain ⟨ihPair, ihPairs, ihList, ihChildMap, ihChildObj⟩ := ih
    have hChildMap : SelfChildMapPred (f + 1) := by
      intro flags S el x cmap el' hattrs hch h
      match cmap with
      | [] =>
        simp only [childMapLoop] at h
        cases h
        exact ⟨rfl, rfl, hch⟩
      | (ct, cf) :: rest =>
        simp only [childMapLoop] at h
        cases hlist : diff_object_list f flags S S
            (S.get_by_uids (x.getChildList cf) ct) (S.get_by_uids (x.getChildList cf) ct) with
        | error e => rw [hlist] at h; simp at h
        | ok child_elems =>
          rw [hlist] at h
          simp only [except_bind_ok] at h
          cases hadd : addElems el.children child_elems with
          | error e => rw [hadd] at h; simp at h
          | ok ch1 =>
            rw [hadd] at h
            simp only [except_bind_ok] at h
            have hch1 : groupsHasDiffs ch1 = false :=
              addElems_no_diffs hch (ihList flags S _ child_elems hlist) hadd
            have := ihChildMap flags S
              (DiffElement.mk el.type el.name el.keys el.source_attrs el.dest_attrs ch1)
              x rest el' (by simpa using hattrs) (by simpa using hch1) h
            simpa using this
    have hChildObj : SelfChildObjPred (f + 1) := by
      intro flags S el x el' hattrs hch h
      simp only [diff_child_objects] at h
      exact ihChildMap flags S el x _ el' hattrs hch h
    have hPair : SelfPairPred (f + 1) := by
      intro flags S s r h el hr
      subst hr
      cases s with
      | none => simp [diff_object_pair] at h
      | some m =>
        by_cases h3 : hasFlag m.model_flags IGNORE = true
        · simp [diff_object_pair, h3] at h
        · simp only [diff_object_pair, Option.isNone_some, Bool.and_false,
            Bool.false_eq_true, if_false, Option.any_some, h3] at h
          obtain ⟨el1, hco, hfe⟩ := except_bind_eq_ok h
          simp only [Except.ok.injEq, Option.some.injEq] at hfe
          subst hfe
          have := ihChildObj flags S
            (DiffElement.mk m.get_type m.get_shortname m.get_identifiers
              (Option.map Model.get_attrs (some m)) (Option.map Model.get_attrs (some m)) [])
            m el1 rfl rfl hco
          exact has_diffs_of_eq_attrs (by rw [this.1, this.2.1]; rfl) this.2.2
    have hPairs : SelfPairsPred (f + 1) := by
      intro flags S ps els hps h
      match ps with
      | [] =>
        simp only [pairsLoop] at h
        cases h
        intro el hel
        simp at hel
      | (s, d) :: rest =>
        have hsd : s = d := hps (s, d) (List.mem_cons_self _ _)
        subst hsd
        simp only [pairsLoop] at h
        cases hp : diff_object_pair f flags S S s s with
        | error e => rw [hp] at h; simp at h
        | ok el? =>
          rw [hp] at h
          simp only [except_bind_ok] at h
          cases hrest : pairsLoop f flags S S rest with
          | error e => rw [hrest] at h; simp at h
          | ok rest' =>
            rw [hrest] at h
            simp only [except_bind_ok] at h
            have hrest' := ihPairs flags S rest rest'
              (fun p hp' => hps p (List.mem_cons_of_mem _ hp')) hrest
            cases el? with
            | none =>
              simp only at h
              cases h
              exact hrest'
            | some el1 =>
              simp only at h
              cases h
              intro el hel
              rcases List.mem_cons.mp hel with rfl | hel
              · exact ihPair flags S s (some el) hp el rfl
              · exact hrest' el hel
    have hList : SelfListPred (f + 1) := by
      intro flags S l els h
      simp only [diff_object_list] at h
      cases hv : validate_objects_for_diff (combinedPairs l l) with
      | error e => rw [hv] at h; simp at h
      | ok u =>
        rw [hv] at h
        refine ihPairs flags S (combinedPairs l l) els ?_ h
        intro p hp
        simp only [combinedPairs, List.mem_map] at hp
        obtain ⟨u', _, rfl⟩ := hp
        rfl
    exact ⟨hPair, hPairs, hList, hChildMap, hChildObj⟩

/-- The top-level loop of `calculate_diffs`, diffing each shared top-level
type of a store against itself, only accumulates diff-free elements. -/
theorem calcTopLevel_self (fuel flags : Nat) (S : Store) :
    ∀ types ch ch', groupsHasDiffs ch = false →
      calcTopLevel fuel flags S S types ch = .ok ch' → groupsHasDiffs ch' = false := by
  intro types
  induction types with
  | nil =>
    intro ch ch' hch h
    simp only [calcTopLevel] at h
    cases h
    exact hch
  | cons t rest ih =>
    intro ch ch' hch h
    simp only [calcTopLevel] at h
    cases hlist : diff_object_list fuel flags S S (S.get_all t) (S.get_all t) with
    | error e => rw [hlist] at h; simp at h
    | ok elems =>
      rw [hlist] at h
      simp only [except_bind_ok] at h
      cases hadd : addElems ch elems with
      | error e => rw [hadd] at h; simp at h
      | ok ch1 =>
        rw [hadd] at h
        simp only [except_bind_ok] at h
        exact ih ch1 ch'
          (addElems_no_diffs hch ((selfDiffPred fuel).2.2.1 flags S _ elems hlist) hadd) h

/-- C2: self-diff is empty.  Whenever diffing a store against itself (source
and destination both `S`, no flags) returns a Diff, that Diff's `has_diffs()`
is false. -/
theorem C2_self_diff_empty (fuel : Nat) (S : Store) (d : Diff)
    (h : calculate_diffs fuel 0 S S = .ok d) : d.has_diffs = false := by
  unfold calculate_diffs at h
  cases htop : calcTopLevel fuel 0 S S (intersection S.top_level S.top_level) [] with
  | error e => rw [htop] at h; simp at h
  | ok ch =>
    rw [htop] at h
    simp only [except_bind_ok] at h
    cases h
    exact calcTopLevel_self fuel 0 S _ [] ch rfl htop

/-- Whether an Except value is a success (for concrete evaluation in
witnesses). -/
def exceptIsOk : Except ε α → Bool
  | .ok _ => true
  | .error _ => false

/-- C2 witness: the concrete store diffs against itself to an empty Diff. -/
theorem C2_self_diff_empty_witness :
    ∃ d, calculate_diffs 9 0 wStore8 wStore8 = .ok d ∧ d.has_diffs = false := by
  cases hd : calculate_diffs 9 0 wStore8 wStore8 with
  | error e =>
    have hok : exceptIsOk (calculate_diffs 9 0 wStore8 wStore8) = true := by decide
    rw [hd] at hok
    simp [exceptIsOk] at hok
  | ok d => exact ⟨d, rfl, C2_self_diff_empty 9 wStore8 d hd⟩

/-! ## SKIP_CHILDREN_ON_DELETE: recursive removal of descendants -/

/-- Store containment: every entry of `st'` is an entry of `st` with the same
value (removal only deletes entries). -/
def SubStore (st' st : Store) : Prop :=
  ∀ t u m, alookup (st'.getData t) u = some m → alookup (st.getData t) u = some m

/-- Deletion closure from `st` to `st'`: any record deleted between the two
states had all the entries named by its child-uid lists deleted as well. -/
def DelClosed (st st' : Store) : Prop :=
  ∀ t u m, alookup (st.getData t) u = some m → alookup (st'.getData t) u = none →
    ∀ ct cf u', (ct, cf) ∈ m.cls.children → u' ∈ m.getChildList cf →
      alookup (st'.getData ct) u' = none

/-- The Python-dict invariant that an inner mapping has no duplicate keys. -/
def StoreNodup (st : Store) : Prop :=
  ∀ p ∈ st.data, ((p.2 : List (String × Model)).map Prod.fst).Nodup

instance (st : Store) : Decidable (StoreNodup st) := by
  unfold StoreNodup; infer_instance

/-- Descendants of a record: the uids named in its child lists, and
recursively the descendants of the stored records those uids resolve to. -/
inductive Desc (st : Store) : Model → String → String → Prop where
  | direct {obj : Model} {ct cf u : String} :
      (ct, cf) ∈ obj.cls.children → u ∈ obj.getChildList cf → Desc st obj ct u
  | step {obj : Model} {ct u : String} {c : Model} {ct' cf' u' : String} :
      Desc st obj ct u → alookup (st.getData ct) u = some c →
      (ct', cf') ∈ c.cls.children → u' ∈ c.getChildList cf' → Desc st obj ct' u'

theorem alookup_eq_none_iff {l : List (String × α)} {k : String} :
    alookup l k = none ↔ k ∉ l.map Prod.fst := by
  induction l with
  | nil => simp [alookup]
  | cons p rest ih =>
    obtain ⟨pk, pv⟩ := p
    by_cases hp : pk = k
    · subst hp
      simp [alookup]
    · simp [alookup, hp, ih, Ne.symm hp]

theorem subStore_absent {st' st : Store} (h : SubStore st' st) {t u : String}
    (ha : alookup (st.getData t) u = none) : alookup (st'.getData t) u = none := by
  cases hl : alookup (st'.getData t) u with
  | none => rfl
  | some m => rw [h t u m hl] at ha; cases ha

theorem subStore_trans {st3 st2 st1 : Store} (h32 : SubStore st3 st2)
    (h21 : SubStore st2 st1) : SubStore st3 st1 :=
  fun t u m hm => h21 t u m (h32 t u m hm)

theorem delClosed_refl (st : Store) : DelClosed st st := by
  intro t u m hm habs
  rw [hm] at habs
  cases habs

theorem delClosed_comp {st1 st2 st3 : Store} (h12 : DelClosed st1 st2)
    (h23 : DelClosed st2 st3) (hsub21 : SubStore st2 st1) (hsub32 : SubStore st3 st2) :
    DelClosed st1 st3 := by
  intro t u m hm habs ct cf u' hcf hu'
  cases h2 : alookup (st2.getData t) u with
  | none => exact subStore_absent hsub32 (h12 t u m hm h2 ct cf u' hcf hu')
  | some m2 =>
    have : m2 = m := by
      have := hsub21 t u m2 h2
      rw [hm] at this
      exact (Option.some.injEq _ _ ▸ this).symm ▸ rfl
    subst this
    exact h23 t u m2 h2 habs ct cf u' hcf hu'

theorem adel_keys_sublist (l : List (String × α)) (k : String) :
    ((adel l k).map Prod.fst).Sublist (l.map Prod.fst) := by
  induction l with
  | nil => simp [adel]
  | cons p rest ih =>
    by_cases hp : p.1 = k
    · simp only [adel, if_pos hp, List.map_cons]
      exact (List.sublist_cons_self _ _)
    · simp only [adel, if_neg hp, List.map_cons]
      exact ih.cons₂ _

theorem alookup_adel_self_of_nodup {l : List (String × α)} {k : String}
    (hnd : (l.map Prod.fst).Nodup) : alookup (adel l k) k = none := by
  induction l with
  | nil => simp [adel, alookup]
  | cons p rest ih =>
    obtain ⟨pk, pv⟩ := p
    simp only [List.map_cons, List.nodup_cons] at hnd
    by_cases hp : pk = k
    · subst hp
      simp only [adel, if_pos rfl]
      rw [alookup_eq_none_iff]
      exact hnd.1
    · simp only [adel, if_neg hp, alookup, if_neg hp]
      exact ih hnd.2

theorem alookup_adel_some_of_nodup {l : List (String × α)} {k k' : String} {v : α}
    (hnd : (l.map Prod.fst).Nodup) (h : alookup (adel l k) k' = some v) :
    alookup l k' = some v := by
  by_cases hk : k = k'
  · subst hk
    rw [alookup_adel_self_of_nodup hnd] at h
    cases h
  · rwa [alookup_adel_ne _ hk] at h

theorem subStore_refl (st : Store) : SubStore st st := fun _ _ _ h => h

theorem nodup_getData {st : Store} (hnk : StoreNodup st) (t : String) :
    ((st.getData t).map Prod.fst).Nodup := by
  unfold Store.getData
  cases hd : alookup st.data t with
  | none => simp
  | some entries => exact hnk (t, entries) (mem_of_alookup_eq_some hd)

theorem subStore_adel (st : Store) (t u : String) (hnk : StoreNodup st) :
    SubStore (st.setData t (adel (st.getData t) u)) st := by
  intro t' u' m hm
  by_cases ht : t = t'
  · subst ht
    rw [getData_setData_self] at hm
    exact alookup_adel_some_of_nodup (nodup_getData hnk t) hm
  · rwa [getData_setData_ne _ _ ht] at hm

theorem storeNodup_adel (st : Store) (t u : String) (hnk : StoreNodup st) :
    StoreNodup (st.setData t (adel (st.getData t) u)) := by
  intro p hp
  simp only [Store.setData] at hp
  rcases mem_aset hp with hp | rfl
  · exact hnk p hp
  · exact (nodup_getData hnk t).sublist (adel_keys_sublist _ _)

/-- The goal of the fuel induction for recursive removal: a successful
`remove(obj, remove_children=True)` of a record stored under its own key only
deletes entries, deletes the record's entry and the entries its child lists
name, and is deletion-closed: every deleted record's child-list entries were
deleted too. -/
def RemoveDescPred (fuel : Nat) : Prop :=
  ∀ st obj st' o', WellKeyed st → StoreNodup st →
    alookup (st.getData obj.get_type) obj.get_unique_id = some obj →
    Store.remove fuel st obj true = .ok (st', o') →
    SubStore st' st ∧ DelClosed st st' ∧ StoreNodup st' ∧
    alookup (st'.getData obj.get_type) obj.get_unique_id = none ∧
    ∀ ct cf u, (ct, cf) ∈ obj.cls.children → u ∈ obj.getChildList cf →
      alookup (st'.getData ct) u = none

def RemoveUidsDescPred (fuel : Nat) : Prop :=
  ∀ st ct uids st', WellKeyed st → StoreNodup st →
    removeUids fuel st ct uids = .ok st' →
    SubStore st' st ∧ DelClosed st st' ∧ StoreNodup st' ∧
    ∀ u ∈ uids, alookup (st'.getData ct) u = none

def RemoveTypesDescPred (fuel : Nat) : Prop :=
  ∀ st obj cmap st', WellKeyed st → StoreNodup st →
    removeTypes fuel st obj cmap = .ok st' →
    SubStore st' st ∧ DelClosed st st' ∧ StoreNodup st' ∧
    ∀ p ∈ cmap, ∀ u ∈ obj.getChildList p.2, alookup (st'.getData p.1) u = none

theorem removeDescAll (fuel : Nat) :
    RemoveDescPred fuel ∧ RemoveUidsDescPred fuel ∧ RemoveTypesDescPred fuel := by
  induction fuel with
  | zero =>
    refine ⟨?_, ?_, ?_⟩
    · intro st obj st' o' _ _ _ h
      simp [Store.remove] at h
    · intro st ct uids st' _ _ h
      simp [removeUids] at h
    · intro st obj cmap st' _ _ h
      simp [removeTypes] at h
  | succ f ih =>
    obtain ⟨ihR, ihU, ihT⟩ := ih
    have hU : RemoveUidsDescPred (f + 1) := by
      intro st ct uids st' hwk hnk h
      match uids with
      | [] =>
        simp only [removeUids] at h
        cases h
        exact ⟨subStore_refl st, delClosed_refl st, hnk, by simp⟩
      | u :: rest =>
        cases hl : alookup (st.getData ct) u with
        | none =>
          have heq : removeUids (f + 1) st ct (u :: rest) = removeUids f st ct rest := by
            simp [removeUids, hl]
          rw [heq] at h
          obtain ⟨hsub, hphi, hnk', habs⟩ := ihU st ct rest st' hwk hnk h
          refine ⟨hsub, hphi, hnk', ?_⟩
          intro u' hu'
          rcases List.mem_cons.mp hu' with rfl | hu'
          · exact subStore_absent hsub hl
          · exact habs u' hu'
        | some c =>
          have hck := wellKeyed_getData hwk hl
          cases hr : Store.remove f st c true with
          | error p =>
            obtain ⟨pe, pst, po⟩ := p
            have : removeUids (f + 1) st ct (u :: rest) = .error (pe, pst) := by
              simp [removeUids, hl, hr]
            rw [this] at h
            cases h
          | ok p =>
            obtain ⟨stc, o2⟩ := p
            have heq : removeUids (f + 1) st ct (u :: rest) = removeUids f stc ct rest := by
              simp [removeUids, hl, hr]
            rw [heq] at h
            have hsame : alookup (st.getData c.get_type) c.get_unique_id = some c := by
              rw [hck.1, hck.2]
              exact hl
            obtain ⟨hsub1, hphi1, hnk1, hkey, _⟩ := ihR st c stc o2 hwk hnk hsame hr
            have hwk1 : WellKeyed stc := ((removeAllPred f).1 st c true hwk).1 stc o2 hr
            obtain ⟨hsub2, hphi2, hnk2, habs⟩ := ihU stc ct rest st' hwk1 hnk1 h
            refine ⟨subStore_trans hsub2 hsub1, delClosed_comp hphi1 hphi2 hsub1 hsub2,
              hnk2, ?_⟩
            intro u' hu'
            rcases List.mem_cons.mp hu' with rfl | hu'
            · refine subStore_absent hsub2 ?_
              rw [hck.1, hck.2] at hkey
              exact hkey
            · exact habs u' hu'
    have hT : RemoveTypesDescPred (f + 1) := by
      intro st obj cmap st' hwk hnk h
      match cmap with
      | [] =>
        simp only [removeTypes] at h
        cases h
        exact ⟨subStore_refl st, delClosed_refl st, hnk, by simp⟩
      | (ct, cf) :: rest =>
        cases hr : removeUids f st ct (obj.getChildList cf) with
        | error q =>
          obtain ⟨qe, qst⟩ := q
          have : removeTypes (f + 1) st obj ((ct, cf) :: rest) = .error (qe, qst) := by
            simp [removeTypes, hr]
          rw [this] at h
          cases h
        | ok st1 =>
          have heq : removeTypes (f + 1) st obj ((ct, cf) :: rest) =
              removeTypes f st1 obj rest := by
            simp [removeTypes, hr]
          rw [heq] at h
          obtain ⟨hsub1, hphi1, hnk1, habs1⟩ := ihU st ct (obj.getChildList cf) st1 hwk hnk hr
          have hwk1 : WellKeyed st1 := ((removeAllPred f).2.1 st ct (obj.getChildList cf) hwk).1 st1 hr
          obtain ⟨hsub2, hphi2, hnk2, habs2⟩ := ihT st1 obj rest st' hwk1 hnk1 h
          refine ⟨subStore_trans hsub2 hsub1, delClosed_comp hphi1 hphi2 hsub1 hsub2,
            hnk2, ?_⟩
          intro p hp u hu
          rcases List.mem_cons.mp hp with rfl | hp
          · exact subStore_absent hsub2 (habs1 u hu)
          · exact habs2 p hp u hu
    refine ⟨?_, hU, hT⟩
    intro st obj st' o' hwk hnk hsame h
    have hg : (alookup (st.getData obj.get_type) obj.get_unique_id).isNone = false := by
      rw [hsame]
      rfl
    set obj1 := if obj.dsync == some st.sid then { obj with dsync := none } else obj with hobj1
    have hcls1 : obj1.cls = obj.cls := by
      rw [hobj1]
      split <;> rfl
    have hchl1 : ∀ cf, obj1.getChildList cf = obj.getChildList cf := by
      intro cf
      rw [hobj1]
      split <;> rfl
    set st1 := st.setData obj.get_type (adel (st.getData obj.get_type) obj.get_unique_id)
      with hst1
    have hwk1 : WellKeyed st1 := wellKeyed_adel st _ _ hwk
    have hnk1 : StoreNodup st1 := storeNodup_adel st _ _ hnk
    cases ht : removeTypes f st1 obj1 obj1.cls.children with
    | error q =>
      obtain ⟨qe, qst⟩ := q
      have : Store.remove (f + 1) st obj true = .error (qe, qst, obj1) := by
        simp only [Store.remove]
        rw [if_neg (by rw [hg]; simp)]
        simp only [← hobj1, ← hst1]
        rw [ht]
        rfl
      rw [this] at h
      cases h
    | ok st2 =>
      have heq : Store.remove (f + 1) st obj true = .ok (st2, obj1) := by
        simp only [Store.remove]
        rw [if_neg (by rw [hg]; simp)]
        simp only [← hobj1, ← hst1]
        rw [ht]
        rfl
      rw [heq] at h
      injection h with h2
      injection h2 with hst ho
      subst hst
      subst ho
      obtain ⟨hsubT, hphiT, hnkT, habsT⟩ := ihT st1 obj1 obj1.cls.children st2 hwk1 hnk1 ht
      have hsubDel : SubStore st1 st := by
        rw [hst1]
        exact subStore_adel st _ _ hnk
      have hkeyAbsent : alookup (st1.getData obj.get_type) obj.get_unique_id = none := by
        rw [hst1, getData_setData_self]
        exact alookup_adel_self_of_nodup (nodup_getData hnk _)
      refine ⟨subStore_trans hsubT hsubDel, ?_, hnkT, ?_, ?_⟩
      · intro t u m hm habs ct cf u' hcf hu'
        by_cases hkey : t = obj.get_type ∧ u = obj.get_unique_id
        · obtain ⟨ht', hu''⟩ := hkey
          subst ht'
          subst hu''
          have hmobj : m = obj := by
            have h2 := hm.symm.trans hsame
            injection h2
          subst hmobj
          refine habsT (ct, cf) ?_ u' ?_
          · rw [hcls1]
            exact hcf
          · rw [hchl1]
            exact hu'
        · have hm1 : alookup (st1.getData t) u = some m := by
            rw [hst1]
            by_cases ht' : t = obj.get_type
            · subst ht'
              have hu'' : u ≠ obj.get_unique_id := fun hc => hkey ⟨rfl, hc⟩
              rw [getData_setData_self, alookup_adel_ne _ (Ne.symm hu'')]
              exact hm
            · rw [getData_setData_ne _ _ (Ne.symm ht')]
              exact hm
          exact hphiT t u m hm1 habs ct cf u' hcf hu'
      · exact subStore_absent hsubT hkeyAbsent
      · intro ct cf u hcf hu
        have := habsT (ct, cf) (by rw [hcls1]; exact hcf) u (by rw [hchl1]; exact hu)
        exact this

/-- Under deletion-closure, every descendant of a record whose direct
child entries were deleted is deleted. -/
theorem desc_absent {st st' : Store} {obj : Model} (hphi : DelClosed st st')
    (hedges : ∀ ct cf u, (ct, cf) ∈ obj.cls.children → u ∈ obj.getChildList cf →
      alookup (st'.getData ct) u = none) :
    ∀ t u, Desc st obj t u → alookup (st'.getData t) u = none := by
  intro t u hd
  induction hd with
  | direct hcf hu => exact hedges _ _ _ hcf hu
  | step hdu hlook hcf hu ih => exact hphi _ _ _ hlook ih _ _ _ hcf hu

/-- C6: SKIP_CHILDREN_ON_DELETE.  When sync applies a delete element whose
record's delete hook succeeds (returning the record, per the documented hook
contract) and the record's flags include SKIP_CHILDREN_ON_DELETE, the sync
step returns having (a) traced exactly the element's visit and its one delete
hook call - so no child DiffElement is processed and no descendant's delete
hook is invoked - and (b) removed the record and every descendant of it from
the destination store.  Assumes the documented store invariants (entries
keyed by their record's unique id; Python dicts have no duplicate keys). -/
theorem C6_skip_children_on_delete
    (fuel : Nat) (hooks : Hooks) (flags : Nat) (st : Store) (tr : List Ev)
    (elType elName : String) (keys da : AttrDict)
    (ch : List (String × List (String × DiffElement)))
    (cls : ModelClass) (o : Model)
    (hwk : WellKeyed st) (hnk : StoreNodup st)
    (hcls : alookup st.classes elType = some cls)
    (hobj : st.getByClass cls keys = some o)
    (hhook : hooks.delete o = .ok o)
    (hflag : hasFlag o.model_flags SKIP_CHILDREN_ON_DELETE = true)
    (st' : Store) (p' : Option Model) (tr' : List Ev)
    (hok : sync_from_diff_element fuel hooks flags st none tr
      (DiffElement.mk elType elName keys none (some da) ch) = .ok (st', p', tr')) :
    tr' = tr ++ [.visited elType (cls.create_unique_id keys),
                 .hookDelete elType (cls.create_unique_id keys)] ∧
    alookup (st'.getData o.get_type) o.get_unique_id = none ∧
    (∀ t u, Desc st o t u → alookup (st'.getData t) u = none) := by
  match fuel, hok with
  | 0, hok => simp [sync_from_diff_element] at hok
  | f + 1, hok =>
    have hact : (DiffElement.mk elType elName keys none (some da) ch).action =
        some "delete" := by
      simp [DiffElement.action]
    rw [show sync_from_diff_element (f + 1) hooks flags st none tr
          (DiffElement.mk elType elName keys none (some da) ch) =
        afterCatch f hooks flags st none
          (tr ++ [.visited elType (cls.create_unique_id keys),
                  .hookDelete elType (cls.create_unique_id keys)])
          (some "delete") ch (some o) from by
      simp only [sync_from_diff_element, hcls, hobj, hact, hhook]
      simp] at hok
    match f, hok with
    | 0, hok => simp [afterCatch] at hok
    | g + 1, hok =>
      rw [show afterCatch (g + 1) hooks flags st none
            (tr ++ [.visited elType (cls.create_unique_id keys),
                    .hookDelete elType (cls.create_unique_id keys)])
            (some "delete") ch (some o) =
          (match Store.remove g st o true with
           | .error (e, st1, _) => .error (e, st1,
               tr ++ [.visited elType (cls.create_unique_id keys),
                      .hookDelete elType (cls.create_unique_id keys)])
           | .ok (st1, _) => .ok (st1, none,
               tr ++ [.visited elType (cls.create_unique_id keys),
                      .hookDelete elType (cls.create_unique_id keys)])) from by
        simp only [afterCatch, hflag]
        simp] at hok
      cases hr : Store.remove g st o true with
      | error q =>
        obtain ⟨qe, qst, qo⟩ := q
        rw [hr] at hok
        cases hok
      | ok p =>
        obtain ⟨st2, o2⟩ := p
        rw [hr] at hok
        injection hok with h2
        injection h2 with hst h3
        injection h3 with hp htr
        subst hst
        subst htr
        have hck := wellKeyed_getData hwk (show alookup (st.getData cls.modelname)
          (cls.create_unique_id keys) = some o from hobj)
        have hsame : alookup (st.getData o.get_type) o.get_unique_id = some o := by
          rw [hck.1, hck.2]
          exact hobj
        obtain ⟨hsub, hphi, hnk2, hkey, hedges⟩ :=
          (removeDescAll g).1 st o st2 o2 hwk hnk hsame hr
        exact ⟨rfl, hkey, desc_absent hphi hedges⟩

/-- Concrete data for the C6 witness: a site flagged SKIP_CHILDREN_ON_DELETE
with one device child. -/
def devCls6 : ModelClass :=
  { modelname := "device", identifiers := ["name"], shortname := [],
    attributes := [], children := [] }

def siteCls6 : ModelClass :=
  { modelname := "site", identifiers := ["name"], shortname := [],
    attributes := [], children := [("device", "devices")] }

def wSite6 : Model :=
  { cls := siteCls6, fields := [("name", "nyc")], childFields := [("devices", ["d1"])],
    model_flags := SKIP_CHILDREN_ON_DELETE, dsync := none }

def wDev6 : Model :=
  { cls := devCls6, fields := [("name", "d1")], childFields := [],
    model_flags := 0, dsync := none }

def wStore6 : Store :=
  { sid := 3, name := "w6", top_level := ["site"],
    classes := [("site", siteCls6), ("device", devCls6)],
    data := [("site", [("nyc", wSite6)]), ("device", [("d1", wDev6)])] }

/-- C6 witness: syncing a delete element for the flagged site visits only that
element, invokes only its own delete hook, and removes the site from the
store. -/
theorem C6_skip_children_on_delete_witness :
    ∃ st' p' tr',
      sync_from_diff_element 10 defaultHooks 0 wStore6 none []
        (DiffElement.mk "site" "nyc" [("name", "nyc")] none (some []) []) =
          .ok (st', p', tr') ∧
      tr' = [.visited "site" "nyc", .hookDelete "site" "nyc"] ∧
      alookup (st'.getData wSite6.get_type) wSite6.get_unique_id = none := by
  cases hs : sync_from_diff_element 10 defaultHooks 0 wStore6 none []
      (DiffElement.mk "site" "nyc" [("name", "nyc")] none (some []) []) with
  | error q =>
    have hok : exceptIsOk (sync_from_diff_element 10 defaultHooks 0 wStore6 none []
        (DiffElement.mk "site" "nyc" [("name", "nyc")] none (some []) [])) = true := by
      decide
    rw [hs] at hok
    simp [exceptIsOk] at hok
  | ok trip =>
    obtain ⟨st', p', tr'⟩ := trip
    have hmain := C6_skip_children_on_delete 10 defaultHooks 0 wStore6 []
      "site" "nyc" [("name", "nyc")] [] [] siteCls6 wSite6
      (by decide) (by decide) (by decide) (by decide) rfl (by decide) st' p' tr' hs
    refine ⟨st', p', tr', rfl, ?_, hmain.2.1⟩
    rw [hmain.1]
    rfl

/-! ## Failure handling during sync

On a caught CRUD error (CONTINUE_ON_FAILURE set), lines 559-561 skip the
element's children only when the local `obj` ended up `None`.  After a failed
update or delete hook on an existing destination object `obj` is that object,
not `None`: an update failure therefore still processes the children, and a
delete failure still removes the record — processing the children afterwards
unless the record carries SKIP_CHILDREN_ON_DELETE, in which case lines
570-573 discard the subtree and return before the child loop at line 576. -/

def aCls3 : ModelClass :=
  { modelname := "a", identifiers := ["name"], shortname := [],
    attributes := ["v"], children := [("b", "bs")] }

def bCls3 : ModelClass :=
  { modelname := "b", identifiers := ["name"], shortname := [],
    attributes := [], children := [] }

def wA3 : Model :=
  { cls := aCls3, fields := [("name", "x"), ("v", "1")], childFields := [("bs", ["y"])],
    model_flags := 0, dsync := none }

def wB3 : Model :=
  { cls := bCls3, fields := [("name", "y")], childFields := [],
    model_flags := 0, dsync := none }

def wStore3 : Store :=
  { sid := 4, name := "w3", top_level := ["a"],
    classes := [("a", aCls3), ("b", bCls3)],
    data := [("a", [("x", wA3)]), ("b", [("y", wB3)])] }

/-- Hooks whose update always raises a CRUD error. -/
def hooks3 : Hooks :=
  { create := defaultHooks.create, update := fun _ _ => .err .notUpdated,
    delete := defaultHooks.delete }

def elB3 : DiffElement := .mk "b" "y" [("name", "y")] (some []) (some []) []

def el3 : DiffElement :=
  .mk "a" "x" [("name", "x")] (some [("v", "2")]) (some [("v", "1")])
    [("b", [("y", elB3)])]

/-- C3 counterexample: an update element whose hook raises a CRUD error while
CONTINUE_ON_FAILURE is set; the sync continues and the element's child
DiffElement IS processed (its visit appears in the trace), contradicting the
claim that none of the element's children are processed. -/
theorem C3_counterexample :
    ∃ st' p' tr',
      sync_from_diff_element 10 hooks3 CONTINUE_ON_FAILURE wStore3 none [] el3 =
        .ok (st', p', tr') ∧
      Ev.visited "b" "y" ∈ tr' := by
  cases hs : sync_from_diff_element 10 hooks3 CONTINUE_ON_FAILURE wStore3 none [] el3 with
  | error q =>
    have hok : exceptIsOk
        (sync_from_diff_element 10 hooks3 CONTINUE_ON_FAILURE wStore3 none [] el3) = true := by
      decide
    rw [hs] at hok
    simp [exceptIsOk] at hok
  | ok trip =>
    obtain ⟨st', p', tr'⟩ := trip
    refine ⟨st', p', tr', rfl, ?_⟩
    have hvis : (sync_from_diff_element 10 hooks3 CONTINUE_ON_FAILURE wStore3 none []
        el3).toOption.map (fun t => decide (Ev.visited "b" "y" ∈ t.2.2)) = some true := by
      decide
    rw [hs] at hvis
    simp [Except.toOption] at hvis
    exact hvis

/-- C3 (amended): with CONTINUE_ON_FAILURE, a caught CRUD error abandons the
element's subtree only when the post-action object reference is absent, which
happens for a failed create (no existing destination object); a hook that
succeeds but returns an absent value likewise abandons the subtree.  A caught
update-hook error on an existing destination object does NOT abandon the
subtree: the element's children are still processed (with the existing object
as parent).  A caught delete-hook error on an existing destination object
still removes the record; the children are then processed unless the record
carries SKIP_CHILDREN_ON_DELETE, in which case the subtree is discarded and
the sync returns before the child loop.  Without CONTINUE_ON_FAILURE a raised
CRUD error propagates and aborts the sync. -/
theorem C3_failure_handling_amended
    (g : Nat) (hooks : Hooks) (flags : Nat) (st : Store) (parent : Option Model)
    (tr : List Ev) (elType elName : String) (keys : AttrDict)
    (sa da : Option AttrDict) (ch : List (String × List (String × DiffElement)))
    (cls : ModelClass) (hcls : alookup st.classes elType = some cls) :
    ((DiffElement.mk elType elName keys sa da ch).action = some "create" →
      st.getByClass cls keys = none →
      ∀ e, hooks.create cls st.sid keys
        (DiffElement.mk elType elName keys sa da ch).get_attrs_diffs = .err e →
      e.isCrud = true → hasFlag flags CONTINUE_ON_FAILURE = true →
      sync_from_diff_element (g + 2) hooks flags st parent tr
        (DiffElement.mk elType elName keys sa da ch) =
        .ok (st, parent, tr ++ [.visited elType (cls.create_unique_id keys),
          .hookCreate elType (cls.create_unique_id keys)])) ∧
    ((DiffElement.mk elType elName keys sa da ch).action = some "update" →
      ∀ o, st.getByClass cls keys = some o →
      hooks.update o (DiffElement.mk elType elName keys sa da ch).get_attrs_diffs = .absent →
      sync_from_diff_element (g + 2) hooks flags st parent tr
        (DiffElement.mk elType elName keys sa da ch) =
        .ok (st, parent, tr ++ [.visited elType (cls.create_unique_id keys),
          .hookUpdate elType (cls.create_unique_id keys)])) ∧
    ((DiffElement.mk elType elName keys sa da ch).action = some "update" →
      ∀ o, st.getByClass cls keys = some o →
      ∀ e, hooks.update o (DiffElement.mk elType elName keys sa da ch).get_attrs_diffs = .err e →
      e.isCrud = true → hasFlag flags CONTINUE_ON_FAILURE = true →
      sync_from_diff_element (g + 2) hooks flags st parent tr
        (DiffElement.mk elType elName keys sa da ch) =
        syncGroups g hooks flags st o
          (tr ++ [.visited elType (cls.create_unique_id keys),
            .hookUpdate elType (cls.create_unique_id keys)]) parent ch) ∧
    ((DiffElement.mk elType elName keys sa da ch).action = some "update" →
      ∀ o, st.getByClass cls keys = some o →
      ∀ e, hooks.update o (DiffElement.mk elType elName keys sa da ch).get_attrs_diffs = .err e →
      hasFlag flags CONTINUE_ON_FAILURE = false →
      sync_from_diff_element (g + 2) hooks flags st parent tr
        (DiffElement.mk elType elName keys sa da ch) =
        .error (e, st, tr ++ [.visited elType (cls.create_unique_id keys),
          .hookUpdate elType (cls.create_unique_id keys)])) ∧
    ((DiffElement.mk elType elName keys sa da ch).action = some "delete" →
      ∀ o, st.getByClass cls keys = some o →
      ∀ e, hooks.delete o = .err e →
      e.isCrud = true → hasFlag flags CONTINUE_ON_FAILURE = true →
      hasFlag o.model_flags SKIP_CHILDREN_ON_DELETE = true →
      ∀ st1 o1, Store.remove g st o true = .ok (st1, o1) →
      sync_from_diff_element (g + 2) hooks flags st none tr
        (DiffElement.mk elType elName keys sa da ch) =
        .ok (st1, none, tr ++ [.visited elType (cls.create_unique_id keys),
          .hookDelete elType (cls.create_unique_id keys)])) ∧
    ((DiffElement.mk elType elName keys sa da ch).action = some "delete" →
      ∀ o, st.getByClass cls keys = some o →
      ∀ e, hooks.delete o = .err e →
      e.isCrud = true → hasFlag flags CONTINUE_ON_FAILURE = true →
      hasFlag o.model_flags SKIP_CHILDREN_ON_DELETE = false →
      ∀ st1 o1, Store.remove g st o false = .ok (st1, o1) →
      sync_from_diff_element (g + 2) hooks flags st none tr
        (DiffElement.mk elType elName keys sa da ch) =
        syncGroups g hooks flags st1 o1
          (tr ++ [.visited elType (cls.create_unique_id keys),
            .hookDelete elType (cls.create_unique_id keys)]) none ch) := by
  refine ⟨?_, ?_, ?_, ?_, ?_, ?_⟩
  · intro hact hobj e hcreate hcrud hflag
    simp only [sync_from_diff_element, hcls, hobj, hact, hcreate, hcrud, hflag]
    simp [afterCatch, hcrud, hflag]
  · intro hact o hobj hupd
    simp only [sync_from_diff_element, hcls, hobj, hact, hupd]
    simp [afterCatch]
  · intro hact o hobj e hupd hcrud hflag
    simp only [sync_from_diff_element, hcls, hobj, hact, hupd, hcrud, hflag]
    simp only [afterCatch]
    simp [hact, hcrud, hflag]
  · intro hact o hobj e hupd hflag
    simp only [sync_from_diff_element, hcls, hobj, hact, hupd, hflag]
    simp
  · intro hact o hobj e hdel hcrud hflag hskip st1 o1 hrem
    simp only [sync_from_diff_element, hcls, hobj, hact, hdel, hcrud, hflag]
    simp only [afterCatch]
    simp [hact, hcrud, hflag, hskip, hrem]
  · intro hact o hobj e hdel hcrud hflag hskip st1 o1 hrem
    simp only [sync_from_diff_element, hcls, hobj, hact, hdel, hcrud, hflag]
    simp only [afterCatch]
    simp [hact, hcrud, hflag, hskip, hrem]

/-- Hooks whose delete always raises a CRUD error. -/
def hooks3d : Hooks :=
  { create := defaultHooks.create, update := defaultHooks.update,
    delete := fun _ => .err .notDeleted }

/-- Like `wA3`, but flagged SKIP_CHILDREN_ON_DELETE. -/
def wA3d : Model :=
  { cls := aCls3, fields := [("name", "x"), ("v", "1")], childFields := [("bs", ["y"])],
    model_flags := SKIP_CHILDREN_ON_DELETE, dsync := none }

def wStore3d : Store :=
  { sid := 4, name := "w3d", top_level := ["a"],
    classes := [("a", aCls3), ("b", bCls3)],
    data := [("a", [("x", wA3d)]), ("b", [("y", wB3)])] }

def elB3d : DiffElement := .mk "b" "y" [("name", "y")] none (some []) []

def el3d : DiffElement :=
  .mk "a" "x" [("name", "x")] none (some [("v", "1")]) [("b", [("y", elB3d)])]

/-- C3 witness: the amended theorem at concrete inputs.  First, the
counterexample's update element: the sync continues into the children.
Second, a delete element whose hook fails on a record flagged
SKIP_CHILDREN_ON_DELETE: the record and its subtree are removed and the
child DiffElement is NOT processed (the run ends with only the element's
own visit and delete-hook events). -/
theorem C3_failure_handling_amended_witness :
    (sync_from_diff_element 10 hooks3 CONTINUE_ON_FAILURE wStore3 none [] el3 =
      syncGroups 8 hooks3 CONTINUE_ON_FAILURE wStore3 wA3
        [.visited "a" "x", .hookUpdate "a" "x"] none [("b", [("y", elB3)])]) ∧
    (sync_from_diff_element 10 hooks3d CONTINUE_ON_FAILURE wStore3d none [] el3d =
      .ok ({ wStore3d with data := [("a", []), ("b", [])] }, none,
        [.visited "a" "x", .hookDelete "a" "x"])) :=
  ⟨(C3_failure_handling_amended 8 hooks3 CONTINUE_ON_FAILURE wStore3 none []
    "a" "x" [("name", "x")] (some [("v", "2")]) (some [("v", "1")])
    [("b", [("y", elB3)])] aCls3 (by decide)).2.2.1 (by decide) wA3 (by decide)
    .notUpdated rfl (by decide) (by decide),
  (C3_failure_handling_amended 8 hooks3d CONTINUE_ON_FAILURE wStore3d none []
    "a" "x" [("name", "x")] none (some [("v", "1")])
    [("b", [("y", elB3d)])] aCls3 (by decide)).2.2.2.2.1 (by decide) wA3d (by decide)
    .notDeleted rfl (by decide) (by decide) (by decide)
    { wStore3d with data := [("a", []), ("b", [])] } wA3d (by decide)⟩

/-! ## Round-trip convergence (C1)

The development below proves that `A.sync_from(B)` followed by
`A.diff_from(B)` yields an empty diff for acyclic, conflict-free input
stores.  It proceeds in phases: dictionary infrastructure; the reference
graph of a pair of stores with its forest conditions; the provenance
relation `GoodPair` that the differ establishes for every element it
produces; the agreement relation `Synced` that the syncer establishes for
every element it applies; and the emptiness of a diff between agreeing
stores. -/

theorem alookup_aset_cases {l : List (String × α)} {k k' : String} {v w : α}
    (h : alookup (aset l k v) k' = some w) :
    (k' = k ∧ w = v) ∨ (k' ≠ k ∧ alookup l k' = some w) := by
  by_cases hk : k' = k
  · subst hk
    rw [alookup_aset_self] at h
    exact Or.inl ⟨rfl, (Option.some.injEq _ _).mp h.symm⟩
  · rw [alookup_aset_ne _ _ (fun he => hk he.symm)] at h
    exact Or.inr ⟨hk, h⟩

theorem alookup_aset_isSome_mono {l : List (String × α)} {k k' : String} {v : α}
    (h : (alookup l k').isSome) : (alookup (aset l k v) k').isSome := by
  by_cases hk : k' = k
  · subst hk; simp
  · rwa [alookup_aset_ne _ _ (fun he => hk he.symm)]

theorem alookup_append_of_none {l l' : List (String × α)} {k : String}
    (h : alookup l k = none) : alookup (l ++ l') k = alookup l' k := by
  induction l with
  | nil => simp
  | cons p rest ih =>
    obtain ⟨pk, pv⟩ := p
    by_cases hp : pk = k
    · simp [alookup, hp] at h
    · simp only [alookup, if_neg hp] at h
      simpa [alookup, hp] using ih h

theorem alookup_append_of_some {l l' : List (String × α)} {k : String} {v : α}
    (h : alookup l k = some v) : alookup (l ++ l') k = some v := by
  induction l with
  | nil => simp [alookup] at h
  | cons p rest ih =>
    obtain ⟨pk, pv⟩ := p
    by_cases hp : pk = k
    · simpa [alookup, hp] using h
    · simp only [alookup, if_neg hp] at h ⊢
      exact ih h

theorem aset_keys (l : List (String × α)) (k : String) (v : α) :
    (aset l k v).map Prod.fst =
      if k ∈ l.map Prod.fst then l.map Prod.fst else l.map Prod.fst ++ [k] := by
  induction l with
  | nil => simp [aset]
  | cons p rest ih =>
    obtain ⟨pk, pv⟩ := p
    by_cases hp : pk = k
    · subst hp
      simp [aset]
    · simp only [aset, if_neg hp, List.map_cons, ih, List.mem_cons]
      by_cases hm : k ∈ rest.map Prod.fst
      · simp [hm, Ne.symm hp]
      · simp [hm, Ne.symm hp, hp]

theorem aset_keys_nodup {l : List (String × α)} {k : String} {v : α}
    (h : (l.map Prod.fst).Nodup) : ((aset l k v).map Prod.fst).Nodup := by
  rw [aset_keys]
  by_cases hm : k ∈ l.map Prod.fst
  · simpa [hm] using h
  · simpa [hm] using List.Nodup.append h (by simp) (by simpa using hm)

theorem mem_keys_of_alookup_isSome {l : List (String × α)} {k : String}
    (h : (alookup l k).isSome) : k ∈ l.map Prod.fst := by
  induction l with
  | nil => simp [alookup] at h
  | cons p rest ih =>
    obtain ⟨pk, pv⟩ := p
    by_cases hp : pk = k
    · simp [hp]
    · simp only [alookup, if_neg hp] at h
      simp [ih h]

theorem alookup_of_mem_nodup {l : List (String × α)} {k : String} {v : α}
    (hnd : (l.map Prod.fst).Nodup) (hm : (k, v) ∈ l) : alookup l k = some v := by
  induction l with
  | nil => simp at hm
  | cons p rest ih =>
    obtain ⟨pk, pv⟩ := p
    simp only [List.map_cons, List.nodup_cons] at hnd
    rcases List.mem_cons.mp hm with he | hm'
    · cases he
      simp [alookup]
    · have hk : pk ≠ k := by
        intro he
        subst he
        exact hnd.1 (by simpa using List.mem_map_of_mem Prod.fst hm')
      simp only [alookup, if_neg hk]
      exact ih hnd.2 hm'

/-! Characterisation of `toDict`. -/

theorem toDict_go_some {l : List Model} {acc : List (String × Model)} {u : String} {m : Model}
    (h : alookup (l.foldl (fun acc m => aset acc m.get_unique_id m) acc) u = some m) :
    (m ∈ l ∧ m.get_unique_id = u) ∨ alookup acc u = some m := by
  induction l generalizing acc with
  | nil => exact Or.inr h
  | cons x rest ih =>
    simp only [List.foldl_cons] at h
    rcases ih h with hm | hacc
    · exact Or.inl ⟨List.mem_cons_of_mem _ hm.1, hm.2⟩
    · rcases alookup_aset_cases hacc with ⟨rfl, rfl⟩ | ⟨_, hacc'⟩
      · exact Or.inl ⟨List.mem_cons_self _ _, rfl⟩
      · exact Or.inr hacc'

theorem mem_of_alookup_toDict {l : List Model} {u : String} {m : Model}
    (h : alookup (toDict l) u = some m) : m ∈ l ∧ m.get_unique_id = u := by
  rcases toDict_go_some h with hm | hacc
  · exact hm
  · simp [alookup] at hacc

theorem toDict_go_isSome {l : List Model} {acc : List (String × Model)} {u : String}
    (h : (alookup acc u).isSome ∨ ∃ m ∈ l, m.get_unique_id = u) :
    (alookup (l.foldl (fun acc m => aset acc m.get_unique_id m) acc) u).isSome := by
  induction l generalizing acc with
  | nil =>
    rcases h with h | h
    · exact h
    · simp at h
  | cons x rest ih =>
    simp only [List.foldl_cons]
    refine ih ?_
    rcases h with h | ⟨m, hm, hu⟩
    · exact Or.inl (alookup_aset_isSome_mono h)
    · rcases List.mem_cons.mp hm with rfl | hm'
      · subst hu; simp
      · exact Or.inr ⟨m, hm', hu⟩

theorem alookup_toDict_isSome {l : List Model} {u : String}
    (h : ∃ m ∈ l, m.get_unique_id = u) : (alookup (toDict l) u).isSome :=
  toDict_go_isSome (Or.inr h)

/-- On a uid-consistent model list (any two members with the same uid are the
same model), `toDict` lookup is membership. -/
theorem alookup_toDict_of_consistent {l : List Model}
    (hc : ∀ m ∈ l, ∀ m' ∈ l, m.get_unique_id = m'.get_unique_id → m = m')
    {u : String} {m : Model} (hm : m ∈ l) (hu : m.get_unique_id = u) :
    alookup (toDict l) u = some m := by
  have hs : (alookup (toDict l) u).isSome := alookup_toDict_isSome ⟨m, hm, hu⟩
  obtain ⟨m', hm'⟩ := Option.isSome_iff_exists.mp hs
  obtain ⟨hmem', hu'⟩ := mem_of_alookup_toDict hm'
  rw [hm']
  exact congrArg some (hc m' hmem' m hm (by rw [hu', hu]))

theorem toDict_keys_nodup (l : List Model) : ((toDict l).map Prod.fst).Nodup := by
  have : ∀ acc : List (String × Model), (acc.map Prod.fst).Nodup →
      ((l.foldl (fun acc m => aset acc m.get_unique_id m) acc).map Prod.fst).Nodup := by
    induction l with
    | nil => intro acc h; exact h
    | cons x rest ih =>
      intro acc h
      simpa using ih _ (aset_keys_nodup h)
  exact this [] (by simp)

/-! Characterisation of `Store.get_by_uids` and `Store.get_all`. -/

theorem get_by_uids_mem {st : Store} {uids : List String} {t : String} {m : Model}
    (h : m ∈ st.get_by_uids uids t) : ∃ u ∈ uids, alookup (st.getData t) u = some m := by
  induction uids with
  | nil => simp [Store.get_by_uids] at h
  | cons u rest ih =>
    simp only [Store.get_by_uids] at h
    cases hu : alookup (st.getData t) u with
    | some m' =>
      rw [hu] at h
      rcases List.mem_cons.mp h with rfl | h'
      · exact ⟨u, List.mem_cons_self _ _, hu⟩
      · obtain ⟨u', hu', hm'⟩ := ih h'
        exact ⟨u', List.mem_cons_of_mem _ hu', hm'⟩
    | none =>
      rw [hu] at h
      obtain ⟨u', hu', hm'⟩ := ih h
      exact ⟨u', List.mem_cons_of_mem _ hu', hm'⟩

theorem get_by_uids_resolved {st : Store} {uids : List String} {t u : String} {m : Model}
    (hu : u ∈ uids) (hm : alookup (st.getData t) u = some m) :
    m ∈ st.get_by_uids uids t := by
  induction uids with
  | nil => simp at hu
  | cons u' rest ih =>
    simp only [Store.get_by_uids]
    rcases List.mem_cons.mp hu with rfl | hu'
    · rw [hm]; exact List.mem_cons_self _ _
    · cases h' : alookup (st.getData t) u' with
      | some m' => exact List.mem_cons_of_mem _ (ih hu')
      | none => exact ih hu'

theorem get_all_mem {st : Store} {t : String} {m : Model}
    (hnd : StoreNodup st) : m ∈ st.get_all t ↔ ∃ u, alookup (st.getData t) u = some m := by
  constructor
  · intro h
    simp only [Store.get_all, List.mem_map] at h
    obtain ⟨⟨u, m'⟩, hm, he⟩ := h
    cases he
    exact ⟨u, alookup_of_mem_nodup (nodup_getData hnd t) hm⟩
  · rintro ⟨u, hu⟩
    exact List.mem_map_of_mem Prod.snd (mem_of_alookup_eq_some hu)

/-! Characterisation of `combinedPairs`. -/

theorem combinedPairs_mem {src dst : List Model} {p : Option Model × Option Model}
    (h : p ∈ combinedPairs src dst) :
    ∃ u, p = (alookup (toDict src) u, alookup (toDict dst) u) ∧
      ((alookup (toDict src) u).isSome ∨ (alookup (toDict dst) u).isSome) := by
  simp only [combinedPairs, List.mem_map] at h
  obtain ⟨u, hu, rfl⟩ := h
  refine ⟨u, rfl, ?_⟩
  rcases List.mem_append.mp hu with hu | hu
  · exact Or.inl (alookup_isSome_of_mem_keys hu)
  · exact Or.inr (alookup_isSome_of_mem_keys (List.mem_filter.mp hu).1)

theorem combinedPairs_complete {src dst : List Model} {u : String}
    (h : (alookup (toDict src) u).isSome ∨ (alookup (toDict dst) u).isSome) :
    (alookup (toDict src) u, alookup (toDict dst) u) ∈ combinedPairs src dst := by
  simp only [combinedPairs, List.mem_map]
  refine ⟨u, ?_, rfl⟩
  refine List.mem_append.mpr ?_
  by_cases hs : u ∈ (toDict src).map Prod.fst
  · exact Or.inl hs
  · rcases h with h | h
    · exact absurd (mem_keys_of_alookup_isSome h) hs
    · exact Or.inr (List.mem_filter.mpr ⟨mem_keys_of_alookup_isSome h, by simpa using hs⟩)

/-- The uid sequence underlying `combinedPairs`: source-dict keys followed by
the destination-only keys. -/
def combinedUids (src dst : List Model) : List String :=
  (toDict src).map Prod.fst ++
    ((toDict dst).map Prod.fst).filter fun u => ¬ ((toDict src).map Prod.fst).contains u

theorem combinedPairs_eq_map (src dst : List Model) :
    combinedPairs src dst =
      (combinedUids src dst).map fun u => (alookup (toDict src) u, alookup (toDict dst) u) := rfl

theorem combinedUids_nodup (src dst : List Model) : (combinedUids src dst).Nodup := by
  refine List.Nodup.append (toDict_keys_nodup src) ((toDict_keys_nodup dst).filter _) ?_
  intro u hu hu'
  have h2 := (List.mem_filter.mp hu').2
  simp at h2
  obtain ⟨x, hx⟩ : ∃ x, (u, x) ∈ toDict src := by simpa using hu
  exact h2 x hx

/-! ### The reference graph of a pair of stores

`sync_from` / `calculate_diffs` recurse along child-uid references.  The
claim restricts itself to acyclic, conflict-free inputs; the embedding
formalises that restriction through the reference graph of the two stores:
keys are `(modelname, unique_id)` pairs, and a key references another when
the record stored at it names the other in one of its child-uid lists. -/

/-- A store key: `(modelname, unique_id)`. -/
abbrev SKey := String × String

/-- `p` references `x` in `st`: the record stored at `p` names `x.2` in its
child-uid list for child type `x.1`. -/
def StoreEdge (st : Store) (p x : SKey) : Prop :=
  ∃ m cf, alookup (st.getData p.1) p.2 = some m ∧ (x.1, cf) ∈ m.cls.children ∧
    x.2 ∈ m.getChildList cf

/-- A reference in either of the two stores being synchronised. -/
def Edge (S D : Store) (p x : SKey) : Prop := StoreEdge S p x ∨ StoreEdge D p x

/-- Reference-reachability: the reflexive-transitive closure of `Edge`. -/
inductive Reach (S D : Store) : SKey → SKey → Prop where
  | refl (k : SKey) : Reach S D k k
  | tail {a q x : SKey} : Reach S D a q → Edge S D q x → Reach S D a x

theorem Reach.trans {S D : Store} {a b c : SKey} (h1 : Reach S D a b)
    (h2 : Reach S D b c) : Reach S D a c := by
  induction h2 with
  | refl => exact h1
  | tail _ he ih => exact Reach.tail ih he

theorem Reach.single {S D : Store} {p x : SKey} (h : Edge S D p x) : Reach S D p x :=
  Reach.tail (Reach.refl p) h

theorem reach_cases {S D : Store} {a x : SKey} (h : Reach S D a x) :
    a = x ∨ ∃ q, Reach S D a q ∧ Edge S D q x := by
  cases h with
  | refl => exact Or.inl rfl
  | tail hr he => exact Or.inr ⟨_, hr, he⟩

theorem reach_rank {S D : Store} {rank : SKey → Nat}
    (hrk : ∀ p x, Edge S D p x → rank x < rank p) {a x : SKey}
    (h : Reach S D a x) : rank x ≤ rank a := by
  induction h with
  | refl => exact Nat.le_refl _
  | tail _ he ih => exact Nat.le_trans (Nat.le_of_lt (hrk _ _ he)) ih

/-- In a forest (unique referrers), any two keys that reach a common key are
comparable. -/
theorem reach_funnel {S D : Store}
    (hup : ∀ p q x, Edge S D p x → Edge S D q x → p = q) {a b x : SKey}
    (hax : Reach S D a x) (hbx : Reach S D b x) :
    Reach S D a b ∨ Reach S D b a := by
  revert hax
  induction hbx with
  | refl => exact fun hax => Or.inl hax
  | tail hbq he ih =>
    intro hax
    rcases reach_cases hax with rfl | ⟨q', hraq', he'⟩
    · exact Or.inr (Reach.tail hbq he)
    · cases hup q' _ _ he' he
      exact ih hraq'

/-- A key referenced by `PK` is not reachable from a sibling key also
referenced by `PK`. -/
theorem not_reach_sibling {S D : Store} {rank : SKey → Nat}
    (hup : ∀ p q x, Edge S D p x → Edge S D q x → p = q)
    (hrk : ∀ p x, Edge S D p x → rank x < rank p) {PK k1 k2 : SKey}
    (h1 : Edge S D PK k1) (h2 : Edge S D PK k2) (hne : k1 ≠ k2) :
    ¬ Reach S D k1 k2 := by
  intro hr
  rcases reach_cases hr with rfl | ⟨q, hq, he⟩
  · exact hne rfl
  · cases hup q PK k2 he h2
    exact Nat.lt_irrefl _ (Nat.lt_of_lt_of_le (hrk _ _ h1) (reach_rank hrk hq))

/-- An unreferenced key is unreachable from any other key. -/
theorem not_reach_unreferenced {S D : Store} {k1 k2 : SKey}
    (htf : ∀ p, ¬ Edge S D p k2) (hne : k1 ≠ k2) : ¬ Reach S D k1 k2 := by
  intro hr
  rcases reach_cases hr with rfl | ⟨q, _, he⟩
  · exact hne rfl
  · exact htf q he

theorem reach_disjoint {S D : Store} {k1 k2 : SKey}
    (hup : ∀ p q x, Edge S D p x → Edge S D q x → p = q)
    (h12 : ¬ Reach S D k1 k2) (h21 : ¬ Reach S D k2 k1) {x : SKey}
    (hx1 : Reach S D k1 x) (hx2 : Reach S D k2 x) : False := by
  rcases reach_funnel hup hx1 hx2 with h | h
  · exact h12 h
  · exact h21 h

/-! ### Well-formedness of the input stores -/

/-- Schema sanity of one model class: no duplicate identifier or attribute
names, identifiers distinct from attributes, and a children mapping with
distinct child types and distinct field names. -/
def ClassWF (c : ModelClass) : Prop :=
  c.identifiers.Nodup ∧ c.attributes.Nodup ∧ (∀ k ∈ c.identifiers, k ∉ c.attributes) ∧
  (c.children.map Prod.fst).Nodup ∧ (c.children.map Prod.snd).Nodup

instance (c : ModelClass) : Decidable (ClassWF c) := by
  unfold ClassWF; infer_instance

/-- Well-formedness of a store, combining the documented `_data` invariants
(`WellKeyed`, Python-dict key uniqueness) with schema sanity: classes are
registered under their own modelname (`__init_subclass__`, lines 412-430),
every stored record carries a registered class, records are unflagged plain
data, and child-uid lists have no duplicates. -/
structure StoreWF (st : Store) : Prop where
  wellKeyed : WellKeyed st
  nodup : StoreNodup st
  dataKeysNodup : (st.data.map Prod.fst).Nodup
  topNodup : st.top_level.Nodup
  classesOk : ∀ n c, alookup st.classes n = some c → c.modelname = n
  classesWF : ∀ n c, alookup st.classes n = some c → ClassWF c
  recCls : ∀ t u m, alookup (st.getData t) u = some m → alookup st.classes t = some m.cls
  recFlags : ∀ t u m, alookup (st.getData t) u = some m → m.model_flags = 0
  recChildNodup : ∀ t u m, alookup (st.getData t) u = some m →
    ∀ ct cf, (ct, cf) ∈ m.cls.children → (m.getChildList cf).Nodup

/-- Acyclic, conflict-free inputs for a sync from source `S` into destination
`D`: both stores well-formed, the same model classes registered, and the
joint reference graph a ranked forest — every key has at most one referrer
across both stores, references strictly decrease a rank (acyclicity), and
top-level-typed keys are never referenced. -/
structure ConflictFree (S D : Store) (rank : SKey → Nat) : Prop where
  wfS : StoreWF S
  wfD : StoreWF D
  clsEq : D.classes = S.classes
  uniqueParent : ∀ p q x, Edge S D p x → Edge S D q x → p = q
  ranked : ∀ p x, Edge S D p x → rank x < rank p
  topFree : ∀ t, t ∈ S.top_level ∨ t ∈ D.top_level → ∀ u p, ¬ Edge S D p (t, u)

/-- The invariant maintained for the destination store as the sync mutates
it: the parts of `StoreWF` that evolve, plus containment of every child-uid
list in the original joint reference graph. -/
def DynInv (S D F : Store) : Prop :=
  F.classes = D.classes ∧ F.top_level = D.top_level ∧ F.sid = D.sid ∧
  WellKeyed F ∧ StoreNodup F ∧ (F.data.map Prod.fst).Nodup ∧
  (∀ t u m, alookup (F.getData t) u = some m →
    alookup D.classes t = some m.cls ∧ m.model_flags = 0 ∧
    (∀ ct cf, (ct, cf) ∈ m.cls.children → (m.getChildList cf).Nodup ∧
      ∀ w, w ∈ m.getChildList cf → Edge S D (t, u) (ct, w)))

theorem dynInv_init {S D : Store} {rank : SKey → Nat} (hcf : ConflictFree S D rank) :
    DynInv S D D := by
  refine ⟨rfl, rfl, rfl, hcf.wfD.wellKeyed, hcf.wfD.nodup, hcf.wfD.dataKeysNodup,
    fun t u m hm => ⟨hcf.wfD.recCls t u m hm, hcf.wfD.recFlags t u m hm,
      fun ct cf hcc => ⟨hcf.wfD.recChildNodup t u m hm ct cf hcc,
        fun w hw => Or.inr ⟨m, cf, hm, hcc, hw⟩⟩⟩⟩

/-! ### Provenance of the differ's elements -/

/-- The elements of one group of a children map, in insertion order. -/
def groupOf (ch : List (String × List (String × DiffElement))) (ct : String) :
    List DiffElement :=
  ((alookup ch ct).getD []).map Prod.snd

/-- The record a pair's DiffElement is keyed from: the source record when
present, else the destination record (`diff_object_pair` lines 836-846). -/
def baseRec (s? d? : Option Model) : Model :=
  s?.getD (d?.getD default)

def baseCls (s? d? : Option Model) : ModelClass :=
  (baseRec s? d?).cls

/-- The child records resolved for the source side of a pair
(`diff_child_objects` lines 884-892). -/
def srcList (S : Store) (s? : Option Model) (ct cf : String) : List Model :=
  match s? with
  | some s => S.get_by_uids (s.getChildList cf) ct
  | none => []

def dstList (D : Store) (d? : Option Model) (ct cf : String) : List Model :=
  match d? with
  | some d => D.get_by_uids (d.getChildList cf) ct
  | none => []

/-- The store key a DiffElement addresses when applied against a store with
class table `C`: `object_class = getattr(self, element.type)`, then
`object_class.create_unique_id(element.keys)`. -/
def elemDKey (C : List (String × ModelClass)) (el : DiffElement) : SKey :=
  (el.type, ((alookup C el.type).getD default).create_unique_id el.keys)

mutual

/-- Provenance of one DiffElement produced by diffing source store `S`
against destination store `D` for the record pair `(s?, d?)`: the element is
keyed and valued from the pair, the pair's records are stored under matching
keys, and each children group holds exactly the elements of the recursive
diff of the resolved child lists of the pair's records. -/
inductive GoodPair (S D : Store) : Option Model → Option Model → DiffElement → Prop where
  | intro {s? d? : Option Model} {el : DiffElement}
      (hsome : s?.isSome ∨ d?.isSome)
      (hsS : ∀ s, s? = some s → alookup (S.getData s.get_type) s.get_unique_id = some s)
      (hdD : ∀ d, d? = some d → alookup (D.getData d.get_type) d.get_unique_id = some d)
      (hagree : ∀ s d, s? = some s → d? = some d →
        d.get_type = s.get_type ∧ d.get_unique_id = s.get_unique_id ∧ d.cls = s.cls)
      (htype : el.type = (baseRec s? d?).get_type)
      (hkeys : el.keys = (baseRec s? d?).get_identifiers)
      (hsattrs : el.source_attrs = s?.map Model.get_attrs)
      (hdattrs : el.dest_attrs = d?.map Model.get_attrs)
      (hchk : (el.children.map Prod.fst).Nodup)
      (hchsub : ∀ q ∈ el.children, ∃ cf, (q.1, cf) ∈ (baseCls s? d?).children)
      (hch : ∀ ct cf, (ct, cf) ∈ (baseCls s? d?).children →
        GoodPairs S D (combinedPairs (srcList S s? ct cf) (dstList D d? ct cf))
          (groupOf el.children ct)) :
      GoodPair S D s? d? el

/-- Pointwise `GoodPair` along a pair list and the element list the
differ's loop produced for it (one element per pair; no pair is skipped on
flagless, unflagged inputs). -/
inductive GoodPairs (S D : Store) :
    List (Option Model × Option Model) → List DiffElement → Prop where
  | nil : GoodPairs S D [] []
  | cons {p : Option Model × Option Model} {ps : List (Option Model × Option Model)}
      {el : DiffElement} {els : List DiffElement} :
      GoodPair S D p.1 p.2 el → GoodPairs S D ps els →
      GoodPairs S D (p :: ps) (el :: els)

end

theorem goodPairs_nil_inv {S D : Store} {els : List DiffElement}
    (h : GoodPairs S D [] els) : els = [] := by
  cases h
  rfl

theorem goodPairs_cons_inv {S D : Store} {p : Option Model × Option Model}
    {ps : List (Option Model × Option Model)} {els : List DiffElement}
    (h : GoodPairs S D (p :: ps) els) :
    ∃ el els', els = el :: els' ∧ GoodPair S D p.1 p.2 el ∧ GoodPairs S D ps els' := by
  cases h with
  | cons h1 h2 => exact ⟨_, _, rfl, h1, h2⟩

theorem goodPair_type {S D : Store} {s? d? : Option Model} {el : DiffElement}
    (h : GoodPair S D s? d? el) : el.type = (baseRec s? d?).get_type := by
  cases h with
  | intro _ _ _ _ htype => exact htype

theorem goodPairs_mem {S D : Store} {ps : List (Option Model × Option Model)}
    {els : List DiffElement} (h : GoodPairs S D ps els) {el : DiffElement}
    (hel : el ∈ els) : ∃ p ∈ ps, GoodPair S D p.1 p.2 el := by
  induction ps generalizing els with
  | nil => cases goodPairs_nil_inv h; simp at hel
  | cons p ps ih =>
    obtain ⟨e, es, rfl, h1, h2⟩ := goodPairs_cons_inv h
    rcases List.mem_cons.mp hel with rfl | hel'
    · exact ⟨p, List.mem_cons_self _ _, h1⟩
    · obtain ⟨p', hp', hg⟩ := ih h2 hel'
      exact ⟨p', List.mem_cons_of_mem _ hp', hg⟩

/-! ### Grouping of produced elements (`Diff.add` / `DiffElement.add_child`) -/

theorem diffAdd_groupOf {ch ch' : List (String × List (String × DiffElement))}
    {el : DiffElement} (h : diffAdd ch el = .ok ch') :
    groupOf ch' el.type = groupOf ch el.type ++ [el] ∧
    (∀ ct, ct ≠ el.type → groupOf ch' ct = groupOf ch ct) ∧
    ((ch.map Prod.fst).Nodup → (ch'.map Prod.fst).Nodup) ∧
    (∀ k ∈ ch'.map Prod.fst, k = el.type ∨ k ∈ ch.map Prod.fst) := by
  unfold diffAdd at h
  cases hgrp : alookup ch el.type with
  | none =>
    rw [hgrp] at h
    simp only [Except.ok.injEq] at h
    subst h
    refine ⟨?_, ?_, ?_, ?_⟩
    · rw [groupOf, alookup_append_of_none hgrp]
      simp [alookup, groupOf, hgrp]
    · intro ct hct
      rw [groupOf, groupOf]
      cases hc : alookup ch ct with
      | none =>
        rw [alookup_append_of_none hc]
        simp [alookup, Ne.symm hct]
      | some g =>
        rw [alookup_append_of_some hc]
    · intro hnd
      simp only [List.map_append, List.map_cons, List.map_nil]
      refine List.Nodup.append hnd (by simp) ?_
      intro k hk hk'
      simp only [List.mem_singleton] at hk'
      subst hk'
      exact (alookup_eq_none_iff.mp hgrp) hk
    · intro k hk
      simp only [List.map_append, List.mem_append] at hk
      rcases hk with hk | hk
      · exact Or.inr hk
      · simp at hk
        exact Or.inl hk
  | some grp =>
    rw [hgrp] at h
    by_cases hdup : (alookup grp el.name).isSome
    · simp only [hdup, if_true] at h
      cases h
    · simp only [hdup, if_false, Bool.false_eq_true, Except.ok.injEq] at h
      subst h
      refine ⟨?_, ?_, ?_, ?_⟩
      · rw [groupOf, alookup_aset_self, groupOf, hgrp]
        simp
      · intro ct hct
        rw [groupOf, alookup_aset_ne _ _ (fun he => hct he.symm)]
        rfl
      · intro hnd
        exact aset_keys_nodup hnd
      · intro k hk
        rw [aset_keys] at hk
        by_cases hm : el.type ∈ ch.map Prod.fst
        · rw [if_pos hm] at hk
          exact Or.inr hk
        · rw [if_neg hm] at hk
          rcases List.mem_append.mp hk with hk | hk
          · exact Or.inr hk
          · simp at hk
            exact Or.inl hk

theorem addElems_groupOf {ch ch' : List (String × List (String × DiffElement))}
    {els : List DiffElement} {ct : String} (h : addElems ch els = .ok ch')
    (htypes : ∀ el ∈ els, el.type = ct) :
    groupOf ch' ct = groupOf ch ct ++ els ∧
    (∀ ct', ct' ≠ ct → groupOf ch' ct' = groupOf ch ct') ∧
    ((ch.map Prod.fst).Nodup → (ch'.map Prod.fst).Nodup) ∧
    (∀ k ∈ ch'.map Prod.fst, k = ct ∨ k ∈ ch.map Prod.fst) := by
  induction els generalizing ch with
  | nil =>
    simp only [addElems] at h
    cases h
    exact ⟨by simp, fun _ _ => rfl, fun h => h, fun k hk => Or.inr hk⟩
  | cons e rest ih =>
    simp only [addElems] at h
    cases hadd : diffAdd ch e with
    | error err => rw [hadd] at h; simp at h
    | ok ch1 =>
      rw [hadd] at h
      simp only [except_bind_ok] at h
      have hty : e.type = ct := htypes e (List.mem_cons_self _ _)
      obtain ⟨hg1, hg2, hg3, hg4⟩ := diffAdd_groupOf hadd
      obtain ⟨hi1, hi2, hi3, hi4⟩ := ih h (fun el hel => htypes el (List.mem_cons_of_mem _ hel))
      refine ⟨?_, ?_, ?_, ?_⟩
      · rw [hty] at hg1
        rw [hi1, hg1]
        simp
      · intro ct' hct'
        rw [hi2 ct' hct', hg2 ct' (by rw [hty]; exact hct')]
      · exact fun hnd => hi3 (hg3 hnd)
      · intro k hk
        rcases hi4 k hk with hk' | hk'
        · exact Or.inl hk'
        · rcases hg4 k hk' with hk'' | hk''
          · exact Or.inl (hk''.trans hty)
          · exact Or.inr hk''

/-! ### Provenance of the pairs the differ visits -/

/-- What is known about a `(src_obj, dst_obj)` pair when the differ visits
it: not both absent, each present record stored in its store under its own
key and unflagged, and (when both are present) matching types, unique ids
and classes. -/
def PairProv (S D : Store) (s? d? : Option Model) : Prop :=
  (s?.isSome ∨ d?.isSome) ∧
  (∀ s, s? = some s → alookup (S.getData s.get_type) s.get_unique_id = some s ∧
    s.model_flags = 0) ∧
  (∀ d, d? = some d → alookup (D.getData d.get_type) d.get_unique_id = some d ∧
    d.model_flags = 0) ∧
  (∀ s d, s? = some s → d? = some d →
    d.get_type = s.get_type ∧ d.get_unique_id = s.get_unique_id ∧ d.cls = s.cls)

def ListProv (S D : Store) (src dst : List Model) : Prop :=
  ∀ p ∈ combinedPairs src dst, PairProv S D p.1 p.2

/-- Any two lists drawn from the same-type tables of the two stores have
well-provenanced combined pairs. -/
theorem listProv_of_tables {S D : Store} {rank : SKey → Nat}
    (hcf : ConflictFree S D rank) {ct : String} {ls ld : List Model}
    (hls : ∀ m ∈ ls, ∃ u, alookup (S.getData ct) u = some m)
    (hld : ∀ m ∈ ld, ∃ u, alookup (D.getData ct) u = some m) :
    ListProv S D ls ld := by
  intro p hp
  obtain ⟨u, hpe, hsome⟩ := combinedPairs_mem hp
  have hSmem : ∀ s, alookup (toDict ls) u = some s →
      alookup (S.getData s.get_type) s.get_unique_id = some s ∧ s.model_flags = 0 ∧
      s.get_type = ct ∧ s.get_unique_id = u := by
    intro s hs
    obtain ⟨hmem, huid⟩ := mem_of_alookup_toDict hs
    obtain ⟨u', hu'⟩ := hls s hmem
    obtain ⟨hty, huid'⟩ := wellKeyed_getData hcf.wfS.wellKeyed hu'
    refine ⟨?_, hcf.wfS.recFlags ct u' s hu', hty, huid⟩
    rw [hty, huid']
    exact hu'
  have hDmem : ∀ d, alookup (toDict ld) u = some d →
      alookup (D.getData d.get_type) d.get_unique_id = some d ∧ d.model_flags = 0 ∧
      d.get_type = ct ∧ d.get_unique_id = u := by
    intro d hd
    obtain ⟨hmem, huid⟩ := mem_of_alookup_toDict hd
    obtain ⟨u', hu'⟩ := hld d hmem
    obtain ⟨hty, huid'⟩ := wellKeyed_getData hcf.wfD.wellKeyed hu'
    refine ⟨?_, hcf.wfD.recFlags ct u' d hu', hty, huid⟩
    rw [hty, huid']
    exact hu'
  subst hpe
  refine ⟨?_, ?_, ?_, ?_⟩
  · rcases hsome with h | h
    · exact Or.inl h
    · exact Or.inr h
  · intro s hs
    exact ⟨(hSmem s hs).1, (hSmem s hs).2.1⟩
  · intro d hd
    exact ⟨(hDmem d hd).1, (hDmem d hd).2.1⟩
  · intro s d hs hd
    obtain ⟨hsl, _, hst, hsu⟩ := hSmem s hs
    obtain ⟨hdl, _, hdt, hdu⟩ := hDmem d hd
    have hty : d.get_type = s.get_type := by rw [hst, hdt]
    have huid : d.get_unique_id = s.get_unique_id := by rw [hsu, hdu]
    refine ⟨hty, huid, ?_⟩
    have hcs := hcf.wfS.recCls s.get_type s.get_unique_id s hsl
    have hcd := hcf.wfD.recCls d.get_type d.get_unique_id d hdl
    rw [hcf.clsEq, hty, hcs] at hcd
    exact ((Option.some.injEq _ _).mp hcd).symm

theorem srcList_tables {S : Store} {s? : Option Model} {ct cf : String} {m : Model}
    (hm : m ∈ srcList S s? ct cf) : ∃ u, alookup (S.getData ct) u = some m := by
  cases s? with
  | none => simp [srcList] at hm
  | some s =>
    obtain ⟨u, _, hu⟩ := get_by_uids_mem hm
    exact ⟨u, hu⟩

theorem dstList_tables {D : Store} {d? : Option Model} {ct cf : String} {m : Model}
    (hm : m ∈ dstList D d? ct cf) : ∃ u, alookup (D.getData ct) u = some m := by
  cases d? with
  | none => simp [dstList] at hm
  | some d =>
    obtain ⟨u, _, hu⟩ := get_by_uids_mem hm
    exact ⟨u, hu⟩

/-- The class of the record a visited pair is keyed from is registered (in
the destination class table) under the element's type, and is schema-sane. -/
theorem pairProv_cls {S D : Store} {rank : SKey → Nat} (hcf : ConflictFree S D rank)
    {s? d? : Option Model} (hprov : PairProv S D s? d?) :
    alookup D.classes (baseRec s? d?).get_type = some (baseCls s? d?) ∧
    ClassWF (baseCls s? d?) ∧ (baseCls s? d?).modelname = (baseRec s? d?).get_type := by
  obtain ⟨hsome, hs, hd, _⟩ := hprov
  cases hso : s? with
  | some s =>
    have hcs := hcf.wfS.recCls s.get_type s.get_unique_id s (hs s hso).1
    rw [← hcf.clsEq] at hcs
    subst hso
    refine ⟨?_, ?_, ?_⟩ <;> simp only [baseRec, baseCls, Option.getD_some]
    · exact hcs
    · exact hcf.wfD.classesWF _ _ hcs
    · exact hcf.wfD.classesOk _ _ hcs
  | none =>
    cases hdo : d? with
    | none => subst hso hdo; simp at hsome
    | some d =>
      have hcd := hcf.wfD.recCls d.get_type d.get_unique_id d (hd d hdo).1
      subst hso hdo
      refine ⟨?_, ?_, ?_⟩ <;>
        simp only [baseRec, baseCls, Option.getD_none, Option.getD_some]
      · exact hcd
      · exact hcf.wfD.classesWF _ _ hcd
      · exact hcf.wfD.classesOk _ _ hcd

/-- The key a pair's element addresses in the destination store. -/
theorem pairProv_key {S D : Store} {rank : SKey → Nat} (hcf : ConflictFree S D rank)
    {s? d? : Option Model} (hprov : PairProv S D s? d?) {el : DiffElement}
    (htype : el.type = (baseRec s? d?).get_type)
    (hkeys : el.keys = (baseRec s? d?).get_identifiers) :
    elemDKey D.classes el = ((baseRec s? d?).get_type, (baseRec s? d?).get_unique_id) := by
  obtain ⟨hcls, _, _⟩ := pairProv_cls hcf hprov
  unfold elemDKey
  rw [htype, hkeys, hcls]
  rfl

theorem hasFlag_zero (n : Nat) : hasFlag 0 n = false := by
  simp [hasFlag]

/-- The `childMapLoop` invariant: children groups exist only for processed
child types and hold the recursive diff of the pair's resolved lists. -/
def ChInvP (S D : Store) (s? d? : Option Model)
    (ch : List (String × List (String × DiffElement))) (done : List (String × String)) :
    Prop :=
  (ch.map Prod.fst).Nodup ∧
  (∀ q ∈ ch, ∃ cf, (q.1, cf) ∈ done) ∧
  (∀ ct cf, (ct, cf) ∈ done →
    GoodPairs S D (combinedPairs (srcList S s? ct cf) (dstList D d? ct cf))
      (groupOf ch ct))

/-- All elements diffed out of same-type resolved lists bear that type. -/
theorem goodPairs_types {S D : Store} {rank : SKey → Nat} (hcf : ConflictFree S D rank)
    {ct : String} {ls ld : List Model}
    (hls : ∀ m ∈ ls, ∃ u, alookup (S.getData ct) u = some m)
    (hld : ∀ m ∈ ld, ∃ u, alookup (D.getData ct) u = some m)
    {els : List DiffElement} (h : GoodPairs S D (combinedPairs ls ld) els) :
    ∀ e ∈ els, e.type = ct := by
  intro e he
  obtain ⟨p, hp, hg⟩ := goodPairs_mem h he
  obtain ⟨u, hpe, _⟩ := combinedPairs_mem hp
  rw [goodPair_type hg]
  cases hs : p.1 with
  | some s =>
    have : alookup (toDict ls) u = some s := by rw [hpe] at hs; exact hs
    obtain ⟨hmem, _⟩ := mem_of_alookup_toDict this
    obtain ⟨u', hu'⟩ := hls s hmem
    simp only [baseRec, hs, Option.getD_some]
    exact (wellKeyed_getData hcf.wfS.wellKeyed hu').1
  | none =>
    cases hd : p.2 with
    | some d =>
      have : alookup (toDict ld) u = some d := by rw [hpe] at hd; exact hd
      obtain ⟨hmem, _⟩ := mem_of_alookup_toDict this
      obtain ⟨u', hu'⟩ := hld d hmem
      simp only [baseRec, hs, hd, Option.getD_none, Option.getD_some]
      exact (wellKeyed_getData hcf.wfD.wellKeyed hu').1
    | none =>
      cases hg with
      | intro hsome =>
        rw [hs, hd] at hsome
        simp at hsome

/-- One step of the `childMapLoop` invariant. -/
theorem chInvP_step {S D : Store} {rank : SKey → Nat} (hcf : ConflictFree S D rank)
    {s? d? : Option Model} (hprov : PairProv S D s? d?)
    {ch ch1 : List (String × List (String × DiffElement))}
    {done rest : List (String × String)} {ct cf : String}
    (hsplit : done ++ (ct, cf) :: rest = (baseCls s? d?).children)
    (hinv : ChInvP S D s? d? ch done) {child_elems : List DiffElement}
    (hgp : GoodPairs S D
      (combinedPairs (srcList S s? ct cf) (dstList D d? ct cf)) child_elems)
    (hadd : addElems ch child_elems = .ok ch1) :
    ChInvP S D s? d? ch1 (done ++ [(ct, cf)]) := by
  have htypes : ∀ e ∈ child_elems, e.type = ct :=
    goodPairs_types hcf (fun m hm => srcList_tables hm) (fun m hm => dstList_tables hm) hgp
  obtain ⟨hg1, hg2, hg3, hg4⟩ := addElems_groupOf hadd htypes
  have hkeysnd : ((baseCls s? d?).children.map Prod.fst).Nodup :=
    (pairProv_cls hcf hprov).2.1.2.2.2.1
  have hctnew : ∀ cf', (ct, cf') ∈ done → False := by
    intro cf' hmem
    rw [← hsplit] at hkeysnd
    simp only [List.map_append, List.map_cons] at hkeysnd
    have := (List.nodup_append.mp hkeysnd).2.2
    exact this (List.mem_map_of_mem Prod.fst hmem) (by simp)
  have hchct : alookup ch ct = none := by
    rw [alookup_eq_none_iff]
    intro hct
    obtain ⟨q, hq, hq1⟩ := List.mem_map.mp hct
    obtain ⟨cf', hcf'⟩ := hinv.2.1 q hq
    exact hctnew cf' (hq1 ▸ hcf')
  refine ⟨hg3 hinv.1, ?_, ?_⟩
  · intro q hq
    rcases hg4 q.1 (List.mem_map_of_mem Prod.fst hq) with hk | hk
    · exact ⟨cf, by simp [hk]⟩
    · obtain ⟨q', hq', hq1⟩ := List.mem_map.mp hk
      obtain ⟨cf', hcf'⟩ := hinv.2.1 q' hq'
      exact ⟨cf', List.mem_append_left _ (hq1 ▸ hcf')⟩
  · intro ct' cf' hmem
    rcases List.mem_append.mp hmem with hmem | hmem
    · have hne : ct' ≠ ct := fun he => hctnew cf' (he ▸ hmem)
      rw [hg2 ct' hne]
      exact hinv.2.2 ct' cf' hmem
    · simp only [List.mem_singleton, Prod.mk.injEq] at hmem
      obtain ⟨he1, he2⟩ := hmem
      rw [he1, he2, hg1]
      have hemp : groupOf ch ct = [] := by
        rw [groupOf, hchct]
        rfl
      rw [hemp]
      simpa using hgp

/-! ### The differ establishes `GoodPair` (fuel induction) -/

def DPairPred (f : Nat) : Prop :=
  ∀ S D (rank : SKey → Nat), ConflictFree S D rank →
    ∀ s? d? r, PairProv S D s? d? → diff_object_pair f 0 S D s? d? = .ok r →
      ∃ el, r = some el ∧ GoodPair S D s? d? el

def DPairsPred (f : Nat) : Prop :=
  ∀ S D (rank : SKey → Nat), ConflictFree S D rank →
    ∀ ps els, (∀ p ∈ ps, PairProv S D p.1 p.2) → pairsLoop f 0 S D ps = .ok els →
      GoodPairs S D ps els

def DListPred (f : Nat) : Prop :=
  ∀ S D (rank : SKey → Nat), ConflictFree S D rank →
    ∀ src dst els, ListProv S D src dst → diff_object_list f 0 S D src dst = .ok els →
      GoodPairs S D (combinedPairs src dst) els

def DChildMapPred (f : Nat) : Prop :=
  ∀ S D (rank : SKey → Nat), ConflictFree S D rank →
    ∀ s? d? el cmap done el', PairProv S D s? d? →
      done ++ cmap = (baseCls s? d?).children →
      ChInvP S D s? d? el.children done →
      childMapLoop f 0 S D el s? d? cmap = .ok el' →
      el'.type = el.type ∧ el'.keys = el.keys ∧
      el'.source_attrs = el.source_attrs ∧ el'.dest_attrs = el.dest_attrs ∧
      ChInvP S D s? d? el'.children (done ++ cmap)

def DChildObjPred (f : Nat) : Prop :=
  ∀ S D (rank : SKey → Nat), ConflictFree S D rank →
    ∀ s? d? el el', PairProv S D s? d? →
      ChInvP S D s? d? el.children [] →
      diff_child_objects f 0 S D el s? d? = .ok el' →
      el'.type = el.type ∧ el'.keys = el.keys ∧
      el'.source_attrs = el.source_attrs ∧ el'.dest_attrs = el.dest_attrs ∧
      ChInvP S D s? d? el'.children ((baseCls s? d?).children)

theorem diffProd (f : Nat) :
    DPairPred f ∧ DPairsPred f ∧ DListPred f ∧ DChildMapPred f ∧ DChildObjPred f := by
  induction f with
  | zero =>
    refine ⟨?_, ?_, ?_, ?_, ?_⟩
    · intro S D rank _ s? d? r _ h
      simp [diff_object_pair] at h
    · intro S D rank _ ps els _ h
      simp [pairsLoop] at h
    · intro S D rank _ src dst els _ h
      simp [diff_object_list] at h
    · intro S D rank _ s? d? el cmap done el' _ _ _ h
      simp [childMapLoop] at h
    · intro S D rank _ s? d? el el' _ _ h
      simp [diff_child_objects] at h
  | succ f ih =>
    obtain ⟨ihPair, ihPairs, ihList, ihChildMap, ihChildObj⟩ := ih
    have hChildMap : DChildMapPred (f + 1) := by
      intro S D rank hcf s? d? el cmap done el' hprov hsplit hinv h
      match cmap with
      | [] =>
        simp only [childMapLoop] at h
        cases h
        simpa using hinv
      | (ct, cf) :: rest =>
        simp only [childMapLoop] at h
        obtain ⟨child_elems, hlist, h⟩ := except_bind_eq_ok h
        obtain ⟨ch1, hadd, h⟩ := except_bind_eq_ok h
        have hlist' : diff_object_list f 0 S D (srcList S s? ct cf) (dstList D d? ct cf) =
            .ok child_elems := by
          cases s? <;> cases d? <;> exact hlist
        have hgp := ihList S D rank hcf _ _ child_elems
          (listProv_of_tables hcf (fun m hm => srcList_tables hm)
            (fun m hm => dstList_tables hm)) hlist'
        have hinv1 := chInvP_step hcf hprov hsplit hinv hgp hadd
        have hsplit1 : (done ++ [(ct, cf)]) ++ rest = (baseCls s? d?).children := by
          rw [← hsplit]
          simp
        have := ihChildMap S D rank hcf s? d?
          (DiffElement.mk el.type el.name el.keys el.source_attrs el.dest_attrs ch1)
          rest (done ++ [(ct, cf)]) el' hprov hsplit1 (by simpa using hinv1) h
        simp only [DiffElement.type_mk, DiffElement.keys_mk, DiffElement.source_attrs_mk,
          DiffElement.dest_attrs_mk] at this
        refine ⟨this.1, this.2.1, this.2.2.1, this.2.2.2.1, ?_⟩
        have h5 := this.2.2.2.2
        rwa [List.append_assoc, List.singleton_append] at h5
    have hChildObj : DChildObjPred (f + 1) := by
      intro S D rank hcf s? d? el el' hprov hinv h
      cases hso : s? with
      | some s =>
        cases hdo : d? with
        | some d =>
          subst hso hdo
          simp only [diff_child_objects] at h
          have hcls : d.cls = s.cls := (hprov.2.2.2 s d rfl rfl).2.2
          have hfil : (s.cls.children.filter
              fun ct => (alookup d.cls.children ct.1).isSome) = s.cls.children := by
            rw [hcls]
            refine List.filter_eq_self.mpr ?_
            intro a ha
            simpa using alookup_isSome_of_mem_keys (List.mem_map_of_mem Prod.fst ha)
          rw [hfil] at h
          have := ihChildMap S D rank hcf (some s) (some d) el s.cls.children [] el' hprov
            (by simp [baseCls, baseRec]) hinv h
          simpa [baseCls, baseRec] using this
        | none =>
          subst hso hdo
          simp only [diff_child_objects] at h
          have := ihChildMap S D rank hcf (some s) none el s.cls.children [] el' hprov
            (by simp [baseCls, baseRec]) hinv h
          simpa [baseCls, baseRec] using this
      | none =>
        cases hdo : d? with
        | some d =>
          subst hso hdo
          simp only [diff_child_objects] at h
          have := ihChildMap S D rank hcf none (some d) el d.cls.children [] el' hprov
            (by simp [baseCls, baseRec]) hinv h
          simpa [baseCls, baseRec] using this
        | none =>
          subst hso hdo
          rcases hprov.1 with h1 | h1 <;> simp at h1
    have hPair : DPairPred (f + 1) := by
      intro S D rank hcf s? d? r hprov h
      cases hso : s? with
      | some s =>
        have hsflag : s.model_flags = 0 := (hprov.2.1 s hso).2
        subst hso
        simp only [diff_object_pair, hasFlag_zero, Bool.false_and, Bool.false_eq_true,
          if_false, Option.any_some, hsflag] at h
        cases hdo : d? with
        | some d =>
          have hdflag : d.model_flags = 0 := (hprov.2.2.1 d hdo).2
          subst hdo
          simp only [Option.any_some, hdflag, hasFlag_zero, Bool.false_eq_true,
            if_false] at h
          obtain ⟨el1, hco, hfe⟩ := except_bind_eq_ok h
          simp only [Except.ok.injEq] at hfe
          subst hfe
          refine ⟨el1, rfl, ?_⟩
          have hres := ihChildObj S D rank hcf (some s) (some d)
            (DiffElement.mk s.get_type s.get_shortname s.get_identifiers
              (Option.map Model.get_attrs (some s)) (Option.map Model.get_attrs (some d)) [])
            el1 hprov ⟨by simp, by simp, by intro ct cf hmem; simp at hmem⟩ hco
          simp only [DiffElement.type_mk, DiffElement.keys_mk, DiffElement.source_attrs_mk,
            DiffElement.dest_attrs_mk] at hres
          exact GoodPair.intro (by simp) (fun s' hs' => by cases hs'; exact (hprov.2.1 _ rfl).1)
            (fun d' hd' => by cases hd'; exact (hprov.2.2.1 _ rfl).1)
            (fun s' d' hs' hd' => by cases hs'; cases hd'; exact hprov.2.2.2 _ _ rfl rfl)
            (by rw [hres.1]; try rfl) (by rw [hres.2.1]; try rfl)
            (by rw [hres.2.2.1]; try rfl) (by rw [hres.2.2.2.1]; try rfl)
            hres.2.2.2.2.1
            (fun q hq => hres.2.2.2.2.2.1 q hq)
            (fun ct cf hmem => hres.2.2.2.2.2.2 ct cf hmem)
        | none =>
          subst hdo
          simp only [Option.any_none, Bool.false_eq_true, if_false, Option.isNone_none,
            Bool.and_true, Option.isNone_some, Bool.and_false] at h
          obtain ⟨el1, hco, hfe⟩ := except_bind_eq_ok h
          simp only [Except.ok.injEq] at hfe
          subst hfe
          refine ⟨el1, rfl, ?_⟩
          have hres := ihChildObj S D rank hcf (some s) none
            (DiffElement.mk s.get_type s.get_shortname s.get_identifiers
              (Option.map Model.get_attrs (some s)) (Option.map Model.get_attrs none) [])
            el1 hprov ⟨by simp, by simp, by intro ct cf hmem; simp at hmem⟩ hco
          simp only [DiffElement.type_mk, DiffElement.keys_mk, DiffElement.source_attrs_mk,
            DiffElement.dest_attrs_mk] at hres
          exact GoodPair.intro (by simp) (fun s' hs' => by cases hs'; exact (hprov.2.1 _ rfl).1)
            (fun d' hd' => by cases hd') (fun s' d' _ hd' => by cases hd')
            (by rw [hres.1]; try rfl) (by rw [hres.2.1]; try rfl)
            (by rw [hres.2.2.1]; try rfl) (by rw [hres.2.2.2.1]; try rfl)
            hres.2.2.2.2.1
            (fun q hq => hres.2.2.2.2.2.1 q hq)
            (fun ct cf hmem => hres.2.2.2.2.2.2 ct cf hmem)
      | none =>
        cases hdo : d? with
        | none =>
          subst hso hdo
          rcases hprov.1 with h1 | h1 <;> simp at h1
        | some d =>
          have hdflag : d.model_flags = 0 := (hprov.2.2.1 d hdo).2
          subst hso hdo
          simp only [diff_object_pair, hasFlag_zero, Bool.false_and, Bool.false_eq_true,
            if_false, Option.any_none, Option.any_some, hdflag] at h
          obtain ⟨el1, hco, hfe⟩ := except_bind_eq_ok h
          simp only [Except.ok.injEq] at hfe
          subst hfe
          refine ⟨el1, rfl, ?_⟩
          have hres := ihChildObj S D rank hcf none (some d)
            (DiffElement.mk (((none : Option Model).getD (some d |>.getD default)).get_type)
              (((none : Option Model).getD (some d |>.getD default)).get_shortname)
              (((none : Option Model).getD (some d |>.getD default)).get_identifiers)
              (Option.map Model.get_attrs none) (Option.map Model.get_attrs (some d)) [])
            el1 hprov ⟨by simp, by simp, by intro ct cf hmem; simp at hmem⟩ hco
          simp only [DiffElement.type_mk, DiffElement.keys_mk, DiffElement.source_attrs_mk,
            DiffElement.dest_attrs_mk] at hres
          exact GoodPair.intro (by simp) (fun s' hs' => by cases hs')
            (fun d' hd' => by cases hd'; exact (hprov.2.2.1 _ rfl).1)
            (fun s' d' hs' _ => by cases hs')
            (by rw [hres.1]; try rfl) (by rw [hres.2.1]; try rfl)
            (by rw [hres.2.2.1]; try rfl) (by rw [hres.2.2.2.1]; try rfl)
            hres.2.2.2.2.1
            (fun q hq => hres.2.2.2.2.2.1 q hq)
            (fun ct cf hmem => hres.2.2.2.2.2.2 ct cf hmem)
    have hPairs : DPairsPred (f + 1) := by
      intro S D rank hcf ps els hps h
      match ps with
      | [] =>
        simp only [pairsLoop] at h
        cases h
        exact GoodPairs.nil
      | (s, d) :: rest =>
        simp only [pairsLoop] at h
        obtain ⟨el?, hp, h⟩ := except_bind_eq_ok h
        obtain ⟨rest', hrest, h⟩ := except_bind_eq_ok h
        obtain ⟨el, rfl, hgood⟩ := ihPair S D rank hcf s d el?
          (hps (s, d) (List.mem_cons_self _ _)) hp
        simp only [Except.ok.injEq] at h
        subst h
        exact GoodPairs.cons hgood
          (ihPairs S D rank hcf rest rest' (fun p hp' => hps p (List.mem_cons_of_mem _ hp'))
            hrest)
    have hList : DListPred (f + 1) := by
      intro S D rank hcf src dst els hprov h
      simp only [diff_object_list] at h
      cases hv : validate_objects_for_diff (combinedPairs src dst) with
      | error e => rw [hv] at h; simp at h
      | ok u =>
        rw [hv] at h
        exact ihPairs S D rank hcf _ els hprov h
    exact ⟨hPair, hPairs, hList, hChildMap, hChildObj⟩

/-- The `calculate_diffs` top-level loop invariant: one group per processed
top-level type, holding the elements of that type's list diff. -/
def ChTopInv (S D : Store) (ch : List (String × List (String × DiffElement)))
    (done : List String) : Prop :=
  (ch.map Prod.fst).Nodup ∧
  (∀ q ∈ ch, q.1 ∈ done) ∧
  (∀ t ∈ done, GoodPairs S D (combinedPairs (S.get_all t) (D.get_all t)) (groupOf ch t))

theorem calcTopLevel_good {S D : Store} {rank : SKey → Nat} (hcf : ConflictFree S D rank)
    (f : Nat) :
    ∀ types done ch ch', done ++ types = intersection D.top_level S.top_level →
      ChTopInv S D ch done → calcTopLevel f 0 S D types ch = .ok ch' →
      ChTopInv S D ch' (done ++ types) := by
  intro types
  induction types with
  | nil =>
    intro done ch ch' hsplit hinv h
    simp only [calcTopLevel] at h
    cases h
    simpa using hinv
  | cons t rest ih =>
    intro done ch ch' hsplit hinv h
    simp only [calcTopLevel] at h
    obtain ⟨elems, hlist, h⟩ := except_bind_eq_ok h
    obtain ⟨ch1, hadd, h⟩ := except_bind_eq_ok h
    have hSt : ∀ m ∈ S.get_all t, ∃ u, alookup (S.getData t) u = some m :=
      fun m hm => (get_all_mem hcf.wfS.nodup).mp hm
    have hDt : ∀ m ∈ D.get_all t, ∃ u, alookup (D.getData t) u = some m :=
      fun m hm => (get_all_mem hcf.wfD.nodup).mp hm
    have hgp := (diffProd f).2.2.1 S D rank hcf _ _ elems
      (listProv_of_tables hcf hSt hDt) hlist
    have htypes : ∀ e ∈ elems, e.type = t := goodPairs_types hcf hSt hDt hgp
    obtain ⟨hg1, hg2, hg3, hg4⟩ := addElems_groupOf hadd htypes
    have hnd : (done ++ t :: rest).Nodup := by
      rw [hsplit]
      exact hcf.wfD.topNodup.filter _
    have htnew : t ∉ done := by
      intro hmem
      have := (List.nodup_append.mp hnd).2.2
      exact this hmem (by simp)
    have hcht : alookup ch t = none := by
      rw [alookup_eq_none_iff]
      intro hct
      obtain ⟨q, hq, hq1⟩ := List.mem_map.mp hct
      exact htnew (hq1 ▸ hinv.2.1 q hq)
    have hinv1 : ChTopInv S D ch1 (done ++ [t]) := by
      refine ⟨hg3 hinv.1, ?_, ?_⟩
      · intro q hq
        rcases hg4 q.1 (List.mem_map_of_mem Prod.fst hq) with hk | hk
        · simp [hk]
        · obtain ⟨q', hq', hq1⟩ := List.mem_map.mp hk
          exact List.mem_append_left _ (hq1 ▸ hinv.2.1 q' hq')
      · intro t' hmem
        rcases List.mem_append.mp hmem with hmem | hmem
        · have hne : t' ≠ t := fun he => htnew (he ▸ hmem)
          rw [hg2 t' hne]
          exact hinv.2.2 t' hmem
        · simp only [List.mem_singleton] at hmem
          subst hmem
          rw [hg1]
          have hemp : groupOf ch t' = [] := by
            rw [groupOf, hcht]
            rfl
          rw [hemp]
          simpa using hgp
    have := ih (done ++ [t]) ch1 ch' (by simpa using hsplit) hinv1 h
    rwa [List.append_assoc, List.singleton_append] at this

/-! ### The agreement the sync establishes -/

/-- Subtree agreement of the synced destination store `F` with the source
store `S` below source record `s`: the destination holds a record under `s`'s
key with the same class and attribute values, and the recursive diff pairing
of the resolved child lists matches up completely, recursively. -/
inductive Synced (S F : Store) : Model → Prop where
  | intro {s d' : Model}
      (hsS : alookup (S.getData s.get_type) s.get_unique_id = some s)
      (hlook : alookup (F.getData s.get_type) s.get_unique_id = some d')
      (hcls : d'.cls = s.cls)
      (hattrs : d'.get_attrs = s.get_attrs)
      (hpairs : ∀ ct cf, (ct, cf) ∈ s.cls.children →
        ∀ p ∈ combinedPairs (S.get_by_uids (s.getChildList cf) ct)
            (F.get_by_uids (d'.getChildList cf) ct),
          p.1.isSome ∧ p.2.isSome)
      (hrec : ∀ ct cf, (ct, cf) ∈ s.cls.children →
        ∀ s' : Model, (∃ p ∈ combinedPairs (S.get_by_uids (s.getChildList cf) ct)
            (F.get_by_uids (d'.getChildList cf) ct), p.1 = some s') →
          Synced S F s') :
      Synced S F s

/-- Pairwise agreement of two stores as seen by the differ, one record pair
at a time: equal classes and attribute values, and completely matching child
pairings, recursively. -/
inductive AgreePair (S F : Store) : Model → Model → Prop where
  | intro {s d : Model}
      (hcls : d.cls = s.cls)
      (hattrs : d.get_attrs = s.get_attrs)
      (hboth : ∀ ct cf, (ct, cf) ∈ s.cls.children →
        ∀ p ∈ combinedPairs (S.get_by_uids (s.getChildList cf) ct)
            (F.get_by_uids (d.getChildList cf) ct), p.1.isSome ∧ p.2.isSome)
      (hrec : ∀ ct cf, (ct, cf) ∈ s.cls.children →
        ∀ s' d' : Model,
          (some s', some d') ∈ combinedPairs (S.get_by_uids (s.getChildList cf) ct)
            (F.get_by_uids (d.getChildList cf) ct) → AgreePair S F s' d') :
      AgreePair S F s d

theorem get_by_uids_congr {F F' : Store} {uids : List String} {ct : String}
    (h : ∀ w ∈ uids, alookup (F'.getData ct) w = alookup (F.getData ct) w) :
    F'.get_by_uids uids ct = F.get_by_uids uids ct := by
  induction uids with
  | nil => rfl
  | cons w rest ih =>
    simp only [Store.get_by_uids]
    rw [h w (List.mem_cons_self _ _),
      ih (fun w' hw' => h w' (List.mem_cons_of_mem _ hw'))]

/-- `Synced` only looks at destination entries reachable from `s`'s key, so
it survives any store change outside that reach. -/
theorem synced_mono {S D F F' : Store} (hwkS : WellKeyed S) (hdyn : DynInv S D F)
    {s : Model} (hs : Synced S F s) :
    (∀ x : SKey, Reach S D (s.get_type, s.get_unique_id) x →
      alookup (F'.getData x.1) x.2 = alookup (F.getData x.1) x.2) →
    Synced S F' s := by
  induction hs with
  | @intro s d' hsS hlook hcls hattrs hpairs hrec ih =>
    intro hagree
    have hlook' : alookup (F'.getData s.get_type) s.get_unique_id = some d' := by
      rw [hagree (s.get_type, s.get_unique_id) (Reach.refl _)]
      exact hlook
    have hedge : ∀ ct cf, (ct, cf) ∈ s.cls.children → ∀ w ∈ d'.getChildList cf,
        Edge S D (s.get_type, s.get_unique_id) (ct, w) := by
      intro ct cf hcc w hw
      have hdf := hdyn.2.2.2.2.2.2 s.get_type s.get_unique_id d' hlook
      exact (hdf.2.2 ct cf (hcls ▸ hcc)).2 w hw
    have hlists : ∀ ct cf, (ct, cf) ∈ s.cls.children →
        F'.get_by_uids (d'.getChildList cf) ct = F.get_by_uids (d'.getChildList cf) ct := by
      intro ct cf hcc
      refine get_by_uids_congr ?_
      intro w hw
      exact hagree (ct, w) (Reach.single (hedge ct cf hcc w hw))
    refine Synced.intro hsS hlook' hcls hattrs ?_ ?_
    · intro ct cf hcc p hp
      rw [hlists ct cf hcc] at hp
      exact hpairs ct cf hcc p hp
    · intro ct cf hcc s' hex
      obtain ⟨p, hp, hps⟩ := hex
      rw [hlists ct cf hcc] at hp
      refine ih ct cf hcc s' ⟨p, hp, hps⟩ ?_
      intro x hx
      refine hagree x (Reach.trans ?_ hx)
      obtain ⟨u, hpe, _⟩ := combinedPairs_mem hp
      have hs' : alookup (toDict (S.get_by_uids (s.getChildList cf) ct)) u = some s' := by
        rw [hpe] at hps
        exact hps
      obtain ⟨hmem, huid⟩ := mem_of_alookup_toDict hs'
      obtain ⟨w, hwmem, hwl⟩ := get_by_uids_mem hmem
      have hsedge : Edge S D (s.get_type, s.get_unique_id) (ct, w) :=
        Or.inl ⟨s, cf, hsS, hcc, hwmem⟩
      have hty : s'.get_type = ct ∧ s'.get_unique_id = w :=
        wellKeyed_getData hwkS hwl
      rw [hty.1, hty.2]
      exact Reach.single hsedge

/-- A synced subtree yields pairwise agreement between the source store and
the final destination store. -/
theorem synced_agreePair {S D F : Store} {rank : SKey → Nat} (hcf : ConflictFree S D rank)
    (hdyn : DynInv S D F) {s : Model} (hs : Synced S F s) :
    ∀ d', alookup (F.getData s.get_type) s.get_unique_id = some d' → AgreePair S F s d' := by
  induction hs with
  | @intro s d'0 hsS hlook hcls hattrs hpairs hrec ih =>
    intro d' hd'
    rw [hlook] at hd'
    obtain rfl : d'0 = d' := (Option.some.injEq _ _).mp hd'
    refine AgreePair.intro hcls hattrs hpairs ?_
    intro ct cf hcc s' dd hmem
    obtain ⟨u, hpe, _⟩ := combinedPairs_mem hmem
    simp only [Prod.mk.injEq] at hpe
    have hs' : alookup (toDict (S.get_by_uids (s.getChildList cf) ct)) u = some s' :=
      hpe.1.symm
    have hddl : alookup (toDict (F.get_by_uids (d'0.getChildList cf) ct)) u = some dd :=
      hpe.2.symm
    obtain ⟨hmemd, huidd⟩ := mem_of_alookup_toDict hddl
    obtain ⟨w, hwmem, hwl⟩ := get_by_uids_mem hmemd
    have hk := wellKeyed_getData hdyn.2.2.2.1 hwl
    obtain ⟨hmems, huids⟩ := mem_of_alookup_toDict hs'
    obtain ⟨w', hw'mem, hw'l⟩ := get_by_uids_mem hmems
    have hks := wellKeyed_getData hcf.wfS.wellKeyed hw'l
    have hlookf : alookup (F.getData s'.get_type) s'.get_unique_id = some dd := by
      rw [hks.1, huids]
      have hwu : w = u := by rw [← hk.2, huidd]
      rw [← hwu]
      exact hwl
    exact ih ct cf hcc s' ⟨(some s', some dd), hmem, rfl⟩ dd hlookf

/-! ### Diffing agreeing stores yields no diffs (fuel induction) -/

def APairPred (f : Nat) : Prop :=
  ∀ S F : Store, ∀ s d r, AgreePair S F s d →
    diff_object_pair f 0 S F (some s) (some d) = .ok r →
    ∀ el, r = some el → el.has_diffs true = false

def APairsPred (f : Nat) : Prop :=
  ∀ S F : Store, ∀ ps els, (∀ p ∈ ps, ∃ s d, p = (some s, some d) ∧ AgreePair S F s d) →
    pairsLoop f 0 S F ps = .ok els → ∀ el ∈ els, el.has_diffs true = false

def AListPred (f : Nat) : Prop :=
  ∀ S F : Store, ∀ ls ld els,
    (∀ p ∈ combinedPairs ls ld, ∃ s d, p = (some s, some d) ∧ AgreePair S F s d) →
    diff_object_list f 0 S F ls ld = .ok els → ∀ el ∈ els, el.has_diffs true = false

def AChildMapPred (f : Nat) : Prop :=
  ∀ S F : Store, ∀ el s d cmap el', el.source_attrs = el.dest_attrs →
    groupsHasDiffs el.children = false →
    (∀ ct cf, (ct, cf) ∈ cmap →
      ∀ p ∈ combinedPairs (S.get_by_uids (s.getChildList cf) ct)
          (F.get_by_uids (d.getChildList cf) ct),
        ∃ s' d', p = (some s', some d') ∧ AgreePair S F s' d') →
    childMapLoop f 0 S F el (some s) (some d) cmap = .ok el' →
    el'.source_attrs = el.source_attrs ∧ el'.dest_attrs = el.dest_attrs ∧
    groupsHasDiffs el'.children = false

def AChildObjPred (f : Nat) : Prop :=
  ∀ S F : Store, ∀ el s d el', el.source_attrs = el.dest_attrs →
    groupsHasDiffs el.children = false → AgreePair S F s d →
    diff_child_objects f 0 S F el (some s) (some d) = .ok el' →
    el'.source_attrs = el.source_attrs ∧ el'.dest_attrs = el.dest_attrs ∧
    groupsHasDiffs el'.children = false

theorem agreeDiffPred (f : Nat) :
    APairPred f ∧ APairsPred f ∧ AListPred f ∧ AChildMapPred f ∧ AChildObjPred f := by
  induction f with
  | zero =>
    refine ⟨?_, ?_, ?_, ?_, ?_⟩
    · intro S F s d r _ h
      simp [diff_object_pair] at h
    · intro S F ps els _ h
      simp [pairsLoop] at h
    · intro S F ls ld els _ h
      simp [diff_object_list] at h
    · intro S F el s d cmap el' _ _ _ h
      simp [childMapLoop] at h
    · intro S F el s d el' _ _ _ h
      simp [diff_child_objects] at h
  | succ f ih =>
    obtain ⟨ihPair, ihPairs, ihList, ihChildMap, ihChildObj⟩ := ih
    have hChildMap : AChildMapPred (f + 1) := by
      intro S F el s d cmap el' hattrs hch hag h
      match cmap with
      | [] =>
        simp only [childMapLoop] at h
        cases h
        exact ⟨rfl, rfl, hch⟩
      | (ct, cf) :: rest =>
        simp only [childMapLoop] at h
        obtain ⟨child_elems, hlist, h⟩ := except_bind_eq_ok h
        obtain ⟨ch1, hadd, h⟩ := except_bind_eq_ok h
        have hels := ihList S F _ _ child_elems
          (hag ct cf (List.mem_cons_self _ _)) hlist
        have hch1 : groupsHasDiffs ch1 = false := addElems_no_diffs hch hels hadd
        have := ihChildMap S F
          (DiffElement.mk el.type el.name el.keys el.source_attrs el.dest_attrs ch1)
          s d rest el' (by simpa using hattrs) (by simpa using hch1)
          (fun ct' cf' hm => hag ct' cf' (List.mem_cons_of_mem _ hm)) h
        simpa using this
    have hChildObj : AChildObjPred (f + 1) := by
      intro S F el s d el' hattrs hch hag h
      simp only [diff_child_objects] at h
      obtain ⟨hcls, hats, hboth, hrec⟩ := hag
      have hfil : (s.cls.children.filter
          fun ct => (alookup d.cls.children ct.1).isSome) = s.cls.children := by
        rw [hcls]
        refine List.filter_eq_self.mpr ?_
        intro a ha
        simpa using alookup_isSome_of_mem_keys (List.mem_map_of_mem Prod.fst ha)
      rw [hfil] at h
      refine ihChildMap S F el s d _ el' hattrs hch ?_ h
      intro ct cf hm p hp
      obtain ⟨p1, p2⟩ := p
      obtain ⟨hs1, hs2⟩ := hboth ct cf hm (p1, p2) hp
      obtain ⟨s', hs'⟩ := Option.isSome_iff_exists.mp hs1
      obtain ⟨d', hd'⟩ := Option.isSome_iff_exists.mp hs2
      subst hs'
      subst hd'
      exact ⟨s', d', rfl, hrec ct cf hm s' d' hp⟩
    have hPair : APairPred (f + 1) := by
      intro S F s d r hag h el hr
      subst hr
      obtain ⟨hcls, hats, hboth, hrec⟩ := hag
      by_cases hig1 : hasFlag s.model_flags IGNORE = true
      · simp [diff_object_pair, hig1] at h
      · by_cases hig2 : hasFlag d.model_flags IGNORE = true
        · simp [diff_object_pair, hig1, hig2] at h
        · simp only [diff_object_pair, hasFlag_zero, Bool.false_and, Bool.false_eq_true,
            if_false, Option.any_some, hig1, hig2] at h
          obtain ⟨el1, hco, hfe⟩ := except_bind_eq_ok h
          simp only [Except.ok.injEq, Option.some.injEq] at hfe
          subst hfe
          have := ihChildObj S F
            (DiffElement.mk s.get_type s.get_shortname s.get_identifiers
              (Option.map Model.get_attrs (some s)) (Option.map Model.get_attrs (some d)) [])
            s d el1 (by simp [hats]) rfl
            (AgreePair.intro hcls hats hboth hrec) hco
          refine has_diffs_of_eq_attrs ?_ this.2.2
          rw [this.1, this.2.1]
          simp [hats]
    have hPairs : APairsPred (f + 1) := by
      intro S F ps els hps h
      match ps with
      | [] =>
        simp only [pairsLoop] at h
        cases h
        intro el hel
        simp at hel
      | p :: rest =>
        obtain ⟨s, d, rfl, hag⟩ := hps p (List.mem_cons_self _ _)
        simp only [pairsLoop] at h
        obtain ⟨el?, hp, h⟩ := except_bind_eq_ok h
        obtain ⟨rest', hrest, h⟩ := except_bind_eq_ok h
        have hrest' := ihPairs S F rest rest'
          (fun p' hp' => hps p' (List.mem_cons_of_mem _ hp')) hrest
        cases el? with
        | none =>
          simp only [Except.ok.injEq] at h
          subst h
          exact hrest'
        | some el1 =>
          simp only [Except.ok.injEq] at h
          subst h
          intro el hel
          rcases List.mem_cons.mp hel with rfl | hel
          · exact ihPair S F s d (some el) hag hp el rfl
          · exact hrest' el hel
    have hList : AListPred (f + 1) := by
      intro S F ls ld els hag h
      simp only [diff_object_list] at h
      cases hv : validate_objects_for_diff (combinedPairs ls ld) with
      | error e => rw [hv] at h; simp at h
      | ok u =>
        rw [hv] at h
        exact ihPairs S F _ els hag h
    exact ⟨hPair, hPairs, hList, hChildMap, hChildObj⟩

/-- Top-level loop of a re-diff between agreeing stores. -/
theorem calcTopLevel_agree {S F : Store} (f : Nat) :
    ∀ types ch ch', groupsHasDiffs ch = false →
      (∀ t ∈ types, ∀ p ∈ combinedPairs (S.get_all t) (F.get_all t),
        ∃ s d, p = (some s, some d) ∧ AgreePair S F s d) →
      calcTopLevel f 0 S F types ch = .ok ch' → groupsHasDiffs ch' = false := by
  intro types
  induction types with
  | nil =>
    intro ch ch' hch _ h
    simp only [calcTopLevel] at h
    cases h
    exact hch
  | cons t rest ih =>
    intro ch ch' hch hag h
    simp only [calcTopLevel] at h
    obtain ⟨elems, hlist, h⟩ := except_bind_eq_ok h
    obtain ⟨ch1, hadd, h⟩ := except_bind_eq_ok h
    have hels := (agreeDiffPred f).2.2.1 S F _ _ elems
      (hag t (List.mem_cons_self _ _)) hlist
    exact ih ch1 ch' (addElems_no_diffs hch hels hadd)
      (fun t' ht' => hag t' (List.mem_cons_of_mem _ ht')) h

/-! ### Attribute-dictionary computations of the default lifecycle hooks -/

theorem alookup_map_pairs_mem {l : List String} {f : String → String} {k : String}
    (hk : k ∈ l) : alookup (l.map fun k' => (k', f k')) k = some (f k) := by
  induction l with
  | nil => simp at hk
  | cons a rest ih =>
    rcases List.mem_cons.mp hk with rfl | hk'
    · simp [alookup]
    · by_cases ha : a = k
      · subst ha
        simp [alookup]
      · simp only [List.map_cons, alookup, if_neg ha]
        exact ih hk'

theorem alookup_map_pairs_not_mem {l : List String} {f : String → String} {k : String}
    (hk : k ∉ l) : alookup (l.map fun k' => (k', f k')) k = none := by
  induction l with
  | nil => rfl
  | cons a rest ih =>
    have ha : a ≠ k := fun he => hk (he ▸ List.mem_cons_self _ _)
    simp only [List.map_cons, alookup, if_neg ha]
    exact ih fun hm => hk (List.mem_cons_of_mem _ hm)

theorem map_pairs_keys (l : List String) (f : String → String) :
    (l.map fun k => (k, f k)).map Prod.fst = l := by
  induction l with
  | nil => rfl
  | cons a rest ih =>
    simp only [List.map_cons]
    rw [ih]

theorem intersection_self (a : List String) : intersection a a = a := by
  refine List.filter_eq_self.mpr ?_
  intro x hx
  simpa using hx

/-- Both attribute dicts of a both-sides pair are keyed by the class's
`_attributes`, so the element's `get_attrs_keys` is that list. -/
theorem attrsKeysOf_attrs {s d : Model} (hcls : d.cls = s.cls) :
    attrsKeysOf (some s.get_attrs) (some d.get_attrs) = s.cls.attributes := by
  rw [show attrsKeysOf (some s.get_attrs) (some d.get_attrs) =
    intersection (d.get_attrs.map Prod.fst) (s.get_attrs.map Prod.fst) from rfl]
  have h1 : s.get_attrs.map Prod.fst = s.cls.attributes := map_pairs_keys _ _
  have h2 : d.get_attrs.map Prod.fst = s.cls.attributes := by
    rw [show d.get_attrs =
      d.cls.attributes.map (fun k => (k, (alookup d.fields k).getD "")) from rfl]
    rw [map_pairs_keys, hcls]
  rw [h1, h2, intersection_self]

theorem alookup_foldl_aset_of_not_mem {ps : List (String × String)} {init : AttrDict}
    {k : String} (h : ∀ kv ∈ ps, kv.1 ≠ k) :
    alookup (ps.foldl (fun f kv => aset f kv.1 kv.2) init) k = alookup init k := by
  induction ps generalizing init with
  | nil => rfl
  | cons kv rest ih =>
    simp only [List.foldl_cons]
    rw [ih fun kv' hm => h kv' (List.mem_cons_of_mem _ hm)]
    exact alookup_aset_ne _ _ (h kv (List.mem_cons_self _ _))

theorem alookup_foldl_aset_of_lookup {ps : List (String × String)} {init : AttrDict}
    {k v : String} (hnd : (ps.map Prod.fst).Nodup) (h : alookup ps k = some v) :
    alookup (ps.foldl (fun f kv => aset f kv.1 kv.2) init) k = some v := by
  induction ps generalizing init with
  | nil => simp [alookup] at h
  | cons kv rest ih =>
    obtain ⟨k0, v0⟩ := kv
    simp only [List.map_cons, List.nodup_cons] at hnd
    simp only [List.foldl_cons]
    by_cases hk : k0 = k
    · subst hk
      have hv : v0 = v := by
        simp [alookup] at h
        exact h
      subst hv
      rw [alookup_foldl_aset_of_not_mem]
      · exact alookup_aset_self _ _ _
      · intro kv' hm he
        exact hnd.1 (he ▸ List.mem_map_of_mem Prod.fst hm)
    · simp only [alookup, if_neg hk] at h
      exact ih hnd.2 h

theorem alookup_filterMap_guard {l : List String} {P : String → Prop} [DecidablePred P]
    {g : String → String} (hnd : l.Nodup) (k : String) :
    alookup (l.filterMap fun k' => if P k' then some (k', g k') else none) k =
      if k ∈ l ∧ P k then some (g k) else none := by
  induction l with
  | nil => simp [alookup]
  | cons a rest ih =>
    simp only [List.nodup_cons] at hnd
    by_cases hpa : P a
    · simp only [List.filterMap_cons, if_pos hpa]
      by_cases hak : a = k
      · subst hak
        simp [alookup, hpa]
      · simp only [alookup, if_neg hak, ih hnd.2]
        have : (k ∈ a :: rest ∧ P k) ↔ (k ∈ rest ∧ P k) := by
          constructor
          · rintro ⟨hm, hp⟩
            rcases List.mem_cons.mp hm with rfl | hm'
            · exact absurd rfl hak
            · exact ⟨hm', hp⟩
          · rintro ⟨hm, hp⟩
            exact ⟨List.mem_cons_of_mem _ hm, hp⟩
        rw [if_congr this rfl rfl]
    · simp only [List.filterMap_cons, if_neg hpa]
      rw [ih hnd.2]
      by_cases hak : a = k
      · subst hak
        have h1 : ¬ (a ∈ rest ∧ P a) := fun ⟨hm, _⟩ => hnd.1 hm
        have h2 : ¬ (a ∈ a :: rest ∧ P a) := fun ⟨_, hp⟩ => hpa hp
        rw [if_neg h1, if_neg h2]
      · have : (k ∈ a :: rest ∧ P k) ↔ (k ∈ rest ∧ P k) := by
          constructor
          · rintro ⟨hm, hp⟩
            rcases List.mem_cons.mp hm with rfl | hm'
            · exact absurd rfl hak
            · exact ⟨hm', hp⟩
          · rintro ⟨hm, hp⟩
            exact ⟨List.mem_cons_of_mem _ hm, hp⟩
        rw [if_congr this rfl rfl]

/-- The attr diffs of a create element are the full source attrs. -/
theorem get_attrs_diffs_create {el : DiffElement} {sA : AttrDict}
    (hsa : el.source_attrs = some sA) (hda : el.dest_attrs = none) :
    el.get_attrs_diffs = sA := by
  unfold DiffElement.get_attrs_diffs
  rw [hsa, hda]

/-- Lookup in the attr diffs of a both-sides element. -/
theorem get_attrs_diffs_both {el : DiffElement} {s d : Model}
    (hsa : el.source_attrs = some s.get_attrs) (hda : el.dest_attrs = some d.get_attrs)
    (hcls : d.cls = s.cls) (hnd : s.cls.attributes.Nodup) (k : String) :
    alookup el.get_attrs_diffs k =
      if k ∈ s.cls.attributes ∧
          alookup s.get_attrs k ≠ alookup d.get_attrs k then
        some ((alookup s.get_attrs k).getD "")
      else none := by
  unfold DiffElement.get_attrs_diffs
  rw [hsa, hda]
  simp only
  rw [attrsKeysOf_attrs hcls]
  exact alookup_filterMap_guard hnd k

theorem get_attrs_diffs_keys_both {el : DiffElement} {s d : Model}
    (hsa : el.source_attrs = some s.get_attrs) (hda : el.dest_attrs = some d.get_attrs)
    (hcls : d.cls = s.cls) :
    ∀ kv ∈ el.get_attrs_diffs, kv.1 ∈ s.cls.attributes := by
  unfold DiffElement.get_attrs_diffs
  rw [hsa, hda]
  simp only
  rw [attrsKeysOf_attrs hcls]
  intro kv hm
  obtain ⟨k, hk, he⟩ := List.mem_filterMap.mp hm
  by_cases hpk : alookup s.get_attrs k ≠ alookup d.get_attrs k
  · rw [if_pos hpk] at he
    cases he
    exact hk
  · rw [if_neg hpk] at he
    cases he

/-! Action derivation for the three pair shapes. -/

theorem action_create {el : DiffElement} {sA : AttrDict}
    (hsa : el.source_attrs = some sA) (hda : el.dest_attrs = none) :
    el.action = some "create" := by
  unfold DiffElement.action
  rw [hsa, hda]
  rfl

theorem action_delete {el : DiffElement} {dA : AttrDict}
    (hsa : el.source_attrs = none) (hda : el.dest_attrs = some dA) :
    el.action = some "delete" := by
  unfold DiffElement.action
  rw [hsa, hda]
  rfl

theorem action_both {el : DiffElement} {sA dA : AttrDict}
    (hsa : el.source_attrs = some sA) (hda : el.dest_attrs = some dA) :
    el.action = (if el.get_attrs_keys.any (fun k =>
        (alookup sA k).getD "" != (alookup dA k).getD "") then some "update"
      else none) := by
  unfold DiffElement.action
  rw [hsa, hda]
  simp [DiffElement.get_attrs_keys, hsa, hda]

/-- When a both-sides element's action is `None`, the two records' attrs
coincide. -/
theorem action_none_attrs {el : DiffElement} {s d : Model}
    (hsa : el.source_attrs = some s.get_attrs) (hda : el.dest_attrs = some d.get_attrs)
    (hcls : d.cls = s.cls) (hact : ¬ el.action = some "update") :
    d.get_attrs = s.get_attrs := by
  have hany : el.get_attrs_keys.any (fun k =>
      (alookup s.get_attrs k).getD "" != (alookup d.get_attrs k).getD "") = false := by
    by_contra hne
    have := action_both hsa hda
    rw [Bool.not_eq_false] at hne
    rw [hne, if_pos rfl] at this
    exact hact this
  rw [List.any_eq_false] at hany
  have hkeys : el.get_attrs_keys = s.cls.attributes := by
    rw [DiffElement.get_attrs_keys, hsa, hda]
    exact attrsKeysOf_attrs hcls
  rw [hkeys] at hany
  unfold Model.get_attrs
  rw [hcls]
  refine List.map_congr_left ?_
  intro k hk
  have := hany k hk
  simp only [bne_iff_ne, ne_eq, Decidable.not_not] at this
  have hsl : alookup s.get_attrs k = some ((alookup s.fields k).getD "") :=
    alookup_map_pairs_mem hk
  have hdl : alookup d.get_attrs k = some ((alookup d.fields k).getD "") := by
    unfold Model.get_attrs
    rw [hcls]
    exact alookup_map_pairs_mem hk
  rw [hsl, hdl] at this
  simp only [Option.getD_some] at this
  rw [this]

/-- When a both-sides element's action is `update`, applying the default
update hook to the destination record yields the source's attrs while
leaving identifiers, child lists, class and flags unchanged. -/
theorem updated_model_spec {el : DiffElement} {s d : Model}
    (hsa : el.source_attrs = some s.get_attrs) (hda : el.dest_attrs = some d.get_attrs)
    (hcls : d.cls = s.cls) (hwf : ClassWF s.cls) {m : Model}
    (hm : m = { d with fields :=
      el.get_attrs_diffs.foldl (fun f kv => aset f kv.1 kv.2) d.fields }) :
    m.cls = d.cls ∧ m.model_flags = d.model_flags ∧
    (∀ cf, m.getChildList cf = d.getChildList cf) ∧
    m.get_identifiers = d.get_identifiers ∧ m.get_unique_id = d.get_unique_id ∧
    m.get_type = d.get_type ∧ m.get_attrs = s.get_attrs := by
  obtain ⟨hndI, hndA, hdisj, _, _⟩ := hwf
  have hdiffk : ∀ kv ∈ el.get_attrs_diffs, kv.1 ∈ s.cls.attributes :=
    get_attrs_diffs_keys_both hsa hda hcls
  have hdiffnd : (el.get_attrs_diffs.map Prod.fst).Nodup := by
    unfold DiffElement.get_attrs_diffs
    rw [hsa, hda]
    simp only
    rw [attrsKeysOf_attrs hcls]
    have : ∀ (l : List String), l.Nodup →
        ((l.filterMap fun k => if alookup s.get_attrs k ≠ alookup d.get_attrs k then
          some (k, (alookup s.get_attrs k).getD "") else none).map Prod.fst).Nodup := by
      intro l
      induction l with
      | nil => intro _; simp
      | cons a rest ih =>
        intro hnd
        simp only [List.nodup_cons] at hnd
        by_cases hpa : alookup s.get_attrs a ≠ alookup d.get_attrs a
        · simp only [List.filterMap_cons, if_pos hpa, List.map_cons, List.nodup_cons]
          refine ⟨?_, ih hnd.2⟩
          intro hmem
          obtain ⟨kv, hkv, hkv1⟩ := List.mem_map.mp hmem
          obtain ⟨k', hk', he⟩ := List.mem_filterMap.mp hkv
          by_cases hp' : alookup s.get_attrs k' ≠ alookup d.get_attrs k'
          · rw [if_pos hp'] at he
            cases he
            exact hnd.1 (by simpa using hkv1 ▸ hk')
          · rw [if_neg hp'] at he
            cases he
        · simp only [List.filterMap_cons, if_neg hpa]
          exact ih hnd.2
    exact this _ hndA
  have hmcls : m.cls = d.cls := by rw [hm]
  have hmf : m.fields = el.get_attrs_diffs.foldl (fun f kv => aset f kv.1 kv.2) d.fields := by
    rw [hm]
  have hmcf : m.childFields = d.childFields := by rw [hm]
  have hmfl : m.model_flags = d.model_flags := by rw [hm]
  have hfold_id : ∀ k, k ∉ s.cls.attributes →
      alookup (el.get_attrs_diffs.foldl (fun f kv => aset f kv.1 kv.2) d.fields) k =
        alookup d.fields k := by
    intro k hk
    exact alookup_foldl_aset_of_not_mem fun kv hkv he => hk (he ▸ hdiffk kv hkv)
  have hids : m.get_identifiers = d.get_identifiers := by
    unfold Model.get_identifiers
    rw [hmcls, hmf]
    refine List.map_congr_left ?_
    intro k hk
    rw [hfold_id k (hdisj k (by rw [← hcls]; exact hk))]
  refine ⟨hmcls, hmfl, ?_, hids, ?_, ?_, ?_⟩
  · intro cf
    unfold Model.getChildList
    rw [hmcf]
  · unfold Model.get_unique_id
    rw [hmcls, hids]
  · unfold Model.get_type
    rw [hmcls]
  · unfold Model.get_attrs
    rw [hmcls, hcls, hmf]
    refine List.map_congr_left ?_
    intro k hk
    have hcase := get_attrs_diffs_both hsa hda hcls hndA k
    by_cases hdk : alookup s.get_attrs k ≠ alookup d.get_attrs k
    · rw [if_pos ⟨hk, hdk⟩] at hcase
      rw [alookup_foldl_aset_of_lookup hdiffnd hcase]
      have hsl : alookup s.get_attrs k = some ((alookup s.fields k).getD "") :=
        alookup_map_pairs_mem hk
      rw [hsl]
      rfl
    · have hnone : alookup el.get_attrs_diffs k = none := by
        rw [hcase, if_neg fun h => hdk h.2]
      have heq : alookup (el.get_attrs_diffs.foldl (fun f kv => aset f kv.1 kv.2) d.fields) k =
          alookup d.fields k := by
        refine alookup_foldl_aset_of_not_mem ?_
        intro kv hkv he
        have hlk : alookup el.get_attrs_diffs kv.1 = some kv.2 :=
          alookup_of_mem_nodup hdiffnd (by simpa using hkv)
        rw [he, hnone] at hlk
        cases hlk
      rw [heq]
      simp only [ne_eq, Decidable.not_not] at hdk
      have hsl : alookup s.get_attrs k = some ((alookup s.fields k).getD "") :=
        alookup_map_pairs_mem hk
      have hdl : alookup d.get_attrs k = some ((alookup d.fields k).getD "") := by
        unfold Model.get_attrs
        rw [hcls]
        exact alookup_map_pairs_mem hk
      rw [hsl, hdl] at hdk
      simp only [Option.some.injEq] at hdk
      rw [hdk]

/-- The record built by the default create hook from a source record's
identifiers and full attrs carries the source's key and attrs, with empty
child lists. -/
theorem created_model_spec {s : Model} (hwf : ClassWF s.cls) {sid : Nat} {m : Model}
    (hm : m = { cls := s.cls,
                fields := s.get_attrs.foldl (fun f kv => aset f kv.1 kv.2)
                  s.get_identifiers,
                childFields := s.cls.children.map fun cf => (cf.2, []),
                model_flags := 0, dsync := some sid }) :
    m.cls = s.cls ∧ m.model_flags = 0 ∧ (∀ cf, m.getChildList cf = []) ∧
    m.get_identifiers = s.get_identifiers ∧ m.get_unique_id = s.get_unique_id ∧
    m.get_type = s.get_type ∧ m.get_attrs = s.get_attrs := by
  obtain ⟨hndI, hndA, hdisj, _, _⟩ := hwf
  have hmcls : m.cls = s.cls := by rw [hm]
  have hmf : m.fields =
      s.get_attrs.foldl (fun f kv => aset f kv.1 kv.2) s.get_identifiers := by rw [hm]
  have hmcf : m.childFields = s.cls.children.map fun cf => (cf.2, []) := by rw [hm]
  have hattrkeys : ∀ kv ∈ s.get_attrs, kv.1 ∈ s.cls.attributes := by
    intro kv hkv
    obtain ⟨k, hk, he⟩ := List.mem_map.mp hkv
    rw [← he]
    exact hk
  have hfold_id : ∀ k, k ∉ s.cls.attributes →
      alookup m.fields k = alookup s.get_identifiers k := by
    intro k hk
    rw [hmf]
    exact alookup_foldl_aset_of_not_mem fun kv hkv he => hk (he ▸ hattrkeys kv hkv)
  have hchl : ∀ cf, m.getChildList cf = [] := by
    intro cf
    unfold Model.getChildList
    rw [hmcf]
    cases hl : alookup (s.cls.children.map fun cf' => (cf'.2, ([] : List String))) cf with
    | none => rfl
    | some v =>
      have := mem_of_alookup_eq_some hl
      obtain ⟨q, hq, he⟩ := List.mem_map.mp this
      obtain ⟨_, h2⟩ := Prod.mk.injEq _ _ _ _ ▸ he
      rw [← h2]
      rfl
  have hids : m.get_identifiers = s.get_identifiers := by
    unfold Model.get_identifiers
    rw [hmcls]
    refine List.map_congr_left ?_
    intro k hk
    rw [hfold_id k (hdisj k hk)]
    rw [show alookup s.get_identifiers k = some ((alookup s.fields k).getD "") from
      alookup_map_pairs_mem hk]
    rfl
  refine ⟨hmcls, by rw [hm], hchl, hids, ?_, ?_, ?_⟩
  · unfold Model.get_unique_id
    rw [hmcls, hids]
  · unfold Model.get_type
    rw [hmcls]
  · unfold Model.get_attrs
    rw [hmcls]
    have hkeysnd : (s.get_attrs.map Prod.fst).Nodup := by
      rw [show s.get_attrs =
        s.cls.attributes.map (fun k => (k, (alookup s.fields k).getD "")) from rfl,
        map_pairs_keys]
      exact hndA
    refine List.map_congr_left ?_
    intro k hk
    rw [hmf, alookup_foldl_aset_of_lookup hkeysnd
      (show alookup s.get_attrs k = some ((alookup s.fields k).getD "") from
        alookup_map_pairs_mem hk)]
    rfl

/-! ### Effects of the store mutations used by the sync -/

theorem writeBack_meta (st : Store) (t u : String) (m : Model) :
    (writeBackIfPresent st t u m).classes = st.classes ∧
    (writeBackIfPresent st t u m).top_level = st.top_level ∧
    (writeBackIfPresent st t u m).sid = st.sid := by
  unfold writeBackIfPresent Store.setData
  split <;> exact ⟨rfl, rfl, rfl⟩

theorem writeBack_lookup_self {st : Store} {t u : String} {m : Model}
    (h : (alookup (st.getData t) u).isSome) :
    alookup ((writeBackIfPresent st t u m).getData t) u = some m := by
  unfold writeBackIfPresent
  rw [if_pos h, getData_setData_self]
  exact alookup_aset_self _ _ _

theorem writeBack_absent {st : Store} {t u : String} {m : Model}
    (h : alookup (st.getData t) u = none) : writeBackIfPresent st t u m = st := by
  unfold writeBackIfPresent
  rw [h]
  rfl

theorem writeBack_lookup_other {st : Store} {t u : String} {m : Model} {t' u' : String}
    (h : (t', u') ≠ (t, u)) :
    alookup ((writeBackIfPresent st t u m).getData t') u' = alookup (st.getData t') u' := by
  unfold writeBackIfPresent
  split
  · by_cases ht : t = t'
    · subst ht
      rw [getData_setData_self]
      refine alookup_aset_ne _ _ ?_
      intro he
      exact h (by rw [he])
    · rw [getData_setData_ne _ _ ht]
  · rfl

theorem add_ok_spec {st : Store} {obj : Model} {st' : Store} {obj' : Model}
    (h : st.add obj = .ok (st', obj')) :
    alookup (st.getData obj.get_type) obj.get_unique_id = none ∧
    obj' = (if obj.dsync.isNone then { obj with dsync := some st.sid } else obj) ∧
    st' = st.setData obj.get_type
      (aset (st.getData obj.get_type) obj.get_unique_id obj') := by
  simp only [Store.add] at h
  by_cases habs : (alookup (st.getData obj.get_type) obj.get_unique_id).isSome
  · rw [if_pos habs] at h
    cases h
  · rw [if_neg habs] at h
    simp only [Except.ok.injEq, Prod.mk.injEq] at h
    obtain ⟨hst, hobj⟩ := h
    refine ⟨Option.not_isSome_iff_eq_none.mp habs, hobj.symm, ?_⟩
    rw [← hst, hobj]

theorem dsyncSet_fields (m : Model) (y : Option Nat) :
    ({ m with dsync := y } : Model).cls = m.cls ∧
    ({ m with dsync := y } : Model).get_type = m.get_type ∧
    ({ m with dsync := y } : Model).get_unique_id = m.get_unique_id ∧
    ({ m with dsync := y } : Model).get_identifiers = m.get_identifiers ∧
    ({ m with dsync := y } : Model).get_attrs = m.get_attrs ∧
    ({ m with dsync := y } : Model).model_flags = m.model_flags ∧
    (∀ cf, ({ m with dsync := y } : Model).getChildList cf = m.getChildList cf) :=
  ⟨rfl, rfl, rfl, rfl, rfl, rfl, fun _ => rfl⟩

theorem add_obj_dsync {st : Store} {obj : Model} {st' : Store} {obj' : Model}
    (h : st.add obj = .ok (st', obj')) : ∃ y, obj' = { obj with dsync := y } := by
  obtain ⟨_, hobj, _⟩ := add_ok_spec h
  by_cases hd : obj.dsync.isNone
  · exact ⟨some st.sid, by rw [hobj, if_pos hd]⟩
  · exact ⟨obj.dsync, by rw [hobj, if_neg hd]⟩

theorem add_lookup_self {st : Store} {obj : Model} {st' : Store} {obj' : Model}
    (h : st.add obj = .ok (st', obj')) :
    alookup (st'.getData obj.get_type) obj.get_unique_id = some obj' := by
  rw [(add_ok_spec h).2.2, getData_setData_self]
  exact alookup_aset_self _ _ _

theorem add_lookup_other {st : Store} {obj : Model} {st' : Store} {obj' : Model}
    (h : st.add obj = .ok (st', obj')) {t u : String}
    (hne : (t, u) ≠ (obj.get_type, obj.get_unique_id)) :
    alookup (st'.getData t) u = alookup (st.getData t) u := by
  rw [(add_ok_spec h).2.2]
  by_cases ht : obj.get_type = t
  · subst ht
    rw [getData_setData_self]
    refine alookup_aset_ne _ _ ?_
    intro he
    exact hne (by rw [he])
  · rw [getData_setData_ne _ _ ht]

theorem add_meta {st : Store} {obj : Model} {st' : Store} {obj' : Model}
    (h : st.add obj = .ok (st', obj')) :
    st'.classes = st.classes ∧ st'.top_level = st.top_level ∧ st'.sid = st.sid := by
  rw [(add_ok_spec h).2.2]
  exact ⟨rfl, rfl, rfl⟩

theorem remove_false_spec {g : Nat} {st : Store} {obj : Model} {st' : Store} {o' : Model}
    (h : Store.remove g st obj false = .ok (st', o')) :
    (alookup (st.getData obj.get_type) obj.get_unique_id).isSome ∧
    st' = st.setData obj.get_type (adel (st.getData obj.get_type) obj.get_unique_id) ∧
    ∃ y, o' = { obj with dsync := y } := by
  cases g with
  | zero => simp [Store.remove] at h
  | succ g =>
    simp only [Store.remove] at h
    by_cases habs : (alookup (st.getData obj.get_type) obj.get_unique_id).isNone
    · rw [if_pos habs] at h
      cases h
    · rw [if_neg habs] at h
      simp only [Bool.false_eq_true, if_false, Except.ok.injEq, Prod.mk.injEq] at h
      obtain ⟨hst, ho⟩ := h
      have hsome : (alookup (st.getData obj.get_type) obj.get_unique_id).isSome := by
        cases hopt : alookup (st.getData obj.get_type) obj.get_unique_id with
        | none => exact absurd (by rw [hopt]; rfl) habs
        | some _ => rfl
      refine ⟨hsome, hst.symm, ?_⟩
      by_cases hd : obj.dsync == some st.sid
      · exact ⟨none, by rw [← ho, if_pos hd]⟩
      · exact ⟨obj.dsync, by rw [← ho, if_neg hd]⟩

theorem remove_false_meta {g : Nat} {st : Store} {obj : Model} {st' : Store} {o' : Model}
    (h : Store.remove g st obj false = .ok (st', o')) :
    st'.classes = st.classes ∧ st'.top_level = st.top_level ∧ st'.sid = st.sid := by
  rw [(remove_false_spec h).2.1]
  exact ⟨rfl, rfl, rfl⟩

theorem remove_false_lookup_self {g : Nat} {st : Store} {obj : Model} {st' : Store}
    {o' : Model} (h : Store.remove g st obj false = .ok (st', o'))
    (hnd : StoreNodup st) :
    alookup (st'.getData obj.get_type) obj.get_unique_id = none := by
  rw [(remove_false_spec h).2.1, getData_setData_self]
  exact alookup_adel_self_of_nodup (nodup_getData hnd _)

theorem remove_false_lookup_other {g : Nat} {st : Store} {obj : Model} {st' : Store}
    {o' : Model} (h : Store.remove g st obj false = .ok (st', o')) {t u : String}
    (hne : (t, u) ≠ (obj.get_type, obj.get_unique_id)) :
    alookup (st'.getData t) u = alookup (st.getData t) u := by
  rw [(remove_false_spec h).2.1]
  by_cases ht : obj.get_type = t
  · subst ht
    rw [getData_setData_self]
    by_cases hu : obj.get_unique_id = u
    · exact absurd (by rw [hu]) hne
    · exact alookup_adel_ne _ hu
  · rw [getData_setData_ne _ _ ht]

/-! ### `DynInv` preservation -/

theorem dynInv_set_entry {S D F : Store} (hdyn : DynInv S D F) {t u : String} {m : Model}
    (hty : m.get_type = t) (huid : m.get_unique_id = u)
    (hcl : alookup D.classes t = some m.cls) (hfl : m.model_flags = 0)
    (hch : ∀ ct cf, (ct, cf) ∈ m.cls.children → (m.getChildList cf).Nodup ∧
      ∀ w ∈ m.getChildList cf, Edge S D (t, u) (ct, w)) :
    DynInv S D (F.setData t (aset (F.getData t) u m)) := by
  obtain ⟨hc, htl, hsid, hwk, hnd, hdk, hrec⟩ := hdyn
  refine ⟨hc, htl, hsid, ?_, ?_, ?_, ?_⟩
  · intro p hp q hq
    simp only [Store.setData] at hp
    rcases mem_aset hp with hp | rfl
    · exact hwk p hp q hq
    · rcases mem_aset hq with hq | rfl
      · cases hd : alookup F.data t with
        | none =>
          exfalso
          have : F.getData t = [] := by
            unfold Store.getData
            rw [hd]
            rfl
          rw [this] at hq
          simp at hq
        | some entries =>
          have : F.getData t = entries := by
            unfold Store.getData
            rw [hd]
            rfl
          rw [this] at hq
          exact hwk (t, entries) (mem_of_alookup_eq_some hd) q hq
      · exact ⟨hty, huid⟩
  · intro p hp
    simp only [Store.setData] at hp
    rcases mem_aset hp with hp | rfl
    · exact hnd p hp
    · rw [aset_keys]
      by_cases hm : u ∈ (F.getData t).map Prod.fst
      · rw [if_pos hm]
        exact nodup_getData hnd t
      · rw [if_neg hm]
        refine List.Nodup.append (nodup_getData hnd t) (by simp) ?_
        intro a ha ha'
        simp only [List.mem_singleton] at ha'
        subst ha'
        exact hm ha
  · simp only [Store.setData]
    rw [aset_keys]
    split
    · exact hdk
    · refine List.Nodup.append hdk (by simp) ?_
      intro a ha ha'
      simp only [List.mem_singleton] at ha'
      subst ha'
      rename_i hmem
      exact hmem ha
  · intro t' u' m' hm'
    by_cases ht : t = t'
    · subst ht
      rw [getData_setData_self] at hm'
      rcases alookup_aset_cases hm' with ⟨rfl, rfl⟩ | ⟨hne, hm''⟩
      · exact ⟨hcl, hfl, hch⟩
      · exact hrec t u' m' hm''
    · rw [getData_setData_ne _ _ ht] at hm'
      exact hrec t' u' m' hm'

theorem dynInv_del_entry {S D F : Store} (hdyn : DynInv S D F) (t u : String) :
    DynInv S D (F.setData t (adel (F.getData t) u)) := by
  obtain ⟨hc, htl, hsid, hwk, hnd, hdk, hrec⟩ := hdyn
  refine ⟨hc, htl, hsid, wellKeyed_adel F t u hwk, storeNodup_adel F t u hnd, ?_, ?_⟩
  · simp only [Store.setData]
    rw [aset_keys]
    split
    · exact hdk
    · refine List.Nodup.append hdk (by simp) ?_
      intro a ha ha'
      simp only [List.mem_singleton] at ha'
      subst ha'
      rename_i hmem
      exact hmem ha
  · intro t' u' m' hm'
    by_cases ht : t = t'
    · subst ht
      rw [getData_setData_self] at hm'
      exact hrec t u' m' (alookup_adel_some_of_nodup (nodup_getData hnd t) hm')
    · rw [getData_setData_ne _ _ ht] at hm'
      exact hrec t' u' m' hm'

/-! ### Keys and parent edits of the sync -/

theorem mem_unique_of_nodup_keys {l : List (String × α)} (hnd : (l.map Prod.fst).Nodup)
    {k : String} {v v' : α} (h1 : (k, v) ∈ l) (h2 : (k, v') ∈ l) : v = v' := by
  have e1 := alookup_of_mem_nodup hnd h1
  have e2 := alookup_of_mem_nodup hnd h2
  rw [e1] at e2
  exact (Option.some.injEq _ _).mp e2

/-- The destination-store key a visited pair addresses. -/
def keyOfPair (s? d? : Option Model) : SKey :=
  ((baseRec s? d?).get_type, (baseRec s? d?).get_unique_id)

theorem goodPair_prov {S D : Store} {rank : SKey → Nat} (hcf : ConflictFree S D rank)
    {s? d? : Option Model} {el : DiffElement} (hg : GoodPair S D s? d? el) :
    PairProv S D s? d? := by
  cases hg with
  | intro hsome hsS hdD hagree =>
    refine ⟨hsome, ?_, ?_, hagree⟩
    · intro s hs
      exact ⟨hsS s hs, hcf.wfS.recFlags _ _ s (hsS s hs)⟩
    · intro d hd
      exact ⟨hdD d hd, hcf.wfD.recFlags _ _ d (hdD d hd)⟩

theorem goodPair_key {S D : Store} {rank : SKey → Nat} (hcf : ConflictFree S D rank)
    {s? d? : Option Model} {el : DiffElement} (hg : GoodPair S D s? d? el) :
    elemDKey D.classes el = keyOfPair s? d? := by
  cases hg with
  | intro hsome hsS hdD hagree htype hkeys =>
    exact pairProv_key hcf (goodPair_prov hcf (GoodPair.intro hsome hsS hdD hagree htype
      hkeys (by assumption) (by assumption) (by assumption) (by assumption)
      (by assumption))) htype hkeys

/-- The destination-record edit `add_child` / `remove_child` applies to the
parent model for one processed pair. -/
def PEdit (p : Option Model × Option Model) (P P' : Model) : Prop :=
  (p.1.isSome ∨ p.2.isSome) ∧
  (p.1.isSome → p.2.isSome → P' = P) ∧
  (p.1.isSome → p.2 = none → ∃ cf,
    alookup P.cls.children (keyOfPair p.1 p.2).1 = some cf ∧
    (keyOfPair p.1 p.2).2 ∉ P.getChildList cf ∧
    P' = { P with childFields := aset P.childFields cf (P.getChildList cf ++ [(keyOfPair p.1 p.2).2]) }) ∧
  (p.1 = none → p.2.isSome → ∃ cf,
    alookup P.cls.children (keyOfPair p.1 p.2).1 = some cf ∧
    (keyOfPair p.1 p.2).2 ∈ P.getChildList cf ∧
    P' = { P with childFields := aset P.childFields cf ((P.getChildList cf).erase (keyOfPair p.1 p.2).2) })

inductive PEdits : List (Option Model × Option Model) → Model → Model → Prop where
  | nil (P : Model) : PEdits [] P P
  | cons {p : Option Model × Option Model} {ps : List (Option Model × Option Model)}
      {P P1 P2 : Model} : PEdit p P P1 → PEdits ps P1 P2 → PEdits (p :: ps) P P2

theorem pEdit_fields {p : Option Model × Option Model} {P P' : Model} (h : PEdit p P P') :
    P'.cls = P.cls ∧ P'.fields = P.fields ∧ P'.model_flags = P.model_flags ∧
    P'.get_type = P.get_type ∧ P'.get_unique_id = P.get_unique_id ∧
    P'.get_attrs = P.get_attrs ∧ P'.get_identifiers = P.get_identifiers := by
  obtain ⟨hsome, hboth, hcr, hdel⟩ := h
  cases hs : p.1 with
  | some s =>
    cases hd : p.2 with
    | some d =>
      have := hboth (by rw [hs]; rfl) (by rw [hd]; rfl)
      subst this
      exact ⟨rfl, rfl, rfl, rfl, rfl, rfl, rfl⟩
    | none =>
      obtain ⟨cf, _, _, hP'⟩ := hcr (by rw [hs]; rfl) hd
      subst hP'
      exact ⟨rfl, rfl, rfl, rfl, rfl, rfl, rfl⟩
  | none =>
    cases hd : p.2 with
    | some d =>
      obtain ⟨cf, _, _, hP'⟩ := hdel hs (by rw [hd]; rfl)
      subst hP'
      exact ⟨rfl, rfl, rfl, rfl, rfl, rfl, rfl⟩
    | none =>
      rcases hsome with h1 | h1
      · rw [hs] at h1
        simp at h1
      · rw [hd] at h1
        simp at h1

theorem pEdits_fields {ps : List (Option Model × Option Model)} {P P' : Model}
    (h : PEdits ps P P') :
    P'.cls = P.cls ∧ P'.fields = P.fields ∧ P'.model_flags = P.model_flags ∧
    P'.get_type = P.get_type ∧ P'.get_unique_id = P.get_unique_id ∧
    P'.get_attrs = P.get_attrs ∧ P'.get_identifiers = P.get_identifiers := by
  induction h with
  | nil => exact ⟨rfl, rfl, rfl, rfl, rfl, rfl, rfl⟩
  | cons h1 _ ih =>
    obtain ⟨e1, e2, e3, e4, e5, e6, e7⟩ := pEdit_fields h1
    obtain ⟨i1, i2, i3, i4, i5, i6, i7⟩ := ih
    exact ⟨i1.trans e1, i2.trans e2, i3.trans e3, i4.trans e4, i5.trans e5,
      i6.trans e6, i7.trans e7⟩

/-- Which uids the pair batch creates / deletes under a given child type. -/
def CreatedIn (ps : List (Option Model × Option Model)) (ct w : String) : Prop :=
  ∃ p ∈ ps, p.1.isSome ∧ p.2 = none ∧ keyOfPair p.1 p.2 = (ct, w)

def DeletedIn (ps : List (Option Model × Option Model)) (ct w : String) : Prop :=
  ∃ p ∈ ps, p.1 = none ∧ p.2.isSome ∧ keyOfPair p.1 p.2 = (ct, w)

theorem pEdits_childList {ps : List (Option Model × Option Model)} {P P' : Model}
    (h : PEdits ps P P')
    (hndk : (ps.map fun p => keyOfPair p.1 p.2).Nodup)
    {ct cf : String} (hcf : alookup P.cls.children ct = some cf)
    (hinj : ∀ ct', alookup P.cls.children ct' = some cf → ct' = ct)
    (hnd : (P.getChildList cf).Nodup) :
    (P'.getChildList cf).Nodup ∧
    ∀ w, w ∈ P'.getChildList cf ↔
      ((w ∈ P.getChildList cf ∧ ¬ DeletedIn ps ct w) ∨ CreatedIn ps ct w) := by
  induction h with
  | nil =>
    refine ⟨hnd, ?_⟩
    intro w
    simp [CreatedIn, DeletedIn]
  | @cons p ps P P1 P2 h1 h2 ih =>
    simp only [List.map_cons, List.nodup_cons] at hndk
    have hP1cls : P1.cls = P.cls := (pEdit_fields h1).1
    obtain ⟨hsome, hboth, hcr, hdel⟩ := h1
    have hkey : ∀ w, CreatedIn (p :: ps) ct w ↔
        ((p.1.isSome ∧ p.2 = none ∧ keyOfPair p.1 p.2 = (ct, w)) ∨ CreatedIn ps ct w) := by
      intro w
      constructor
      · rintro ⟨q, hq, hqs⟩
        rcases List.mem_cons.mp hq with rfl | hq'
        · exact Or.inl hqs
        · exact Or.inr ⟨q, hq', hqs⟩
      · rintro (hh | ⟨q, hq, hqs⟩)
        · exact ⟨p, List.mem_cons_self _ _, hh⟩
        · exact ⟨q, List.mem_cons_of_mem _ hq, hqs⟩
    have hkey' : ∀ w, DeletedIn (p :: ps) ct w ↔
        ((p.1 = none ∧ p.2.isSome ∧ keyOfPair p.1 p.2 = (ct, w)) ∨ DeletedIn ps ct w) := by
      intro w
      constructor
      · rintro ⟨q, hq, hqs⟩
        rcases List.mem_cons.mp hq with rfl | hq'
        · exact Or.inl hqs
        · exact Or.inr ⟨q, hq', hqs⟩
      · rintro (hh | ⟨q, hq, hqs⟩)
        · exact ⟨p, List.mem_cons_self _ _, hh⟩
        · exact ⟨q, List.mem_cons_of_mem _ hq, hqs⟩
    cases hs : p.1 with
    | some s0 =>
      cases hd : p.2 with
      | some d0 =>
        have hP1 : P1 = P := hboth (by rw [hs]; rfl) (by rw [hd]; rfl)
        subst hP1
        obtain ⟨ihnd, ihmem⟩ := ih hndk.2 hcf hinj hnd
        refine ⟨ihnd, ?_⟩
        intro w
        rw [ihmem w, hkey w, hkey' w]
        simp [hs, hd]
      | none =>
        obtain ⟨cf0, hcf0, hnotin, hP1⟩ := hcr (by rw [hs]; rfl) hd
        by_cases hct : (keyOfPair p.1 p.2).1 = ct
        · have hcfeq : cf0 = cf := by
            rw [hct] at hcf0
            rw [hcf0] at hcf
            exact (Option.some.injEq _ _).mp hcf
          rw [hcfeq] at hcf0 hnotin hP1
          have hlist1 : P1.getChildList cf =
              P.getChildList cf ++ [(keyOfPair p.1 p.2).2] := by
            rw [hP1]
            show (alookup (aset P.childFields cf
              (P.getChildList cf ++ [(keyOfPair p.1 p.2).2])) cf).getD [] = _
            rw [alookup_aset_self]
            rfl
          have hnd1 : (P1.getChildList cf).Nodup := by
            rw [hlist1]
            refine List.Nodup.append hnd (by simp) ?_
            intro a ha ha'
            simp only [List.mem_singleton] at ha'
            subst ha'
            exact hnotin ha
          obtain ⟨ihnd, ihmem⟩ := ih hndk.2 (by rw [hP1cls]; exact hcf)
            (fun ct' hct' => hinj ct' (by rw [← hP1cls]; exact hct')) hnd1
          refine ⟨ihnd, ?_⟩
          intro w
          rw [ihmem w, hkey w, hkey' w, hlist1]
          have hknotps : ∀ pr, pr ∈ ps → keyOfPair pr.1 pr.2 ≠ keyOfPair p.1 p.2 := by
            intro pr hpr he
            exact hndk.1 (he ▸ List.mem_map_of_mem _ hpr)
          constructor
          · rintro (⟨hw, hdel'⟩ | hcr')
            · rcases List.mem_append.mp hw with hw | hw
              · refine Or.inl ⟨hw, ?_⟩
                rintro (⟨h1, _, _⟩ | h1)
                · rw [hs] at h1
                  cases h1
                · exact hdel' h1
              · simp only [List.mem_singleton] at hw
                subst hw
                refine Or.inr ?_
                exact Or.inl ⟨by rw [hs]; rfl, hd, by rw [← hct]⟩
            · exact Or.inr (Or.inr hcr')
          · rintro (⟨hw, hdel'⟩ | hcr')
            · refine Or.inl ⟨List.mem_append_left _ hw, fun h1 => hdel' (Or.inr h1)⟩
            · rcases hcr' with ⟨_, _, hk⟩ | hcr'
              · refine Or.inl ⟨List.mem_append_right _ ?_, ?_⟩
                · simp only [List.mem_singleton]
                  rw [hk]
                · intro hdl
                  obtain ⟨q, hq, hq1, hq2, hq3⟩ := hdl
                  exact hknotps q hq (hq3.trans hk.symm)
              · exact Or.inr hcr'
        · have hcfne : cf0 ≠ cf := fun he => hct (hinj _ (he ▸ hcf0))
          have hlist1 : P1.getChildList cf = P.getChildList cf := by
            rw [hP1]
            show (alookup (aset P.childFields cf0
              (P.getChildList cf0 ++ [(keyOfPair p.1 p.2).2])) cf).getD [] = _
            rw [alookup_aset_ne _ _ hcfne]
            rfl
          obtain ⟨ihnd, ihmem⟩ := ih hndk.2 (by rw [hP1cls]; exact hcf)
            (fun ct' hct' => hinj ct' (by rw [← hP1cls]; exact hct'))
            (by rw [hlist1]; exact hnd)
          refine ⟨ihnd, ?_⟩
          intro w
          rw [ihmem w, hkey w, hkey' w, hlist1]
          constructor
          · rintro (⟨hw, hdel'⟩ | hcr')
            · refine Or.inl ⟨hw, ?_⟩
              rintro (⟨h1, _, _⟩ | h1)
              · rw [hs] at h1
                cases h1
              · exact hdel' h1
            · exact Or.inr (Or.inr hcr')
          · rintro (⟨hw, hdel'⟩ | hcr')
            · exact Or.inl ⟨hw, fun h1 => hdel' (Or.inr h1)⟩
            · rcases hcr' with ⟨_, _, hk⟩ | hcr'
              · exfalso
                apply hct
                rw [hk]
              · exact Or.inr hcr'
    | none =>
      cases hd : p.2 with
      | none =>
        rcases hsome with h1 | h1
        · rw [hs] at h1
          simp at h1
        · rw [hd] at h1
          simp at h1
      | some d0 =>
        obtain ⟨cf0, hcf0, hin, hP1⟩ := hdel hs (by rw [hd]; rfl)
        by_cases hct : (keyOfPair p.1 p.2).1 = ct
        · have hcfeq : cf0 = cf := by
            rw [hct] at hcf0
            rw [hcf0] at hcf
            exact (Option.some.injEq _ _).mp hcf
          rw [hcfeq] at hcf0 hin hP1
          have hlist1 : P1.getChildList cf =
              (P.getChildList cf).erase (keyOfPair p.1 p.2).2 := by
            rw [hP1]
            show (alookup (aset P.childFields cf
              ((P.getChildList cf).erase (keyOfPair p.1 p.2).2)) cf).getD [] = _
            rw [alookup_aset_self]
            rfl
          have hnd1 : (P1.getChildList cf).Nodup := by
            rw [hlist1]
            exact hnd.erase _
          obtain ⟨ihnd, ihmem⟩ := ih hndk.2 (by rw [hP1cls]; exact hcf)
            (fun ct' hct' => hinj ct' (by rw [← hP1cls]; exact hct')) hnd1
          refine ⟨ihnd, ?_⟩
          intro w
          rw [ihmem w, hkey w, hkey' w, hlist1]
          have hknotps : ∀ pr, pr ∈ ps → keyOfPair pr.1 pr.2 ≠ keyOfPair p.1 p.2 := by
            intro pr hpr he
            exact hndk.1 (he ▸ List.mem_map_of_mem _ hpr)
          have hmemerase : ∀ w', w' ∈ (P.getChildList cf).erase (keyOfPair p.1 p.2).2 ↔
              w' ≠ (keyOfPair p.1 p.2).2 ∧ w' ∈ P.getChildList cf :=
            fun w' => hnd.mem_erase_iff
          constructor
          · rintro (⟨hw, hdel'⟩ | hcr')
            · obtain ⟨hne, hw'⟩ := (hmemerase w).mp hw
              refine Or.inl ⟨hw', ?_⟩
              rintro (⟨_, _, hk⟩ | h1)
              · apply hne
                have : (ct, w) = keyOfPair p.1 p.2 := hk.symm
                rw [← this]
              · exact hdel' h1
            · exact Or.inr (Or.inr hcr')
          · rintro (⟨hw, hdel'⟩ | hcr')
            · refine Or.inl ⟨(hmemerase w).mpr ⟨?_, hw⟩, fun h1 => hdel' (Or.inr h1)⟩
              intro he
              exact hdel' (Or.inl ⟨hs, by rw [hd]; rfl, by rw [he, ← hct]⟩)
            · rcases hcr' with ⟨h1, _, _⟩ | hcr'
              · rw [hs] at h1
                simp at h1
              · exact Or.inr hcr'
        · have hcfne : cf0 ≠ cf := fun he => hct (hinj _ (he ▸ hcf0))
          have hlist1 : P1.getChildList cf = P.getChildList cf := by
            rw [hP1]
            show (alookup (aset P.childFields cf0
              ((P.getChildList cf0).erase (keyOfPair p.1 p.2).2)) cf).getD [] = _
            rw [alookup_aset_ne _ _ hcfne]
            rfl
          obtain ⟨ihnd, ihmem⟩ := ih hndk.2 (by rw [hP1cls]; exact hcf)
            (fun ct' hct' => hinj ct' (by rw [← hP1cls]; exact hct'))
            (by rw [hlist1]; exact hnd)
          refine ⟨ihnd, ?_⟩
          intro w
          rw [ihmem w, hkey w, hkey' w, hlist1]
          constructor
          · rintro (⟨hw, hdel'⟩ | hcr')
            · refine Or.inl ⟨hw, ?_⟩
              rintro (⟨_, _, hk⟩ | h1)
              · apply hct
                rw [hk]
              · exact hdel' h1
            · exact Or.inr (Or.inr hcr')
          · rintro (⟨hw, hdel'⟩ | hcr')
            · exact Or.inl ⟨hw, fun h1 => hdel' (Or.inr h1)⟩
            · rcases hcr' with ⟨h1, _, _⟩ | hcr'
              · rw [hs] at h1
                simp at h1
              · exact Or.inr hcr'

theorem get_by_uids_consistent {st : Store} (hwk : WellKeyed st) {uids : List String}
    {t : String} :
    ∀ m ∈ st.get_by_uids uids t, ∀ m' ∈ st.get_by_uids uids t,
      m.get_unique_id = m'.get_unique_id → m = m' := by
  intro m hm m' hm' he
  obtain ⟨u1, _, h1⟩ := get_by_uids_mem hm
  obtain ⟨u2, _, h2⟩ := get_by_uids_mem hm'
  have k1 := (wellKeyed_getData hwk h1).2
  have k2 := (wellKeyed_getData hwk h2).2
  have hu : u1 = u2 := by rw [← k1, ← k2, he]
  subst hu
  rw [h1] at h2
  exact (Option.some.injEq _ _).mp h2

theorem alookup_toDict_get_by_uids {st : Store} (hwk : WellKeyed st)
    {uids : List String} {t u : String} (hu : u ∈ uids) :
    alookup (toDict (st.get_by_uids uids t)) u = alookup (st.getData t) u := by
  cases hl : alookup (st.getData t) u with
  | some m =>
    exact alookup_toDict_of_consistent (get_by_uids_consistent hwk)
      (get_by_uids_resolved hu hl) (wellKeyed_getData hwk hl).2
  | none =>
    cases hd : alookup (toDict (st.get_by_uids uids t)) u with
    | none => rfl
    | some m =>
      obtain ⟨hmem, huid⟩ := mem_of_alookup_toDict hd
      obtain ⟨w, _, hwl⟩ := get_by_uids_mem hmem
      have hmw : m.get_unique_id = w := (wellKeyed_getData hwk hwl).2
      have hwu : w = u := by rw [← hmw, huid]
      rw [hwu, hl] at hwl
      cases hwl

theorem alookup_toDict_get_by_uids_none {st : Store} (hwk : WellKeyed st)
    {uids : List String} {t u : String} (hu : u ∉ uids) :
    alookup (toDict (st.get_by_uids uids t)) u = none := by
  cases hd : alookup (toDict (st.get_by_uids uids t)) u with
  | none => rfl
  | some m =>
    obtain ⟨hmem, huid⟩ := mem_of_alookup_toDict hd
    obtain ⟨w, hw, hwl⟩ := get_by_uids_mem hmem
    have hmw : m.get_unique_id = w := (wellKeyed_getData hwk hwl).2
    rw [hmw] at huid
    exact absurd (huid ▸ hw) hu

/-- Alignment of a list of pair batches with the children-map groups. -/
def GroupsAligned (S D : Store) : List (List (Option Model × Option Model)) →
    List (String × List (String × DiffElement)) → Prop
  | [], [] => True
  | ps :: pss, grp :: rest =>
    GoodPairs S D ps (grp.2.map Prod.snd) ∧ GroupsAligned S D pss rest
  | _, _ => False

theorem groupsAligned_map {S D : Store} {ch : List (String × List (String × DiffElement))}
    {f : String → List (Option Model × Option Model)}
    (h : ∀ q ∈ ch, GoodPairs S D (f q.1) (q.2.map Prod.snd)) :
    GroupsAligned S D (ch.map fun q => f q.1) ch := by
  induction ch with
  | nil => trivial
  | cons q rest ih =>
    exact ⟨h q (List.mem_cons_self _ _), ih fun q' hq' => h q' (List.mem_cons_of_mem _ hq')⟩

theorem goodPairs_right_nil {S D : Store} {ps : List (Option Model × Option Model)}
    (h : GoodPairs S D ps []) : ps = [] := by
  cases h
  rfl

theorem combinedUids_isSome {ls ld : List Model} {u : String}
    (hu : u ∈ combinedUids ls ld) :
    (alookup (toDict ls) u).isSome ∨ (alookup (toDict ld) u).isSome := by
  rcases List.mem_append.mp hu with hu | hu
  · exact Or.inl (alookup_isSome_of_mem_keys hu)
  · exact Or.inr (alookup_isSome_of_mem_keys (List.mem_filter.mp hu).1)

theorem keyOfPair_dicts {S D : Store} {rank : SKey → Nat} (hcf : ConflictFree S D rank)
    {ct : String} {ls ld : List Model}
    (hls : ∀ m ∈ ls, ∃ u, alookup (S.getData ct) u = some m)
    (hld : ∀ m ∈ ld, ∃ u, alookup (D.getData ct) u = some m) {u : String}
    (hsome : (alookup (toDict ls) u).isSome ∨ (alookup (toDict ld) u).isSome) :
    keyOfPair (alookup (toDict ls) u) (alookup (toDict ld) u) = (ct, u) := by
  cases hps : alookup (toDict ls) u with
  | some s =>
    obtain ⟨hm, huid⟩ := mem_of_alookup_toDict hps
    obtain ⟨w, hw⟩ := hls s hm
    have hk := wellKeyed_getData hcf.wfS.wellKeyed hw
    show ((baseRec (some s) _).get_type, (baseRec (some s) _).get_unique_id) = (ct, u)
    simp only [baseRec, Option.getD_some]
    rw [hk.1, huid]
  | none =>
    cases hpd : alookup (toDict ld) u with
    | some d =>
      obtain ⟨hm, huid⟩ := mem_of_alookup_toDict hpd
      obtain ⟨w, hw⟩ := hld d hm
      have hk := wellKeyed_getData hcf.wfD.wellKeyed hw
      show ((baseRec none (some d)).get_type, (baseRec none (some d)).get_unique_id) = (ct, u)
      simp only [baseRec, Option.getD_none, Option.getD_some]
      rw [hk.1, huid]
    | none =>
      rw [hps, hpd] at hsome
      simp at hsome

theorem combined_keys_map {S D : Store} {rank : SKey → Nat} (hcf : ConflictFree S D rank)
    {ct : String} {ls ld : List Model}
    (hls : ∀ m ∈ ls, ∃ u, alookup (S.getData ct) u = some m)
    (hld : ∀ m ∈ ld, ∃ u, alookup (D.getData ct) u = some m) :
    (combinedPairs ls ld).map (fun p => keyOfPair p.1 p.2) =
      (combinedUids ls ld).map fun u => (ct, u) := by
  rw [combinedPairs_eq_map, List.map_map]
  refine List.map_congr_left ?_
  intro u hu
  exact keyOfPair_dicts hcf hls hld (combinedUids_isSome hu)

/-- The child batches of a `GoodPair`, flattened group facts included. -/
theorem goodPair_batches {S D : Store} {rank : SKey → Nat} (hcf : ConflictFree S D rank)
    {s? d? : Option Model} {el : DiffElement} (hg : GoodPair S D s? d? el) :
    ∃ pss : List (List (Option Model × Option Model)),
      GroupsAligned S D pss el.children ∧
      (∀ p ∈ pss.flatten, ∃ ct cf, (ct, cf) ∈ (baseCls s? d?).children ∧
        p ∈ combinedPairs (srcList S s? ct cf) (dstList D d? ct cf)) ∧
      (∀ ct cf, (ct, cf) ∈ (baseCls s? d?).children →
        ∀ p ∈ combinedPairs (srcList S s? ct cf) (dstList D d? ct cf), p ∈ pss.flatten) ∧
      ((pss.flatten.map fun p => keyOfPair p.1 p.2).Nodup) := by
  have hprov := goodPair_prov hcf hg
  have hkND : ((baseCls s? d?).children.map Prod.fst).Nodup :=
    (pairProv_cls hcf hprov).2.1.2.2.2.1
  obtain ⟨hsome, hsS, hdD, hagree, htype, hkeys, hsattrs, hdattrs, hchk, hchsub, hch⟩ := hg
  refine ⟨el.children.map fun q =>
    combinedPairs
      (srcList S s? q.1 (((alookup (baseCls s? d?).children q.1)).getD ""))
      (dstList D d? q.1 (((alookup (baseCls s? d?).children q.1)).getD "")), ?_, ?_, ?_, ?_⟩
  · refine @groupsAligned_map S D el.children (fun ct =>
      combinedPairs (srcList S s? ct (((alookup (baseCls s? d?).children ct)).getD ""))
        (dstList D d? ct (((alookup (baseCls s? d?).children ct)).getD ""))) ?_
    intro q hq
    obtain ⟨cf, hcf'⟩ := hchsub q hq
    have hl : alookup (baseCls s? d?).children q.1 = some cf := alookup_of_mem_nodup hkND hcf'
    show GoodPairs S D
      (combinedPairs (srcList S s? q.1 (((alookup (baseCls s? d?).children q.1)).getD ""))
        (dstList D d? q.1 (((alookup (baseCls s? d?).children q.1)).getD "")))
      (q.2.map Prod.snd)
    rw [hl]
    have := hch q.1 cf hcf'
    rwa [groupOf, alookup_of_mem_nodup hchk hq] at this
  · intro p hp
    obtain ⟨l, hl, hpl⟩ := List.mem_flatten.mp hp
    obtain ⟨q, hq, hql⟩ := List.mem_map.mp hl
    obtain ⟨cf, hcf'⟩ := hchsub q hq
    have hlk : alookup (baseCls s? d?).children q.1 = some cf := alookup_of_mem_nodup hkND hcf'
    refine ⟨q.1, cf, hcf', ?_⟩
    rw [← hql] at hpl
    rw [hlk] at hpl
    exact hpl
  · intro ct cf hmem p hp
    have hlk : alookup (baseCls s? d?).children ct = some cf := alookup_of_mem_nodup hkND hmem
    by_cases hct : ∃ g, (ct, g) ∈ el.children
    · obtain ⟨g, hg'⟩ := hct
      refine List.mem_flatten.mpr ⟨_, List.mem_map_of_mem _ hg', ?_⟩
      simp only
      rw [hlk]
      exact hp
    · have hnone : alookup el.children ct = none := by
        rw [alookup_eq_none_iff]
        intro hk
        obtain ⟨q, hq, hq1⟩ := List.mem_map.mp hk
        exact hct ⟨q.2, by rw [← hq1]; exact hq⟩
      have := hch ct cf hmem
      rw [groupOf, hnone] at this
      have := goodPairs_right_nil (by simpa using this)
      rw [this] at hp
      simp at hp
  · have hgen : ∀ ch' : List (String × List (String × DiffElement)),
        (ch'.map Prod.fst).Nodup → (∀ q ∈ ch', ∃ cf, (q.1, cf) ∈ (baseCls s? d?).children) →
        (((ch'.map fun q => combinedPairs
          (srcList S s? q.1 (((alookup (baseCls s? d?).children q.1)).getD ""))
          (dstList D d? q.1 (((alookup (baseCls s? d?).children q.1)).getD ""))).flatten.map
            fun p => keyOfPair p.1 p.2).Nodup) := by
      intro ch'
      induction ch' with
      | nil =>
        intro _ _
        simp
      | cons q rest ih =>
        intro hnd hsub
        simp only [List.map_cons, List.flatten_cons, List.map_append, List.nodup_append]
        simp only [List.map_cons, List.nodup_cons] at hnd
        have hkeysq : ((combinedPairs
            (srcList S s? q.1 (((alookup (baseCls s? d?).children q.1)).getD ""))
            (dstList D d? q.1 (((alookup (baseCls s? d?).children q.1)).getD ""))).map
              fun p => keyOfPair p.1 p.2) =
            (combinedUids _ _).map fun u => (q.1, u) :=
          combined_keys_map hcf (fun m hm => srcList_tables hm) (fun m hm => dstList_tables hm)
        refine ⟨?_, ih hnd.2 (fun q' hq' => hsub q' (List.mem_cons_of_mem _ hq')), ?_⟩
        · rw [hkeysq]
          exact (combinedUids_nodup _ _).map (fun u u' he => by
            simpa using (Prod.mk.injEq _ _ _ _ ▸ he).2)
        · intro x hx hx'
          rw [hkeysq] at hx
          obtain ⟨u, _, hxu⟩ := List.mem_map.mp hx
          obtain ⟨p2, hp2, hp2k⟩ := List.mem_map.mp hx'
          obtain ⟨l2, hl2, hp2l⟩ := List.mem_flatten.mp hp2
          obtain ⟨q', hq', hql'⟩ := List.mem_map.mp hl2
          rw [← hql'] at hp2l
          obtain ⟨u2, hpe2, hsome2⟩ := combinedPairs_mem hp2l
          have hk2 : keyOfPair p2.1 p2.2 = (q'.1, u2) := by
            rw [hpe2]
            exact keyOfPair_dicts hcf (fun m hm => srcList_tables hm)
              (fun m hm => dstList_tables hm) hsome2
          have hqq : q.1 = q'.1 := by
            have h1 : x = (q'.1, u2) := by rw [← hp2k, hk2]
            have h2 : x = (q.1, u) := hxu.symm
            rw [h2] at h1
            exact (Prod.mk.injEq _ _ _ _ ▸ h1).1
          apply hnd.1
          rw [hqq]
          exact List.mem_map_of_mem Prod.fst hq'
    exact hgen el.children hchk hchsub


/-! ### Combination helpers for the sync fuel induction -/

theorem pEdits_append {l1 l2 : List (Option Model × Option Model)} {P P1 P2 : Model}
    (h1 : PEdits l1 P P1) (h2 : PEdits l2 P1 P2) : PEdits (l1 ++ l2) P P2 := by
  induction h1 with
  | nil => exact h2
  | cons hh _ ih => exact PEdits.cons hh (ih h2)

theorem goodPairs_append {S D : Store} {ps1 ps2 : List (Option Model × Option Model)}
    {els1 els2 : List DiffElement} (h1 : GoodPairs S D ps1 els1)
    (h2 : GoodPairs S D ps2 els2) : GoodPairs S D (ps1 ++ ps2) (els1 ++ els2) := by
  induction ps1 generalizing els1 with
  | nil =>
    cases goodPairs_nil_inv h1
    exact h2
  | cons p ps ih =>
    obtain ⟨e, es, rfl, hp, hps⟩ := goodPairs_cons_inv h1
    exact GoodPairs.cons hp (ih hps)

theorem goodPairs_els_cons_inv {S D : Store} {ps : List (Option Model × Option Model)}
    {el : DiffElement} {els : List DiffElement} (h : GoodPairs S D ps (el :: els)) :
    ∃ p ps', ps = p :: ps' ∧ GoodPair S D p.1 p.2 el ∧ GoodPairs S D ps' els := by
  cases h with
  | cons h1 h2 => exact ⟨_, _, rfl, h1, h2⟩

theorem toDict_get_all {st : Store} (hwk : WellKeyed st) (hnd : StoreNodup st)
    (t u : String) :
    alookup (toDict (st.get_all t)) u = alookup (st.getData t) u := by
  have hcons : ∀ m ∈ st.get_all t, ∀ m' ∈ st.get_all t,
      m.get_unique_id = m'.get_unique_id → m = m' := by
    intro m hm m' hm' he
    obtain ⟨u1, h1⟩ := (get_all_mem hnd).mp hm
    obtain ⟨u2, h2⟩ := (get_all_mem hnd).mp hm'
    have k1 := (wellKeyed_getData hwk h1).2
    have k2 := (wellKeyed_getData hwk h2).2
    have hu : u1 = u2 := by rw [← k1, ← k2, he]
    subst hu
    rw [h1] at h2
    exact (Option.some.injEq _ _).mp h2
  cases hl : alookup (st.getData t) u with
  | some m =>
    have hm : m ∈ st.get_all t := (get_all_mem hnd).mpr ⟨u, hl⟩
    exact alookup_toDict_of_consistent hcons hm (wellKeyed_getData hwk hl).2
  | none =>
    cases hd : alookup (toDict (st.get_all t)) u with
    | none => rfl
    | some m =>
      obtain ⟨hmem, huid⟩ := mem_of_alookup_toDict hd
      obtain ⟨w, hw⟩ := (get_all_mem hnd).mp hmem
      have hmw : m.get_unique_id = w := (wellKeyed_getData hwk hw).2
      have hwu : w = u := by rw [← hmw, huid]
      rw [hwu, hl] at hw
      cases hw

theorem edge_target_ne {S D : Store} {rank : SKey → Nat} (hcf : ConflictFree S D rank)
    {p x : SKey} (he : Edge S D p x) : x ≠ p :=
  fun h => Nat.lt_irrefl _ (h ▸ hcf.ranked p x he)

theorem reach_ne_parent {S D : Store} {rank : SKey → Nat} (hcf : ConflictFree S D rank)
    {PK K x : SKey} (he : Edge S D PK K) (hx : Reach S D K x) : x ≠ PK := by
  intro hxp
  have h1 : rank x ≤ rank K := reach_rank hcf.ranked hx
  have h2 : rank K < rank PK := hcf.ranked _ _ he
  rw [hxp] at h1
  exact Nat.lt_irrefl _ (Nat.lt_of_lt_of_le h2 h1)

theorem reach_target_ne_start {S D : Store} {rank : SKey → Nat}
    (hcf : ConflictFree S D rank) {K K1 x : SKey} (he : Edge S D K K1)
    (hx : Reach S D K1 x) : x ≠ K :=
  reach_ne_parent hcf he hx

theorem sibling_no_cross {S D : Store} {rank : SKey → Nat} (hcf : ConflictFree S D rank)
    {PK K1 K2 : SKey} (h1 : Edge S D PK K1) (h2 : Edge S D PK K2) (hne : K1 ≠ K2)
    {x : SKey} (hx1 : Reach S D K1 x) (hx2 : Reach S D K2 x) : False :=
  reach_disjoint hcf.uniqueParent
    (not_reach_sibling hcf.uniqueParent hcf.ranked h1 h2 hne)
    (not_reach_sibling hcf.uniqueParent hcf.ranked h2 h1 (Ne.symm hne)) hx1 hx2

theorem top_no_cross {S D : Store} {rank : SKey → Nat} (hcf : ConflictFree S D rank)
    {K1 K2 : SKey} (h1 : K1.1 ∈ D.top_level) (h2 : K2.1 ∈ D.top_level) (hne : K1 ≠ K2)
    {x : SKey} (hx1 : Reach S D K1 x) (hx2 : Reach S D K2 x) : False := by
  have t1 : ∀ p, ¬ Edge S D p K1 := fun p hp => hcf.topFree K1.1 (Or.inr h1) K1.2 p hp
  have t2 : ∀ p, ¬ Edge S D p K2 := fun p hp => hcf.topFree K2.1 (Or.inr h2) K2.2 p hp
  exact reach_disjoint hcf.uniqueParent (not_reach_unreferenced t2 hne)
    (not_reach_unreferenced t1 (Ne.symm hne)) hx1 hx2

theorem writeBack_present_eq {st : Store} {t u : String} (m : Model)
    (h : (alookup (st.getData t) u).isSome) :
    writeBackIfPresent st t u m = st.setData t (aset (st.getData t) u m) := by
  unfold writeBackIfPresent
  rw [if_pos h]


/-! ### Edges carried by the pairs of a child batch -/

theorem batch_key {S D : Store} {rank : SKey → Nat} (hcf : ConflictFree S D rank)
    {s? d? : Option Model} {ct cf : String} {p : Option Model × Option Model}
    (hp : p ∈ combinedPairs (srcList S s? ct cf) (dstList D d? ct cf)) :
    ∃ u, keyOfPair p.1 p.2 = (ct, u) ∧
      p.1 = alookup (toDict (srcList S s? ct cf)) u ∧
      p.2 = alookup (toDict (dstList D d? ct cf)) u := by
  obtain ⟨u, hpe, hsome⟩ := combinedPairs_mem hp
  refine ⟨u, ?_, ?_, ?_⟩
  · rw [hpe]
    exact keyOfPair_dicts hcf (fun m hm => srcList_tables hm)
      (fun m hm => dstList_tables hm) hsome
  · rw [hpe]
  · rw [hpe]

theorem option_some_or_none (o : Option α) : (∃ a, o = some a) ∨ o = none := by
  cases o with
  | some a => exact Or.inl ⟨a, rfl⟩
  | none => exact Or.inr rfl

theorem batch_pair_some {src dst : List Model}
    {p : Option Model × Option Model} (hp : p ∈ combinedPairs src dst)
    (hp1 : p.1 = none) : ∃ dp, p.2 = some dp := by
  obtain ⟨u, hpe, hsome⟩ := combinedPairs_mem hp
  rcases hsome with h | h
  · rw [hpe] at hp1
    simp only at hp1
    rw [hp1] at h
    simp at h
  · rw [hpe]
    exact Option.isSome_iff_exists.mp h

theorem batch_edge_src {S D : Store} {rank : SKey → Nat} (hcf : ConflictFree S D rank)
    {s? d? : Option Model} {el : DiffElement} (hg : GoodPair S D s? d? el)
    {ct cf : String} (hmem : (ct, cf) ∈ (baseCls s? d?).children)
    {p : Option Model × Option Model}
    (hp : p ∈ combinedPairs (srcList S s? ct cf) (dstList D d? ct cf))
    {sp : Model} (hp1 : p.1 = some sp) :
    StoreEdge S (keyOfPair s? d?) (keyOfPair p.1 p.2) ∧
    alookup (S.getData (keyOfPair p.1 p.2).1) (keyOfPair p.1 p.2).2 = some sp := by
  obtain ⟨hsome', hsS, hdD, hagreeP, htype, hkeys, hsattrs, hdattrs, hchk, hchsub, hch⟩ := hg
  obtain ⟨u, hkey, hps, hpd⟩ := batch_key hcf hp
  have hlook : alookup (toDict (srcList S s? ct cf)) u = some sp := by
    rw [← hps]
    exact hp1
  obtain ⟨hmemL, huid⟩ := mem_of_alookup_toDict hlook
  rcases option_some_or_none s? with ⟨s, hso⟩ | hso
  · subst hso
    obtain ⟨w, hwuids, hwl⟩ := get_by_uids_mem hmemL
    have hk := wellKeyed_getData hcf.wfS.wellKeyed hwl
    have hwu : w = u := by rw [← hk.2, huid]
    subst hwu
    have hsl : alookup (S.getData s.get_type) s.get_unique_id = some s := hsS s rfl
    rw [hkey]
    exact ⟨⟨s, cf, hsl, hmem, hwuids⟩, hwl⟩
  · subst hso
    simp [srcList] at hmemL

theorem batch_edge_dst {S D : Store} {rank : SKey → Nat} (hcf : ConflictFree S D rank)
    {s? d? : Option Model} {el : DiffElement} (hg : GoodPair S D s? d? el)
    {ct cf : String} (hmem : (ct, cf) ∈ (baseCls s? d?).children)
    {p : Option Model × Option Model}
    (hp : p ∈ combinedPairs (srcList S s? ct cf) (dstList D d? ct cf))
    {dp : Model} (hp2 : p.2 = some dp) :
    StoreEdge D (keyOfPair s? d?) (keyOfPair p.1 p.2) ∧
    alookup (D.getData (keyOfPair p.1 p.2).1) (keyOfPair p.1 p.2).2 = some dp := by
  obtain ⟨hsome', hsS, hdD, hagreeP, htype, hkeys, hsattrs, hdattrs, hchk, hchsub, hch⟩ := hg
  obtain ⟨u, hkey, hps, hpd⟩ := batch_key hcf hp
  have hlook : alookup (toDict (dstList D d? ct cf)) u = some dp := by
    rw [← hpd]
    exact hp2
  obtain ⟨hmemL, huid⟩ := mem_of_alookup_toDict hlook
  rcases option_some_or_none d? with ⟨d, hdo⟩ | hdo
  · subst hdo
    obtain ⟨w, hwuids, hwl⟩ := get_by_uids_mem hmemL
    have hk := wellKeyed_getData hcf.wfD.wellKeyed hwl
    have hwu : w = u := by rw [← hk.2, huid]
    subst hwu
    have hdl : alookup (D.getData d.get_type) d.get_unique_id = some d := hdD d rfl
    rw [hkey]
    rcases option_some_or_none s? with ⟨sx, hso⟩ | hso
    · subst hso
      obtain ⟨hT, hU, hC⟩ := hagreeP sx d rfl rfl
      have hdl' : alookup (D.getData sx.get_type) sx.get_unique_id = some d := by
        rw [← hT, ← hU]
        exact hdl
      have hmem' : (ct, cf) ∈ d.cls.children := by
        rw [hC]
        exact hmem
      exact ⟨⟨d, cf, hdl', hmem', hwuids⟩, hwl⟩
    · subst hso
      exact ⟨⟨d, cf, hdl, hmem, hwuids⟩, hwl⟩
  · subst hdo
    simp [dstList] at hmemL

theorem batch_edge {S D : Store} {rank : SKey → Nat} (hcf : ConflictFree S D rank)
    {s? d? : Option Model} {el : DiffElement} (hg : GoodPair S D s? d? el)
    {ct cf : String} (hmem : (ct, cf) ∈ (baseCls s? d?).children)
    {p : Option Model × Option Model}
    (hp : p ∈ combinedPairs (srcList S s? ct cf) (dstList D d? ct cf)) :
    Edge S D (keyOfPair s? d?) (keyOfPair p.1 p.2) := by
  rcases option_some_or_none p.1 with ⟨sp, hp1⟩ | hp1
  · exact Or.inl (batch_edge_src hcf hg hmem hp hp1).1
  · obtain ⟨dp, hdp⟩ := batch_pair_some hp hp1
    exact Or.inr (batch_edge_dst hcf hg hmem hp hdp).1

/-- A batch pair whose key is unresolved in the destination store has a
source record and a source-store edge from the parent key. -/
theorem batch_key_src_edge {S D : Store} {rank : SKey → Nat} (hcf : ConflictFree S D rank)
    {s? d? : Option Model} {el : DiffElement} (hg : GoodPair S D s? d? el)
    {ct cf : String} (hmem : (ct, cf) ∈ (baseCls s? d?).children)
    {p : Option Model × Option Model}
    (hp : p ∈ combinedPairs (srcList S s? ct cf) (dstList D d? ct cf))
    (hD : alookup (D.getData (keyOfPair p.1 p.2).1) (keyOfPair p.1 p.2).2 = none) :
    StoreEdge S (keyOfPair s? d?) (keyOfPair p.1 p.2) ∧
    (alookup (S.getData (keyOfPair p.1 p.2).1) (keyOfPair p.1 p.2).2).isSome := by
  rcases option_some_or_none p.1 with ⟨sp, hp1⟩ | hp1
  · obtain ⟨he, hl⟩ := batch_edge_src hcf hg hmem hp hp1
    refine ⟨he, ?_⟩
    rw [hl]
    rfl
  · obtain ⟨dp, hdp⟩ := batch_pair_some hp hp1
    obtain ⟨_, hl⟩ := batch_edge_dst hcf hg hmem hp hdp
    rw [hl] at hD
    cases hD


/-! ### One-step reductions of the syncer under the default hooks -/

theorem sync_step_conflict {g flags : Nat} {st : Store} {parent : Option Model}
    {tr : List Ev} {t n : String} {k : AttrDict} {sa da : Option AttrDict}
    {ch : List (String × List (String × DiffElement))} {cls : ModelClass}
    (hcls : alookup st.classes t = some cls)
    (hact : (DiffElement.mk t n k sa da ch).action = some "create")
    {o : Model} (hobj : st.getByClass cls k = some o)
    (hflag : hasFlag flags CONTINUE_ON_FAILURE = false) :
    sync_from_diff_element (g + 1) defaultHooks flags st parent tr
      (DiffElement.mk t n k sa da ch) =
      .error (.notCreated, st, tr ++ [.visited t (cls.create_unique_id k)]) := by
  simp only [sync_from_diff_element, hcls, hact, hobj]
  simp [hflag, Err.isCrud]

theorem sync_step_create {g flags : Nat} {st : Store} {parent : Option Model}
    {tr : List Ev} {t n : String} {k : AttrDict} {sa da : Option AttrDict}
    {ch : List (String × List (String × DiffElement))} {cls : ModelClass}
    (hcls : alookup st.classes t = some cls)
    (hact : (DiffElement.mk t n k sa da ch).action = some "create")
    (hobj : st.getByClass cls k = none) :
    sync_from_diff_element (g + 1) defaultHooks flags st parent tr
      (DiffElement.mk t n k sa da ch) =
      afterCatch g defaultHooks flags st parent
        ((tr ++ [.visited t (cls.create_unique_id k)]) ++
          [.hookCreate t (cls.create_unique_id k)])
        (some "create") ch
        (some { cls := cls,
                fields := ((DiffElement.mk t n k sa da ch).get_attrs_diffs).foldl
                  (fun f kv => aset f kv.1 kv.2) k,
                childFields := cls.children.map fun cf => (cf.2, []),
                model_flags := 0, dsync := some st.sid }) := by
  simp only [sync_from_diff_element, hcls, hact, hobj]
  simp [defaultHooks]

theorem sync_step_update {g flags : Nat} {st : Store} {parent : Option Model}
    {tr : List Ev} {t n : String} {k : AttrDict} {sa da : Option AttrDict}
    {ch : List (String × List (String × DiffElement))} {cls : ModelClass}
    (hcls : alookup st.classes t = some cls)
    (hact : (DiffElement.mk t n k sa da ch).action = some "update")
    {o : Model} (hobj : st.getByClass cls k = some o) :
    sync_from_diff_element (g + 1) defaultHooks flags st parent tr
      (DiffElement.mk t n k sa da ch) =
      afterCatch g defaultHooks flags
        (writeBackIfPresent st cls.modelname (cls.create_unique_id k)
          { o with fields := List.foldl (fun f kv => aset f kv.1 kv.2) o.fields ((DiffElement.mk t n k sa da ch).get_attrs_diffs) })
        parent
        ((tr ++ [.visited t (cls.create_unique_id k)]) ++
          [.hookUpdate t (cls.create_unique_id k)])
        (some "update") ch
        (some { o with fields := List.foldl (fun f kv => aset f kv.1 kv.2) o.fields ((DiffElement.mk t n k sa da ch).get_attrs_diffs) }) := by
  simp only [sync_from_diff_element, hcls, hact, hobj]
  simp [defaultHooks]

theorem sync_step_delete {g flags : Nat} {st : Store} {parent : Option Model}
    {tr : List Ev} {t n : String} {k : AttrDict} {sa da : Option AttrDict}
    {ch : List (String × List (String × DiffElement))} {cls : ModelClass}
    (hcls : alookup st.classes t = some cls)
    (hact : (DiffElement.mk t n k sa da ch).action = some "delete")
    {o : Model} (hobj : st.getByClass cls k = some o) :
    sync_from_diff_element (g + 1) defaultHooks flags st parent tr
      (DiffElement.mk t n k sa da ch) =
      afterCatch g defaultHooks flags st parent
        ((tr ++ [.visited t (cls.create_unique_id k)]) ++
          [.hookDelete t (cls.create_unique_id k)])
        (some "delete") ch (some o) := by
  simp only [sync_from_diff_element, hcls, hact, hobj]
  simp [defaultHooks]

theorem sync_step_none {g flags : Nat} {st : Store} {parent : Option Model}
    {tr : List Ev} {t n : String} {k : AttrDict} {sa da : Option AttrDict}
    {ch : List (String × List (String × DiffElement))} {cls : ModelClass}
    (hcls : alookup st.classes t = some cls)
    (hact : (DiffElement.mk t n k sa da ch).action = none) :
    sync_from_diff_element (g + 1) defaultHooks flags st parent tr
      (DiffElement.mk t n k sa da ch) =
      afterCatch g defaultHooks flags st parent
        (tr ++ [.visited t (cls.create_unique_id k)]) none ch
        (st.getByClass cls k) := by
  simp only [sync_from_diff_element, hcls, hact]
  simp

theorem after_step_skip {g flags : Nat} {st : Store} {parent : Option Model} {tr : List Ev}
    {act : Option String} {ch : List (String × List (String × DiffElement))} :
    afterCatch (g + 1) defaultHooks flags st parent tr act ch none = .ok (st, parent, tr) := by
  simp [afterCatch]

theorem after_step_else {g flags : Nat} {st : Store} {parent : Option Model} {tr : List Ev}
    {act : Option String} {ch : List (String × List (String × DiffElement))} {obj : Model}
    (h1 : act ≠ some "create") (h2 : act ≠ some "delete") :
    afterCatch (g + 1) defaultHooks flags st parent tr act ch (some obj) =
      syncGroups g defaultHooks flags st obj tr parent ch := by
  simp only [afterCatch]
  rw [if_neg h1, if_neg h2]

theorem after_step_create_noparent {g flags : Nat} {st : Store} {tr : List Ev}
    {ch : List (String × List (String × DiffElement))} {obj : Model} {st1 : Store}
    {obj1 : Model} (hadd : st.add obj = .ok (st1, obj1)) :
    afterCatch (g + 1) defaultHooks flags st none tr (some "create") ch (some obj) =
      syncGroups g defaultHooks flags st1 obj1 tr none ch := by
  simp only [afterCatch]
  simp [hadd]

theorem after_step_create_noparent_err {g flags : Nat} {st : Store} {tr : List Ev}
    {ch : List (String × List (String × DiffElement))} {obj : Model} {e : Err}
    {st2 : Store} {m2 : Model} (hadd : st.add obj = .error (e, st2, m2)) :
    afterCatch (g + 1) defaultHooks flags st none tr (some "create") ch (some obj) =
      .error (e, st2, tr) := by
  simp only [afterCatch]
  simp [hadd]

theorem after_step_create_parent {g flags : Nat} {st : Store} {tr : List Ev}
    {ch : List (String × List (String × DiffElement))} {obj P p' : Model} {st1 : Store}
    {obj1 : Model} (hac : P.add_child obj = .ok p')
    (hadd : (writeBackIfPresent st p'.get_type p'.get_unique_id p').add obj =
      .ok (st1, obj1)) :
    afterCatch (g + 1) defaultHooks flags st (some P) tr (some "create") ch (some obj) =
      syncGroups g defaultHooks flags st1 obj1 tr (some p') ch := by
  simp only [afterCatch]
  simp [hac, hadd]

theorem after_step_create_parent_err {g flags : Nat} {st : Store} {tr : List Ev}
    {ch : List (String × List (String × DiffElement))} {obj P : Model} {e : Err}
    (hac : P.add_child obj = .error e) :
    afterCatch (g + 1) defaultHooks flags st (some P) tr (some "create") ch (some obj) =
      .error (e, st, tr) := by
  simp only [afterCatch]
  simp [hac]

theorem after_step_create_parent_add_err {g flags : Nat} {st : Store} {tr : List Ev}
    {ch : List (String × List (String × DiffElement))} {obj P p' : Model} {e : Err}
    {st2 : Store} {m2 : Model} (hac : P.add_child obj = .ok p')
    (hadd : (writeBackIfPresent st p'.get_type p'.get_unique_id p').add obj =
      .error (e, st2, m2)) :
    afterCatch (g + 1) defaultHooks flags st (some P) tr (some "create") ch (some obj) =
      .error (e, st2, tr) := by
  simp only [afterCatch]
  simp [hac, hadd]

theorem after_step_delete_noparent {g flags : Nat} {st : Store} {tr : List Ev}
    {ch : List (String × List (String × DiffElement))} {obj : Model} {st1 : Store}
    {o1 : Model} (hskip : hasFlag obj.model_flags SKIP_CHILDREN_ON_DELETE = false)
    (hrem : Store.remove g st obj false = .ok (st1, o1)) :
    afterCatch (g + 1) defaultHooks flags st none tr (some "delete") ch (some obj) =
      syncGroups g defaultHooks flags st1 o1 tr none ch := by
  simp only [afterCatch]
  simp [hskip, hrem]

theorem after_step_delete_noparent_err {g flags : Nat} {st : Store} {tr : List Ev}
    {ch : List (String × List (String × DiffElement))} {obj : Model} {e : Err}
    {st2 : Store} {m2 : Model}
    (hskip : hasFlag obj.model_flags SKIP_CHILDREN_ON_DELETE = false)
    (hrem : Store.remove g st obj false = .error (e, st2, m2)) :
    afterCatch (g + 1) defaultHooks flags st none tr (some "delete") ch (some obj) =
      .error (e, st2, tr) := by
  simp only [afterCatch]
  simp [hskip, hrem]

theorem after_step_delete_parent {g flags : Nat} {st : Store} {tr : List Ev}
    {ch : List (String × List (String × DiffElement))} {obj P p' : Model} {st1 : Store}
    {o1 : Model} (hrc : P.remove_child obj = .ok p')
    (hskip : hasFlag obj.model_flags SKIP_CHILDREN_ON_DELETE = false)
    (hrem : Store.remove g (writeBackIfPresent st p'.get_type p'.get_unique_id p') obj
      false = .ok (st1, o1)) :
    afterCatch (g + 1) defaultHooks flags st (some P) tr (some "delete") ch (some obj) =
      syncGroups g defaultHooks flags st1 o1 tr (some p') ch := by
  simp only [afterCatch]
  simp [hrc, hskip, hrem]

theorem after_step_delete_parent_err {g flags : Nat} {st : Store} {tr : List Ev}
    {ch : List (String × List (String × DiffElement))} {obj P : Model} {e : Err}
    (hrc : P.remove_child obj = .error e) :
    afterCatch (g + 1) defaultHooks flags st (some P) tr (some "delete") ch (some obj) =
      .error (e, st, tr) := by
  simp only [afterCatch]
  simp [hrc]

theorem after_step_delete_parent_rem_err {g flags : Nat} {st : Store} {tr : List Ev}
    {ch : List (String × List (String × DiffElement))} {obj P p' : Model} {e : Err}
    {st2 : Store} {m2 : Model} (hrc : P.remove_child obj = .ok p')
    (hskip : hasFlag obj.model_flags SKIP_CHILDREN_ON_DELETE = false)
    (hrem : Store.remove g (writeBackIfPresent st p'.get_type p'.get_unique_id p') obj
      false = .error (e, st2, m2)) :
    afterCatch (g + 1) defaultHooks flags st (some P) tr (some "delete") ch (some obj) =
      .error (e, st2, tr) := by
  simp only [afterCatch]
  simp [hrc, hskip, hrem]


/-! ### Contracts of the sync recursion -/

/-- Contract of applying one produced DiffElement (default hooks, no flags) to
the evolving destination store `F`: the dynamic invariant is kept; keys
outside the pair's reach, other than the parent entry, are untouched; a key
going from absent to present is source-backed and is the pair's own key or a
source-referenced one; the threaded parent model undergoes exactly this
pair's membership edit, mirrored into its store entry when that entry was
aliased; a source-backed pair ends with its subtree synced; a source-less
pair ends with its destination entry deleted. -/
def ElemPost (S D : Store) (s? d? : Option Model) (F : Store) (parent? : Option Model)
    (out : Store × Option Model × List Ev) : Prop :=
  DynInv S D out.1 ∧
  (∀ x : SKey, ¬ Reach S D (keyOfPair s? d?) x →
    (∀ P : Model, parent? = some P → x ≠ (P.get_type, P.get_unique_id)) →
    alookup (out.1.getData x.1) x.2 = alookup (F.getData x.1) x.2) ∧
  (∀ x : SKey, alookup (F.getData x.1) x.2 = none →
    (alookup (out.1.getData x.1) x.2).isSome →
    (alookup (S.getData x.1) x.2).isSome ∧
    (x = keyOfPair s? d? ∨ ∃ pk, StoreEdge S pk x)) ∧
  (∀ P : Model, parent? = some P → ∃ P', out.2.1 = some P' ∧ PEdit (s?, d?) P P' ∧
    (alookup (F.getData P.get_type) P.get_unique_id = some P →
      alookup (out.1.getData P.get_type) P.get_unique_id = some P') ∧
    (alookup (F.getData P.get_type) P.get_unique_id = none →
      alookup (out.1.getData P.get_type) P.get_unique_id = none)) ∧
  (parent? = none → out.2.1 = none) ∧
  (∀ s, s? = some s → Synced S out.1 s) ∧
  (s? = none →
    alookup (out.1.getData (keyOfPair s? d?).1) (keyOfPair s? d?).2 = none)

/-- Contract of one batch of sibling pairs processed below the parent entry
at key `PK`. -/
def BatchPost (S D : Store) (ps : List (Option Model × Option Model)) (PK : SKey)
    (F F' : Store) : Prop :=
  DynInv S D F' ∧
  (∀ x : SKey, (∀ p ∈ ps, ¬ Reach S D (keyOfPair p.1 p.2) x) → x ≠ PK →
    alookup (F'.getData x.1) x.2 = alookup (F.getData x.1) x.2) ∧
  (∀ x : SKey, alookup (F.getData x.1) x.2 = none →
    (alookup (F'.getData x.1) x.2).isSome →
    (alookup (S.getData x.1) x.2).isSome ∧
    ((∃ p ∈ ps, x = keyOfPair p.1 p.2) ∨ ∃ pk, StoreEdge S pk x)) ∧
  (∀ p ∈ ps, ∀ s, p.1 = some s → Synced S F' s)

def SElemPred (g : Nat) : Prop :=
  ∀ S D (rank : SKey → Nat), ConflictFree S D rank →
  ∀ s? d? el, GoodPair S D s? d? el →
  ∀ F parent? tr out, DynInv S D F →
    (∀ x : SKey, Reach S D (keyOfPair s? d?) x →
      alookup (F.getData x.1) x.2 = alookup (D.getData x.1) x.2) →
    (∀ P : Model, parent? = some P →
      Edge S D (P.get_type, P.get_unique_id) (keyOfPair s? d?) ∧
      (alookup (F.getData P.get_type) P.get_unique_id = some P ∨
        alookup (F.getData P.get_type) P.get_unique_id = none)) →
    sync_from_diff_element g defaultHooks 0 F parent? tr el = .ok out →
    ElemPost S D s? d? F parent? out

def SAfterPred (g : Nat) : Prop :=
  ∀ S D (rank : SKey → Nat), ConflictFree S D rank →
  ∀ s? d? el, GoodPair S D s? d? el →
  ∀ F parent? tr obj out, DynInv S D F →
    (∀ x : SKey, Reach S D (keyOfPair s? d?) x → x ≠ keyOfPair s? d? →
      alookup (F.getData x.1) x.2 = alookup (D.getData x.1) x.2) →
    (∀ P : Model, parent? = some P →
      Edge S D (P.get_type, P.get_unique_id) (keyOfPair s? d?) ∧
      (alookup (F.getData P.get_type) P.get_unique_id = some P ∨
        alookup (F.getData P.get_type) P.get_unique_id = none)) →
    obj.cls = baseCls s? d? →
    obj.get_type = (keyOfPair s? d?).1 →
    obj.get_unique_id = (keyOfPair s? d?).2 →
    obj.model_flags = 0 →
    (∀ s, s? = some s → obj.get_attrs = s.get_attrs) →
    (∀ cf, obj.getChildList cf =
      match d? with
      | some d => d.getChildList cf
      | none => []) →
    ((s?.isSome ∧ d? = none ∧
        alookup (F.getData (keyOfPair s? d?).1) (keyOfPair s? d?).2 = none) ∨
      (d?.isSome ∧
        alookup (F.getData (keyOfPair s? d?).1) (keyOfPair s? d?).2 = some obj)) →
    afterCatch g defaultHooks 0 F parent? tr el.action el.children (some obj) = .ok out →
    ElemPost S D s? d? F parent? out

def SNamesPred (g : Nat) : Prop :=
  ∀ S D (rank : SKey → Nat), ConflictFree S D rank →
  ∀ ps (gitems : List (String × DiffElement)), GoodPairs S D ps (gitems.map Prod.snd) →
  ∀ F (P : Model) tr out, DynInv S D F →
    (∀ p ∈ ps, Edge S D (P.get_type, P.get_unique_id) (keyOfPair p.1 p.2)) →
    (∀ p ∈ ps, ∀ x : SKey, Reach S D (keyOfPair p.1 p.2) x →
      alookup (F.getData x.1) x.2 = alookup (D.getData x.1) x.2) →
    ((ps.map fun p => keyOfPair p.1 p.2).Nodup) →
    (alookup (F.getData P.get_type) P.get_unique_id = some P ∨
      alookup (F.getData P.get_type) P.get_unique_id = none) →
    syncNames g defaultHooks 0 F P tr gitems = .ok out →
    BatchPost S D ps (P.get_type, P.get_unique_id) F out.1 ∧
    ∃ P', out.2.1 = some P' ∧ PEdits ps P P' ∧
      (alookup (F.getData P.get_type) P.get_unique_id = some P →
        alookup (out.1.getData P.get_type) P.get_unique_id = some P') ∧
      (alookup (F.getData P.get_type) P.get_unique_id = none →
        alookup (out.1.getData P.get_type) P.get_unique_id = none)

def SGroupsPred (g : Nat) : Prop :=
  ∀ S D (rank : SKey → Nat), ConflictFree S D rank →
  ∀ pss groups, GroupsAligned S D pss groups →
  ∀ F (P : Model) tr parentOut out, DynInv S D F →
    (∀ p ∈ pss.flatten, Edge S D (P.get_type, P.get_unique_id) (keyOfPair p.1 p.2)) →
    (∀ p ∈ pss.flatten, ∀ x : SKey, Reach S D (keyOfPair p.1 p.2) x →
      alookup (F.getData x.1) x.2 = alookup (D.getData x.1) x.2) →
    ((pss.flatten.map fun p => keyOfPair p.1 p.2).Nodup) →
    (alookup (F.getData P.get_type) P.get_unique_id = some P ∨
      alookup (F.getData P.get_type) P.get_unique_id = none) →
    syncGroups g defaultHooks 0 F P tr parentOut groups = .ok out →
    BatchPost S D pss.flatten (P.get_type, P.get_unique_id) F out.1 ∧
    out.2.1 = parentOut ∧
    ∃ P', PEdits pss.flatten P P' ∧
      (alookup (F.getData P.get_type) P.get_unique_id = some P →
        alookup (out.1.getData P.get_type) P.get_unique_id = some P') ∧
      (alookup (F.getData P.get_type) P.get_unique_id = none →
        alookup (out.1.getData P.get_type) P.get_unique_id = none)


/-! ### A fully processed batch syncs its source record -/

theorem dict_resolved {st : Store} (hwk : WellKeyed st) {uids : List String}
    {t u : String} {m : Model}
    (h : alookup (toDict (st.get_by_uids uids t)) u = some m) :
    u ∈ uids ∧ alookup (st.getData t) u = some m ∧
    m.get_type = t ∧ m.get_unique_id = u := by
  obtain ⟨hmemL, huid⟩ := mem_of_alookup_toDict h
  obtain ⟨w, hwuids, hwl⟩ := get_by_uids_mem hmemL
  have hk := wellKeyed_getData hwk hwl
  have hwu : w = u := by rw [← hk.2, huid]
  subst hwu
  exact ⟨hwuids, hwl, hk.1, hk.2⟩

/-- After every child pair of a source-backed element has been applied — the
element's record evolved through exactly the batch's membership edits, each
source-backed child pair is synced, and keys newly present in the final store
are source-referenced — the element's source record is synced. -/
theorem synced_of_batch {S D : Store} {rank : SKey → Nat} (hcf : ConflictFree S D rank)
    {s? d? : Option Model} {el : DiffElement} (hg : GoodPair S D s? d? el)
    {s : Model} (hs : s? = some s)
    {psAll : List (Option Model × Option Model)}
    (hflat1 : ∀ p ∈ psAll, ∃ ct cf, (ct, cf) ∈ (baseCls s? d?).children ∧
      p ∈ combinedPairs (srcList S s? ct cf) (dstList D d? ct cf))
    (hflat2 : ∀ ct cf, (ct, cf) ∈ (baseCls s? d?).children →
      ∀ p ∈ combinedPairs (srcList S s? ct cf) (dstList D d? ct cf), p ∈ psAll)
    (hflat3 : (psAll.map fun p => keyOfPair p.1 p.2).Nodup)
    {F2 F' : Store} (hdyn2 : DynInv S D F2) (hdyn' : DynInv S D F')
    {obj : Model} (hobjcls : obj.cls = baseCls s? d?)
    (hobjch : ∀ cf, obj.getChildList cf =
      match d? with
      | some d => d.getChildList cf
      | none => [])
    (hobjF2 : alookup (F2.getData (keyOfPair s? d?).1) (keyOfPair s? d?).2 = some obj)
    (hagree2 : ∀ x : SKey, Reach S D (keyOfPair s? d?) x → x ≠ keyOfPair s? d? →
      alookup (F2.getData x.1) x.2 = alookup (D.getData x.1) x.2)
    {objF : Model} (hpe : PEdits psAll obj objF)
    (hlookF : alookup (F'.getData (keyOfPair s? d?).1) (keyOfPair s? d?).2 = some objF)
    (hattrsF : objF.get_attrs = s.get_attrs)
    (hnew : ∀ x : SKey, alookup (F2.getData x.1) x.2 = none →
      (alookup (F'.getData x.1) x.2).isSome →
      (alookup (S.getData x.1) x.2).isSome ∧
      ((∃ p ∈ psAll, x = keyOfPair p.1 p.2) ∨ ∃ pk, StoreEdge S pk x))
    (hsyncedK : ∀ p ∈ psAll, ∀ s', p.1 = some s' → Synced S F' s') :
    Synced S F' s := by
  subst hs
  have hgK := hg
  have hprov := goodPair_prov hcf hg
  obtain ⟨hclsD, hwfB, hmodn⟩ := pairProv_cls hcf hprov
  obtain ⟨hsome', hsS, hdD, hagreeP, htype, hkeys, hsattrs, hdattrs, hchk, hchsub, hch⟩ := hg
  have hsl : alookup (S.getData s.get_type) s.get_unique_id = some s := hsS s rfl
  have hclsF : objF.cls = s.cls := by
    have h1 : objF.cls = obj.cls := (pEdits_fields hpe).1
    rw [h1, hobjcls]
    rfl
  have hkND : ((baseCls (some s) d?).children.map Prod.fst).Nodup := hwfB.2.2.2.1
  have hkSND : ((baseCls (some s) d?).children.map Prod.snd).Nodup := hwfB.2.2.2.2
  have hwkF' : WellKeyed F' := hdyn'.2.2.2.1
  have hmaster : ∀ ct cf, (ct, cf) ∈ s.cls.children →
      (∀ u su, alookup (toDict (S.get_by_uids (s.getChildList cf) ct)) u = some su →
        (alookup (F'.getData ct) u).isSome ∧
        alookup (toDict (F'.get_by_uids (objF.getChildList cf) ct)) u =
          alookup (F'.getData ct) u ∧
        Synced S F' su) ∧
      (∀ u, alookup (toDict (S.get_by_uids (s.getChildList cf) ct)) u = none →
        alookup (toDict (F'.get_by_uids (objF.getChildList cf) ct)) u = none) := by
    intro ct cf hcc
    have hccb : (ct, cf) ∈ (baseCls (some s) d?).children := hcc
    have hcl : alookup obj.cls.children ct = some cf := by
      rw [hobjcls]
      exact alookup_of_mem_nodup hkND hccb
    have hinj : ∀ ct', alookup obj.cls.children ct' = some cf → ct' = ct := by
      intro ct' h'
      have hm' : (ct', cf) ∈ obj.cls.children := mem_of_alookup_eq_some h'
      rw [hobjcls] at hm'
      have h2 := List.inj_on_of_nodup_map hkSND hm' hccb rfl
      exact congrArg Prod.fst h2
    have hrecF2 := hdyn2.2.2.2.2.2.2 _ _ _ hobjF2
    have hndL : (obj.getChildList cf).Nodup := by
      refine (hrecF2.2.2 ct cf ?_).1
      rw [hobjcls]
      exact hccb
    obtain ⟨hndF, hmemiff⟩ := pEdits_childList hpe hflat3 hcl hinj hndL
    have hbatchmem : ∀ u : String,
        ((alookup (toDict (srcList S (some s) ct cf)) u).isSome ∨
          (alookup (toDict (dstList D d? ct cf)) u).isSome) →
        (alookup (toDict (srcList S (some s) ct cf)) u,
          alookup (toDict (dstList D d? ct cf)) u) ∈ psAll :=
      fun u hu => hflat2 ct cf hccb _ (combinedPairs_complete hu)
    have hkeyu : ∀ u : String,
        ((alookup (toDict (srcList S (some s) ct cf)) u).isSome ∨
          (alookup (toDict (dstList D d? ct cf)) u).isSome) →
        keyOfPair (alookup (toDict (srcList S (some s) ct cf)) u)
          (alookup (toDict (dstList D d? ct cf)) u) = (ct, u) :=
      fun u hu => keyOfPair_dicts hcf (fun m hm => srcList_tables hm)
        (fun m hm => dstList_tables hm) hu
    have hkeymem : ∀ q ∈ psAll, ∀ u : String, keyOfPair q.1 q.2 = (ct, u) →
        q = (alookup (toDict (srcList S (some s) ct cf)) u,
          alookup (toDict (dstList D d? ct cf)) u) ∧
        ((alookup (toDict (srcList S (some s) ct cf)) u).isSome ∨
          (alookup (toDict (dstList D d? ct cf)) u).isSome) := by
      intro q hq u hqk
      obtain ⟨ct2, cf2, hm2, hqb⟩ := hflat1 q hq
      obtain ⟨u2, hk2, hq21, hq22⟩ := batch_key hcf hqb
      have hk3 : (ct2, u2) = (ct, u) := by rw [← hk2, hqk]
      have hct2 : ct2 = ct := congrArg Prod.fst hk3
      have hu2 : u2 = u := congrArg Prod.snd hk3
      subst hct2
      subst hu2
      have hcf2 : cf2 = cf := mem_unique_of_nodup_keys hkND hm2 hccb
      subst hcf2
      have hqsome : q.1.isSome ∨ q.2.isSome := by
        obtain ⟨uu, hpeq, hsm⟩ := combinedPairs_mem hqb
        rw [hpeq]
        exact hsm
      refine ⟨Prod.ext hq21 hq22, ?_⟩
      rw [← hq21, ← hq22]
      exact hqsome
    have hmemofsrc : ∀ u su,
        alookup (toDict (S.get_by_uids (s.getChildList cf) ct)) u = some su →
        u ∈ objF.getChildList cf := by
      intro u su hu
      have hu' : alookup (toDict (srcList S (some s) ct cf)) u = some su := hu
      refine (hmemiff u).mpr ?_
      rcases option_some_or_none (alookup (toDict (dstList D d? ct cf)) u) with
        ⟨du, hdu⟩ | hdu
      · refine Or.inl ⟨?_, ?_⟩
        · rcases option_some_or_none d? with ⟨d, hdo⟩ | hdo
          · subst hdo
            rw [hobjch cf]
            exact (dict_resolved hcf.wfD.wellKeyed hdu).1
          · subst hdo
            simp [dstList, toDict, alookup] at hdu
        · intro hdel
          obtain ⟨q, hq, hq1, hq2, hq3⟩ := hdel
          obtain ⟨hqeq, _⟩ := hkeymem q hq u hq3
          rw [hqeq] at hq1
          simp only at hq1
          rw [hu'] at hq1
          cases hq1
      · refine Or.inr ⟨(alookup (toDict (srcList S (some s) ct cf)) u,
          alookup (toDict (dstList D d? ct cf)) u),
          hbatchmem u (Or.inl (by rw [hu']; rfl)), ?_, hdu, ?_⟩
        · rw [hu']
          rfl
        · exact hkeyu u (Or.inl (by rw [hu']; rfl))
    refine ⟨?_, ?_⟩
    · intro u su hu
      have hu' : alookup (toDict (srcList S (some s) ct cf)) u = some su := hu
      have hqmem := hbatchmem u (Or.inl (by rw [hu']; rfl))
      have hsyn : Synced S F' su := by
        refine hsyncedK _ hqmem su ?_
        rw [hu']
      obtain ⟨hu1, hu2, hut, huu⟩ := dict_resolved hcf.wfS.wellKeyed hu
      have hresolved : (alookup (F'.getData ct) u).isSome := by
        cases hsyn with
        | intro hsS2 hlook2 =>
          rw [hut, huu] at hlook2
          rw [hlook2]
          rfl
      refine ⟨hresolved, ?_, hsyn⟩
      exact @alookup_toDict_get_by_uids F' hwkF' (objF.getChildList cf) ct u
        (hmemofsrc u su hu)
    · intro u hu
      have hu' : alookup (toDict (srcList S (some s) ct cf)) u = none := hu
      rcases option_some_or_none
        (alookup (toDict (F'.get_by_uids (objF.getChildList cf) ct)) u) with
        ⟨m', hm'⟩ | hnone
      swap
      · exact hnone
      exfalso
      obtain ⟨humem, hwl, hmt, hmu⟩ := dict_resolved hwkF' hm'
      rcases (hmemiff u).mp humem with ⟨hmemO, hnotdel⟩ | hcreated
      · rcases option_some_or_none d? with ⟨d, hdo⟩ | hdo
        · subst hdo
          rw [hobjch cf] at hmemO
          obtain ⟨hT, hU, hC⟩ := hagreeP s d rfl rfl
          have hdentry : alookup (D.getData s.get_type) s.get_unique_id = some d := by
            have h0 := hdD d rfl
            rw [hT, hU] at h0
            exact h0
          have hDedge : Edge S D (s.get_type, s.get_unique_id) (ct, u) := by
            refine Or.inr ⟨d, cf, hdentry, ?_, hmemO⟩
            rw [hC]
            exact hcc
          rcases option_some_or_none (alookup (D.getData ct) u) with ⟨dw, hDu⟩ | hDu
          · have hdup : alookup (toDict (dstList D (some d) ct cf)) u = some dw := by
              have h1 := @alookup_toDict_get_by_uids D hcf.wfD.wellKeyed
                (d.getChildList cf) ct u hmemO
              rw [hDu] at h1
              exact h1
            refine hnotdel ⟨(alookup (toDict (srcList S (some s) ct cf)) u,
              alookup (toDict (dstList D (some d) ct cf)) u),
              hbatchmem u (Or.inr (by rw [hdup]; rfl)), hu', by rw [hdup]; rfl, ?_⟩
            exact hkeyu u (Or.inr (by rw [hdup]; rfl))
          · have hne : (ct, u) ≠ keyOfPair (some s) (some d) := by
              intro he
              exact absurd he (edge_target_ne hcf hDedge)
            have hF2 : alookup (F2.getData ct) u = none := by
              have h1 := hagree2 (ct, u) (Reach.single hDedge) hne
              have h2 : alookup (F2.getData ct) u = alookup (D.getData ct) u := h1
              rw [h2]
              exact hDu
            have hsomeF' : (alookup (F'.getData ct) u).isSome := by
              rw [hwl]
              rfl
            obtain ⟨hSsome0, hcases⟩ := hnew (ct, u) hF2 hsomeF'
            have hSsome : (alookup (S.getData ct) u).isSome := hSsome0
            rcases hcases with ⟨q, hq, hq3⟩ | ⟨pk, hpk⟩
            · obtain ⟨hqeq, hqs⟩ := hkeymem q hq u hq3.symm
              subst hqeq
              rcases hqs with hqs | hqs
              · rw [hu'] at hqs
                simp at hqs
              · obtain ⟨dp, hdp⟩ := Option.isSome_iff_exists.mp hqs
                obtain ⟨_, hdl2, _, _⟩ := dict_resolved hcf.wfD.wellKeyed hdp
                rw [hDu] at hdl2
                cases hdl2
            · have hpkK : pk = (s.get_type, s.get_unique_id) :=
                hcf.uniqueParent pk _ _ (Or.inl hpk) hDedge
              subst hpkK
              obtain ⟨m, cf', hml, hmc, hmw⟩ := hpk
              have hml' : alookup (S.getData s.get_type) s.get_unique_id = some m := hml
              rw [hsl] at hml'
              have hms : s = m := (Option.some.injEq _ _).mp hml'
              subst hms
              have hcf' : cf' = cf := by
                refine mem_unique_of_nodup_keys hkND ?_ hccb
                exact hmc
              rw [hcf'] at hmw
              have h1 := @alookup_toDict_get_by_uids S hcf.wfS.wellKeyed
                (s.getChildList cf) ct u hmw
              have hSn : alookup (S.getData ct) u = none := by
                rw [← h1]
                exact hu'
              rw [hSn] at hSsome
              simp at hSsome
        · subst hdo
          rw [hobjch cf] at hmemO
          simp at hmemO
      · obtain ⟨q, hq, hq1, hq2, hq3⟩ := hcreated
        obtain ⟨hqeq, _⟩ := hkeymem q hq u hq3
        rw [hqeq] at hq1
        simp only at hq1
        rw [hu'] at hq1
        simp at hq1
  refine Synced.intro hsl hlookF hclsF hattrsF ?_ ?_
  · intro ct cf hcc p hp
    obtain ⟨u, hpe', hsome'⟩ := combinedPairs_mem hp
    rcases option_some_or_none
      (alookup (toDict (S.get_by_uids (s.getChildList cf) ct)) u) with ⟨su, hsu⟩ | hsu
    · obtain ⟨hres, hdict, hsyn⟩ := (hmaster ct cf hcc).1 u su hsu
      constructor
      · rw [hpe']
        simp only
        rw [hsu]
        rfl
      · rw [hpe']
        simp only
        rw [hdict]
        exact hres
    · have hd := (hmaster ct cf hcc).2 u hsu
      rw [hsu, hd] at hsome'
      simp at hsome'
  · intro ct cf hcc s' hex
    obtain ⟨p, hp, hps⟩ := hex
    obtain ⟨u, hpe', hsome'⟩ := combinedPairs_mem hp
    have hsu : alookup (toDict (S.get_by_uids (s.getChildList cf) ct)) u = some s' := by
      rw [hpe'] at hps
      exact hps
    exact ((hmaster ct cf hcc).1 u s' hsu).2.2


/-! ### The element step of the sync induction -/

theorem pair_ne_of_ne {x y : SKey} (h : x ≠ y) : (x.1, x.2) ≠ (y.1, y.2) :=
  fun he => h (Prod.ext (congrArg Prod.fst he) (congrArg Prod.snd he))

theorem selem_step (g : Nat) (ihA : SAfterPred g) : SElemPred (g + 1) := by
  intro S D rank hcf s? d? el hg F parent? tr out hdyn hagree hpar hrun
  have hgK := hg
  have hprov := goodPair_prov hcf hg
  obtain ⟨hclsD0, hwfB, hmodn⟩ := pairProv_cls hcf hprov
  obtain ⟨hsome', hsS, hdD, hagreeP, htype, hkeys, hsattrs, hdattrs, hchk, hchsub, hch⟩ := hg
  obtain ⟨t, n, k, sa, da, ch⟩ := el
  have ht : t = (baseRec s? d?).get_type := by simpa using htype
  have hk2 : k = (baseRec s? d?).get_identifiers := by simpa using hkeys
  have hclsD : alookup D.classes t = some (baseCls s? d?) := by
    rw [ht]
    exact hclsD0
  have hclsF : alookup F.classes t = some (baseCls s? d?) := by
    rw [hdyn.1]
    exact hclsD
  have huid : (baseCls s? d?).create_unique_id k = (keyOfPair s? d?).2 := by
    rw [hk2]
    rfl
  have hgbc : F.getByClass (baseCls s? d?) k =
      alookup (D.getData (keyOfPair s? d?).1) (keyOfPair s? d?).2 := by
    show alookup (F.getData (baseCls s? d?).modelname)
      ((baseCls s? d?).create_unique_id k) = _
    rw [hmodn, huid]
    exact hagree _ (Reach.refl _)
  rcases option_some_or_none s? with ⟨sv, hso⟩ | hso
  · subst hso
    have hsa2 : (DiffElement.mk t n k sa da ch).source_attrs = some sv.get_attrs := by
      simpa using hsattrs
    rcases option_some_or_none d? with ⟨dv, hdo⟩ | hdo
    · subst hdo
      obtain ⟨hagT, hagU, hagC⟩ := hagreeP sv dv rfl rfl
      have hda2 : (DiffElement.mk t n k sa da ch).dest_attrs = some dv.get_attrs := by
        simpa using hdattrs
      have hDk : alookup (D.getData (keyOfPair (some sv) (some dv)).1)
          (keyOfPair (some sv) (some dv)).2 = some dv := by
        show alookup (D.getData sv.get_type) sv.get_unique_id = some dv
        rw [← hagT, ← hagU]
        exact hdD dv rfl
      have hFk : alookup (F.getData (keyOfPair (some sv) (some dv)).1)
          (keyOfPair (some sv) (some dv)).2 = some dv := by
        rw [hagree _ (Reach.refl _)]
        exact hDk
      have hobjF : F.getByClass (baseCls (some sv) (some dv)) k = some dv := by
        rw [hgbc, hDk]
      have hdflags : dv.model_flags = 0 := (hprov.2.2.1 dv rfl).2
      have hact0 := action_both hsa2 hda2
      by_cases hB : ((DiffElement.mk t n k sa da ch).get_attrs_keys.any fun kk =>
          (alookup sv.get_attrs kk).getD "" != (alookup dv.get_attrs kk).getD "") = true
      · have hact : (DiffElement.mk t n k sa da ch).action = some "update" := by
          rw [hact0, if_pos hB]
        rw [sync_step_update hclsF hact hobjF] at hrun
        rw [hmodn, huid] at hrun
        rw [← hact] at hrun
        have hspec := updated_model_spec hsa2 hda2 hagC hwfB rfl
        have hFkS : (alookup (F.getData (keyOfPair (some sv) (some dv)).1)
            (keyOfPair (some sv) (some dv)).2).isSome := by
          rw [hFk]
          rfl
        have hrecd := hdyn.2.2.2.2.2.2 _ _ _ hFk
        have hdyn1 : DynInv S D (writeBackIfPresent F
            (keyOfPair (some sv) (some dv)).1 (keyOfPair (some sv) (some dv)).2
            { dv with fields := List.foldl (fun f kv => aset f kv.1 kv.2) dv.fields ((DiffElement.mk t n k sa da ch).get_attrs_diffs) }) := by
          rw [writeBack_present_eq _ hFkS]
          refine dynInv_set_entry hdyn ?_ ?_ ?_ ?_ ?_
          · rw [hspec.2.2.2.2.2.1, hagT]
            rfl
          · rw [hspec.2.2.2.2.1, hagU]
            rfl
          · rw [hspec.1, hagC]
            exact hclsD0
          · rw [hspec.2.1]
            exact hdflags
          · intro ct0 cf0 hm0
            rw [hspec.1] at hm0
            obtain ⟨hnd0, hed0⟩ := hrecd.2.2 ct0 cf0 hm0
            rw [hspec.2.2.1 cf0]
            exact ⟨hnd0, hed0⟩
        have hpost := ihA S D rank hcf (some sv) (some dv)
          (DiffElement.mk t n k sa da ch) hgK _ parent? _ _ out hdyn1
          (by
            intro x hx hne
            rw [writeBack_lookup_other (pair_ne_of_ne hne)]
            exact hagree x hx)
          (by
            intro P hP
            obtain ⟨hePK, hdisj⟩ := hpar P hP
            have hnePK : ((P.get_type, P.get_unique_id) : SKey) ≠
                keyOfPair (some sv) (some dv) := Ne.symm (edge_target_ne hcf hePK)
            refine ⟨hePK, ?_⟩
            rw [writeBack_lookup_other (pair_ne_of_ne hnePK)]
            exact hdisj)
          (by rw [hspec.1, hagC]; rfl)
          (by rw [hspec.2.2.2.2.2.1, hagT]; rfl)
          (by rw [hspec.2.2.2.2.1, hagU]; rfl)
          (by rw [hspec.2.1]; exact hdflags)
          (by
            intro s0 h0
            cases h0
            exact hspec.2.2.2.2.2.2)
          (fun cf0 => hspec.2.2.1 cf0)
          (Or.inr ⟨rfl, writeBack_lookup_self hFkS⟩)
          hrun
        obtain ⟨hp1, hp2, hp3, hp4, hp5, hp6, hp7⟩ := hpost
        refine ⟨hp1, ?_, ?_, ?_, hp5, hp6, hp7⟩
        · intro x hx hcar
          have hxK : x ≠ keyOfPair (some sv) (some dv) := by
            intro he
            exact hx (by rw [he]; exact Reach.refl _)
          rw [hp2 x hx hcar]
          exact writeBack_lookup_other (pair_ne_of_ne hxK)
        · intro x hFx hOx
          have hxK : x ≠ keyOfPair (some sv) (some dv) := by
            intro he
            rw [he] at hFx
            rw [hFk] at hFx
            cases hFx
          refine hp3 x ?_ hOx
          rw [writeBack_lookup_other (pair_ne_of_ne hxK)]
          exact hFx
        · intro P hP
          obtain ⟨P', ho1, ho2, ho3, ho4⟩ := hp4 P hP
          obtain ⟨hePK, _⟩ := hpar P hP
          have hnePK : ((P.get_type, P.get_unique_id) : SKey) ≠
              keyOfPair (some sv) (some dv) := Ne.symm (edge_target_ne hcf hePK)
          refine ⟨P', ho1, ho2, ?_, ?_⟩
          · intro hpre
            refine ho3 ?_
            rw [writeBack_lookup_other (pair_ne_of_ne hnePK)]
            exact hpre
          · intro hpre
            refine ho4 ?_
            rw [writeBack_lookup_other (pair_ne_of_ne hnePK)]
            exact hpre
      · have hact : (DiffElement.mk t n k sa da ch).action = none := by
          rw [hact0, if_neg hB]
        rw [sync_step_none hclsF hact] at hrun
        rw [hgbc, hDk] at hrun
        rw [← hact] at hrun
        refine ihA S D rank hcf (some sv) (some dv)
          (DiffElement.mk t n k sa da ch) hgK F parent? _ dv out hdyn
          (fun x hx _ => hagree x hx) hpar ?_ ?_ ?_ hdflags ?_ (fun cf0 => rfl)
          (Or.inr ⟨rfl, hFk⟩) hrun
        · rw [hagC]
          rfl
        · rw [hagT]
          rfl
        · rw [hagU]
          rfl
        · intro s0 h0
          cases h0
          refine action_none_attrs hsa2 hda2 hagC ?_
          rw [hact]
          exact fun h => Option.noConfusion h
    · subst hdo
      have hda2 : (DiffElement.mk t n k sa da ch).dest_attrs = none := by
        simpa using hdattrs
      have hact : (DiffElement.mk t n k sa da ch).action = some "create" :=
        action_create hsa2 hda2
      rcases option_some_or_none (alookup (D.getData (keyOfPair (some sv) none).1)
          (keyOfPair (some sv) none).2) with ⟨o, hDk⟩ | hDk
      · have hobjF : F.getByClass (baseCls (some sv) none) k = some o := by
          rw [hgbc, hDk]
        rw [sync_step_conflict hclsF hact hobjF (hasFlag_zero _)] at hrun
        cases hrun
      · have hobjF : F.getByClass (baseCls (some sv) none) k = none := by
          rw [hgbc, hDk]
        rw [sync_step_create hclsF hact hobjF] at hrun
        rw [← hact] at hrun
        have hdiffs : (DiffElement.mk t n k sa da ch).get_attrs_diffs = sv.get_attrs :=
          get_attrs_diffs_create hsa2 hda2
        have hkid : k = sv.get_identifiers := hk2
        have hm : ({ cls := baseCls (some sv) none, fields := List.foldl (fun f kv => aset f kv.1 kv.2) k ((DiffElement.mk t n k sa da ch).get_attrs_diffs), childFields := (baseCls (some sv) none).children.map fun cfx => (cfx.2, []), model_flags := 0, dsync := some F.sid } : Model) =
            { cls := sv.cls, fields := List.foldl (fun f kv => aset f kv.1 kv.2) sv.get_identifiers sv.get_attrs, childFields := sv.cls.children.map fun cfx => (cfx.2, []), model_flags := 0, dsync := some F.sid } := by
          rw [hdiffs, hkid]
          rfl
        have hspec := created_model_spec hwfB hm
        have hFkn : alookup (F.getData (keyOfPair (some sv) none).1)
            (keyOfPair (some sv) none).2 = none := by
          rw [hagree _ (Reach.refl _)]
          exact hDk
        refine ihA S D rank hcf (some sv) none
          (DiffElement.mk t n k sa da ch) hgK F parent? _ _ out hdyn
          (fun x hx _ => hagree x hx) hpar ?_ ?_ ?_ ?_ ?_ ?_
          (Or.inl ⟨rfl, rfl, hFkn⟩) hrun
        · rw [hspec.1]
          rfl
        · rw [hspec.2.2.2.2.2.1]
          rfl
        · rw [hspec.2.2.2.2.1]
          rfl
        · exact hspec.2.1
        · intro s0 h0
          cases h0
          exact hspec.2.2.2.2.2.2
        · exact fun cf0 => hspec.2.2.1 cf0
  · subst hso
    rcases option_some_or_none d? with ⟨dv, hdo⟩ | hdo
    · subst hdo
      have hsa2 : (DiffElement.mk t n k sa da ch).source_attrs = none := by
        simpa using hsattrs
      have hda2 : (DiffElement.mk t n k sa da ch).dest_attrs = some dv.get_attrs := by
        simpa using hdattrs
      have hact : (DiffElement.mk t n k sa da ch).action = some "delete" :=
        action_delete hsa2 hda2
      have hDk : alookup (D.getData (keyOfPair none (some dv)).1)
          (keyOfPair none (some dv)).2 = some dv := hdD dv rfl
      have hobjF : F.getByClass (baseCls none (some dv)) k = some dv := by
        rw [hgbc, hDk]
      rw [sync_step_delete hclsF hact hobjF] at hrun
      rw [← hact] at hrun
      refine ihA S D rank hcf none (some dv)
        (DiffElement.mk t n k sa da ch) hgK F parent? _ dv out hdyn
        (fun x hx _ => hagree x hx) hpar rfl rfl rfl
        ((hprov.2.2.1 dv rfl).2) ?_ (fun cf0 => rfl)
        (Or.inr ⟨rfl, by rw [hagree _ (Reach.refl _)]; exact hDk⟩) hrun
      intro s0 h0
      cases h0
    · subst hdo
      rcases hsome' with h | h <;> simp at h


/-! ### The after-try step of the sync induction -/

/-- Writing the edited parent model back into its (possibly absent) store
entry preserves the dynamic invariant and the rest of the store. -/
theorem writeback_parent_facts {S D : Store} {rank : SKey → Nat}
    (hcf : ConflictFree S D rank) {F : Store} (hdyn : DynInv S D F) {P p' : Model}
    {K : SKey} (hePK : Edge S D (P.get_type, P.get_unique_id) K)
    (hdisj : alookup (F.getData P.get_type) P.get_unique_id = some P ∨
      alookup (F.getData P.get_type) P.get_unique_id = none)
    (hp'ty : p'.get_type = P.get_type) (hp'uid : p'.get_unique_id = P.get_unique_id)
    (hp'cls : p'.cls = P.cls) (hp'fl : p'.model_flags = P.model_flags)
    (hedit : alookup D.classes P.get_type = some P.cls →
      ∀ ct0 cf0, (ct0, cf0) ∈ P.cls.children →
        ((P.getChildList cf0).Nodup → (p'.getChildList cf0).Nodup) ∧
        ∀ w ∈ p'.getChildList cf0, w ∈ P.getChildList cf0 ∨ ((ct0, w) : SKey) = K) :
    DynInv S D (writeBackIfPresent F p'.get_type p'.get_unique_id p') ∧
    (∀ x : SKey, x ≠ (P.get_type, P.get_unique_id) →
      alookup ((writeBackIfPresent F p'.get_type p'.get_unique_id p').getData x.1) x.2 =
      alookup (F.getData x.1) x.2) ∧
    (alookup (F.getData P.get_type) P.get_unique_id = some P →
      alookup ((writeBackIfPresent F p'.get_type p'.get_unique_id p').getData P.get_type)
        P.get_unique_id = some p') ∧
    (alookup (F.getData P.get_type) P.get_unique_id = none →
      alookup ((writeBackIfPresent F p'.get_type p'.get_unique_id p').getData P.get_type)
        P.get_unique_id = none) := by
  rcases hdisj with hFP | hFP
  · have hiss : (alookup (F.getData P.get_type) P.get_unique_id).isSome := by
      rw [hFP]
      rfl
    obtain ⟨hclP, hflP, hchP⟩ := hdyn.2.2.2.2.2.2 _ _ _ hFP
    refine ⟨?_, ?_, ?_, ?_⟩
    · rw [hp'ty, hp'uid, writeBack_present_eq _ hiss]
      refine dynInv_set_entry hdyn hp'ty hp'uid ?_ ?_ ?_
      · rw [hp'cls]
        exact hclP
      · rw [hp'fl]
        exact hflP
      · intro ct0 cf0 hm0
        rw [hp'cls] at hm0
        refine ⟨(hedit hclP ct0 cf0 hm0).1 (hchP ct0 cf0 hm0).1, ?_⟩
        intro w hw
        rcases (hedit hclP ct0 cf0 hm0).2 w hw with hw' | hw'
        · exact (hchP ct0 cf0 hm0).2 w hw'
        · rw [hw']
          exact hePK
    · intro x hx
      refine writeBack_lookup_other ?_
      rw [hp'ty, hp'uid]
      exact pair_ne_of_ne hx
    · intro _
      rw [hp'ty, hp'uid]
      exact writeBack_lookup_self hiss
    · intro h
      rw [hFP] at h
      exact Option.noConfusion h
  · have hwb : writeBackIfPresent F p'.get_type p'.get_unique_id p' = F := by
      refine writeBack_absent ?_
      rw [hp'ty, hp'uid]
      exact hFP
    rw [hwb]
    refine ⟨hdyn, fun x _ => rfl, ?_, fun _ => hFP⟩
    intro h
    rw [hFP] at h
    exact Option.noConfusion h

/-- Running the children of a processed element through `syncGroups`
establishes the batch contract for the element's flattened child pairs. -/
theorem safter_core {g : Nat} (ihG : SGroupsPred g) {S D : Store} {rank : SKey → Nat}
    (hcf : ConflictFree S D rank)
    {s? d? : Option Model} {el : DiffElement} (hg : GoodPair S D s? d? el)
    {F2 : Store} (hdyn2 : DynInv S D F2) {obj : Model}
    (hobjty : obj.get_type = (keyOfPair s? d?).1)
    (hobjuid : obj.get_unique_id = (keyOfPair s? d?).2)
    (hPent2 : alookup (F2.getData (keyOfPair s? d?).1) (keyOfPair s? d?).2 = some obj ∨
      alookup (F2.getData (keyOfPair s? d?).1) (keyOfPair s? d?).2 = none)
    (hagree2 : ∀ x : SKey, Reach S D (keyOfPair s? d?) x → x ≠ keyOfPair s? d? →
      alookup (F2.getData x.1) x.2 = alookup (D.getData x.1) x.2)
    {tr1 : List Ev} {parentOut : Option Model} {out : Store × Option Model × List Ev}
    (hrun : syncGroups g defaultHooks 0 F2 obj tr1 parentOut el.children = .ok out) :
    ∃ psAll : List (Option Model × Option Model),
      (∀ p ∈ psAll, ∃ ct cf, (ct, cf) ∈ (baseCls s? d?).children ∧
        p ∈ combinedPairs (srcList S s? ct cf) (dstList D d? ct cf)) ∧
      (∀ ct cf, (ct, cf) ∈ (baseCls s? d?).children →
        ∀ p ∈ combinedPairs (srcList S s? ct cf) (dstList D d? ct cf), p ∈ psAll) ∧
      ((psAll.map fun p => keyOfPair p.1 p.2).Nodup) ∧
      DynInv S D out.1 ∧
      out.2.1 = parentOut ∧
      (∀ x : SKey, ¬ Reach S D (keyOfPair s? d?) x →
        alookup (out.1.getData x.1) x.2 = alookup (F2.getData x.1) x.2) ∧
      (∀ x : SKey, alookup (F2.getData x.1) x.2 = none →
        (alookup (out.1.getData x.1) x.2).isSome →
        (alookup (S.getData x.1) x.2).isSome ∧
        ((∃ p ∈ psAll, x = keyOfPair p.1 p.2) ∨ ∃ pk, StoreEdge S pk x)) ∧
      (∀ x : SKey, alookup (F2.getData x.1) x.2 = none →
        (alookup (out.1.getData x.1) x.2).isSome →
        (alookup (S.getData x.1) x.2).isSome ∧
        (x = keyOfPair s? d? ∨ ∃ pk, StoreEdge S pk x)) ∧
      (∀ p ∈ psAll, ∀ s, p.1 = some s → Synced S out.1 s) ∧
      ∃ P', PEdits psAll obj P' ∧
        (alookup (F2.getData (keyOfPair s? d?).1) (keyOfPair s? d?).2 = some obj →
          alookup (out.1.getData (keyOfPair s? d?).1) (keyOfPair s? d?).2 = some P') ∧
        (alookup (F2.getData (keyOfPair s? d?).1) (keyOfPair s? d?).2 = none →
          alookup (out.1.getData (keyOfPair s? d?).1) (keyOfPair s? d?).2 = none) := by
  obtain ⟨pss, halign, hflat1, hflat2, hflat3⟩ := goodPair_batches hcf hg
  have hedges : ∀ p ∈ pss.flatten, Edge S D (obj.get_type, obj.get_unique_id)
      (keyOfPair p.1 p.2) := by
    intro p hp
    obtain ⟨ct, cf, hm, hpb⟩ := hflat1 p hp
    have he := batch_edge hcf hg hm hpb
    rw [hobjty, hobjuid]
    exact he
  have hagreeG : ∀ p ∈ pss.flatten, ∀ x : SKey, Reach S D (keyOfPair p.1 p.2) x →
      alookup (F2.getData x.1) x.2 = alookup (D.getData x.1) x.2 := by
    intro p hp x hx
    obtain ⟨ct, cf, hm, hpb⟩ := hflat1 p hp
    have he := batch_edge hcf hg hm hpb
    exact hagree2 x (Reach.trans (Reach.single he) hx) (reach_ne_parent hcf he hx)
  have hres := ihG S D rank hcf pss el.children halign F2 obj tr1 parentOut out hdyn2
    hedges hagreeG hflat3 (by rw [hobjty, hobjuid]; exact hPent2) hrun
  obtain ⟨⟨hdyn', hframe', hnew', hsynced'⟩, hpout, P', hpe', hePr, heNo⟩ := hres
  have hframeK : ∀ x : SKey, ¬ Reach S D (keyOfPair s? d?) x →
      alookup (out.1.getData x.1) x.2 = alookup (F2.getData x.1) x.2 := by
    intro x hx
    refine hframe' x ?_ ?_
    · intro p hp hreach
      obtain ⟨ct, cf, hm, hpb⟩ := hflat1 p hp
      exact hx (Reach.trans (Reach.single (batch_edge hcf hg hm hpb)) hreach)
    · intro he
      refine hx ?_
      rw [he, hobjty, hobjuid]
      exact Reach.refl _
  refine ⟨pss.flatten, hflat1, hflat2, hflat3, hdyn', hpout, hframeK, hnew', ?_, hsynced',
    P', hpe', ?_, ?_⟩
  · intro x hF2x hOx
    obtain ⟨hS, hcase⟩ := hnew' x hF2x hOx
    refine ⟨hS, ?_⟩
    rcases hcase with ⟨p, hp, hkp⟩ | he
    · obtain ⟨ct, cf, hm, hpb⟩ := hflat1 p hp
      have he := batch_edge hcf hg hm hpb
      have hxK : x ≠ keyOfPair s? d? := by
        rw [hkp]
        exact edge_target_ne hcf he
      have hreachx : Reach S D (keyOfPair s? d?) x := by
        rw [hkp]
        exact Reach.single he
      have hDx : alookup (D.getData x.1) x.2 = none := by
        rw [← hagree2 x hreachx hxK]
        exact hF2x
      have hsrc := batch_key_src_edge hcf hg hm hpb (by rw [← hkp]; exact hDx)
      refine Or.inr ⟨keyOfPair s? d?, ?_⟩
      rw [hkp]
      exact hsrc.1
    · exact Or.inr he
  · intro hpre
    have h1 := hePr (by rw [hobjty, hobjuid]; exact hpre)
    rw [hobjty, hobjuid] at h1
    exact h1
  · intro hpre
    have h1 := heNo (by rw [hobjty, hobjuid]; exact hpre)
    rw [hobjty, hobjuid] at h1
    exact h1

/-- Assembling the element contract from the batch contract and the
pre-batch store transition. -/
theorem elempost_assemble {S D : Store} {rank : SKey → Nat} (hcf : ConflictFree S D rank)
    {s? d? : Option Model} {F F2 : Store} {parent? parentOut : Option Model}
    {out : Store × Option Model × List Ev}
    (hdyn' : DynInv S D out.1)
    (hpout : out.2.1 = parentOut)
    (hcframe : ∀ x : SKey, ¬ Reach S D (keyOfPair s? d?) x →
      alookup (out.1.getData x.1) x.2 = alookup (F2.getData x.1) x.2)
    (hcnew : ∀ x : SKey, alookup (F2.getData x.1) x.2 = none →
      (alookup (out.1.getData x.1) x.2).isSome →
      (alookup (S.getData x.1) x.2).isSome ∧
      (x = keyOfPair s? d? ∨ ∃ pk, StoreEdge S pk x))
    (hedges : ∀ P : Model, parent? = some P →
      Edge S D (P.get_type, P.get_unique_id) (keyOfPair s? d?))
    (htrans : ∀ x : SKey, x ≠ keyOfPair s? d? →
      (∀ P : Model, parent? = some P → x ≠ (P.get_type, P.get_unique_id)) →
      alookup (F2.getData x.1) x.2 = alookup (F.getData x.1) x.2)
    (hKS : ∀ x : SKey, alookup (F.getData x.1) x.2 = none →
      (alookup (F2.getData x.1) x.2).isSome →
      x = keyOfPair s? d? ∧ (alookup (S.getData x.1) x.2).isSome)
    (hparpost : ∀ P : Model, parent? = some P → ∃ P', parentOut = some P' ∧
      PEdit (s?, d?) P P' ∧
      (alookup (F.getData P.get_type) P.get_unique_id = some P →
        alookup (F2.getData P.get_type) P.get_unique_id = some P') ∧
      (alookup (F.getData P.get_type) P.get_unique_id = none →
        alookup (F2.getData P.get_type) P.get_unique_id = none))
    (hpnone : parent? = none → parentOut = none)
    (hsyn : ∀ s, s? = some s → Synced S out.1 s)
    (habs : s? = none →
      alookup (out.1.getData (keyOfPair s? d?).1) (keyOfPair s? d?).2 = none) :
    ElemPost S D s? d? F parent? out := by
  refine ⟨hdyn', ?_, ?_, ?_, ?_, hsyn, habs⟩
  · intro x hx hcar
    have hxK : x ≠ keyOfPair s? d? := fun he => hx (by rw [he]; exact Reach.refl _)
    rw [hcframe x hx]
    exact htrans x hxK hcar
  · intro x hFx hOx
    rcases option_some_or_none (alookup (F2.getData x.1) x.2) with ⟨v, hF2x⟩ | hF2x
    · obtain ⟨hxK, hS⟩ := hKS x hFx (by rw [hF2x]; rfl)
      exact ⟨hS, Or.inl hxK⟩
    · exact hcnew x hF2x hOx
  · intro P hP
    obtain ⟨P', hpo, hPE, h1, h2⟩ := hparpost P hP
    have hePK := hedges P hP
    have hPKout : alookup (out.1.getData P.get_type) P.get_unique_id =
        alookup (F2.getData P.get_type) P.get_unique_id := by
      refine hcframe (P.get_type, P.get_unique_id) ?_
      intro hr
      exact absurd rfl (reach_ne_parent hcf hePK hr)
    refine ⟨P', by rw [hpout]; exact hpo, hPE, ?_, ?_⟩
    · intro hpre
      rw [hPKout]
      exact h1 hpre
    · intro hpre
      rw [hPKout]
      exact h2 hpre
  · intro hP
    rw [hpout]
    exact hpnone hP


/-- Adding a record with empty child lists preserves the dynamic invariant. -/
theorem add_dyninv {S D F : Store} (hdyn : DynInv S D F) {obj : Model}
    {st1 : Store} {obj1 : Model} (hadd : F.add obj = .ok (st1, obj1))
    (hcl : alookup D.classes obj.get_type = some obj.cls)
    (hfl : obj.model_flags = 0)
    (hch : ∀ cf, obj.getChildList cf = []) :
    DynInv S D st1 := by
  obtain ⟨y, hobj1⟩ := add_obj_dsync hadd
  rw [(add_ok_spec hadd).2.2]
  refine dynInv_set_entry hdyn ?_ ?_ ?_ ?_ ?_
  · rw [hobj1]
    exact (dsyncSet_fields obj y).2.1
  · rw [hobj1]
    exact (dsyncSet_fields obj y).2.2.1
  · rw [hobj1, (dsyncSet_fields obj y).1]
    exact hcl
  · rw [hobj1, (dsyncSet_fields obj y).2.2.2.2.2.1]
    exact hfl
  · intro ct0 cf0 hm0
    constructor
    · rw [hobj1, (dsyncSet_fields obj y).2.2.2.2.2.2 cf0, hch cf0]
      exact List.nodup_nil
    · intro w hw
      rw [hobj1, (dsyncSet_fields obj y).2.2.2.2.2.2 cf0, hch cf0] at hw
      simp at hw

theorem safter_step (g : Nat) (ihG : SGroupsPred g) : SAfterPred (g + 1) := by
  intro S D rank hcf s? d? el hg F parent? tr obj out hdyn hagreeB hpar hobjcls hobjty
    hobjuid hobjfl hobjattrs hobjch hentry hrun
  have hgK := hg
  have hprov := goodPair_prov hcf hg
  obtain ⟨hclsD0, hwfB, hmodn⟩ := pairProv_cls hcf hprov
  obtain ⟨hsome', hsS, hdD, hagreeP, htype, hkeys, hsattrs, hdattrs, hchk, hchsub, hch⟩ := hgK
  have hedgesP : ∀ P : Model, parent? = some P →
      Edge S D (P.get_type, P.get_unique_id) (keyOfPair s? d?) :=
    fun P hP => (hpar P hP).1
  rcases option_some_or_none s? with ⟨sv, hso⟩ | hso
  · subst hso
    have hsa2 : el.source_attrs = some sv.get_attrs := by simpa using hsattrs
    rcases option_some_or_none d? with ⟨dv, hdo⟩ | hdo
    · -- both sides present: the element is an update or a no-op
      subst hdo
      have hda2 : el.dest_attrs = some dv.get_attrs := by simpa using hdattrs
      have hact0 := action_both hsa2 hda2
      have hne1 : el.action ≠ some "create" := by
        rw [hact0]
        split <;> simp
      have hne2 : el.action ≠ some "delete" := by
        rw [hact0]
        split <;> simp
      rcases hentry with ⟨_, habs0, _⟩ | ⟨_, hFk⟩
      · cases habs0
      · rw [after_step_else hne1 hne2] at hrun
        obtain ⟨psAll, hflat1, hflat2, hflat3, hdyn', hpout, hcframe, hnewRaw, hcnew,
          hsynced', P', hpe', hePr, heNo⟩ :=
          safter_core ihG hcf hg hdyn hobjty hobjuid (Or.inl hFk)
            (fun x hx hne => hagreeB x hx hne) hrun
        refine elempost_assemble hcf hdyn' hpout hcframe hcnew hedgesP
          (fun x _ _ => rfl)
          (fun x hFx hF2x => by rw [hFx] at hF2x; simp at hF2x) ?_ (fun h => h) ?_
          (fun h => Option.noConfusion h)
        · intro P hP
          refine ⟨P, hP, ⟨Or.inl rfl, fun _ _ => rfl, ?_, ?_⟩, fun h => h, fun h => h⟩
          · intro _ h2
            exact absurd h2 (by simp)
          · intro h1
            exact absurd h1 (by simp)
        · intro s0 h0
          cases h0
          have hattrs' : P'.get_attrs = sv.get_attrs := by
            rw [(pEdits_fields hpe').2.2.2.2.2.1]
            exact hobjattrs sv rfl
          exact synced_of_batch hcf hg rfl hflat1 hflat2 hflat3 hdyn hdyn' hobjcls hobjch
            hFk (fun x hx hne => hagreeB x hx hne) hpe' (hePr hFk) hattrs' hnewRaw hsynced'
    · -- source only: the element is a create
      subst hdo
      have hda2 : el.dest_attrs = none := by simpa using hdattrs
      have hact : el.action = some "create" := action_create hsa2 hda2
      rcases hentry with ⟨_, _, hFkn⟩ | ⟨hds, _⟩
      swap
      · simp at hds
      rw [hact] at hrun
      have hclaux : alookup D.classes obj.get_type = some obj.cls := by
        rw [hobjty, hobjcls]
        exact hclsD0
      have hchaux : ∀ cf, obj.getChildList cf = [] := fun cf => hobjch cf
      have hSsomeK : (alookup (S.getData (keyOfPair (some sv) none).1)
          (keyOfPair (some sv) none).2).isSome := by
        have h0 : alookup (S.getData sv.get_type) sv.get_unique_id = some sv := hsS sv rfl
        rw [show (keyOfPair (some sv) none) = (sv.get_type, sv.get_unique_id) from rfl]
        rw [h0]
        rfl
      rcases option_some_or_none parent? with ⟨P, hPo⟩ | hPo
      · -- create with a parent model
        subst hPo
        obtain ⟨hePK, hdisj⟩ := hpar P rfl
        have hKnePK : keyOfPair (some sv) none ≠ (P.get_type, P.get_unique_id) :=
          edge_target_ne hcf hePK
        cases hac : P.add_child obj with
        | error e =>
          rw [after_step_create_parent_err hac] at hrun
          cases hrun
        | ok p' =>
          have hacs := hac
          simp only [Model.add_child] at hacs
          cases hlc : alookup P.cls.children obj.get_type with
          | none =>
            rw [hlc] at hacs
            cases hacs
          | some attrName =>
            rw [hlc] at hacs
            simp only [] at hacs
            by_cases hcont : (P.getChildList attrName).contains obj.get_unique_id = true
            · rw [if_pos hcont] at hacs
              cases hacs
            · rw [if_neg hcont] at hacs
              have hp' : p' = { P with childFields := aset P.childFields attrName ((P.getChildList attrName) ++ [obj.get_unique_id]) } := by
                injection hacs with h
                exact h.symm
              have hPE : PEdit (some sv, none) P p' := by
                refine ⟨Or.inl rfl, ?_, ?_, ?_⟩
                · intro _ h2
                  exact absurd h2 (by simp)
                · intro _ _
                  refine ⟨attrName, ?_, ?_, ?_⟩
                  · rw [← hobjty]
                    exact hlc
                  · rw [← hobjuid]
                    intro hm
                    exact hcont (by simpa using hm)
                  · rw [hp', hobjuid]
                · intro h1
                  exact absurd h1 (by simp)
              have hp'ty : p'.get_type = P.get_type := (pEdit_fields hPE).2.2.2.1
              have hp'uid : p'.get_unique_id = P.get_unique_id :=
                (pEdit_fields hPE).2.2.2.2.1
              have hp'cls : p'.cls = P.cls := (pEdit_fields hPE).1
              have hp'fl : p'.model_flags = P.model_flags := (pEdit_fields hPE).2.2.1
              have hlists : ∀ cf0, p'.getChildList cf0 =
                  if cf0 = attrName then P.getChildList attrName ++ [obj.get_unique_id]
                  else P.getChildList cf0 := by
                intro cf0
                rw [hp']
                show (alookup (aset P.childFields attrName
                  (P.getChildList attrName ++ [obj.get_unique_id])) cf0).getD [] = _
                by_cases hcf0 : cf0 = attrName
                · subst hcf0
                  rw [alookup_aset_self, if_pos rfl]
                  rfl
                · rw [alookup_aset_ne _ _ (Ne.symm hcf0), if_neg hcf0]
                  rfl
              have hedit : alookup D.classes P.get_type = some P.cls →
                  ∀ ct0 cf0, (ct0, cf0) ∈ P.cls.children →
                    ((P.getChildList cf0).Nodup → (p'.getChildList cf0).Nodup) ∧
                    ∀ w ∈ p'.getChildList cf0, w ∈ P.getChildList cf0 ∨
                      ((ct0, w) : SKey) = keyOfPair (some sv) none := by
                intro hclP ct0 cf0 hm0
                have hwfP : ClassWF P.cls := hcf.wfD.classesWF _ _ hclP
                rw [hlists cf0]
                by_cases hcf0 : cf0 = attrName
                · subst hcf0
                  rw [if_pos rfl]
                  have hmem2 : (obj.get_type, cf0) ∈ P.cls.children :=
                    mem_of_alookup_eq_some hlc
                  have hct0 : ct0 = obj.get_type :=
                    congrArg Prod.fst
                      (List.inj_on_of_nodup_map hwfP.2.2.2.2 hm0 hmem2 rfl)
                  constructor
                  · intro hnd0
                    refine List.Nodup.append hnd0 (by simp) ?_
                    intro a ha ha'
                    simp only [List.mem_singleton] at ha'
                    subst ha'
                    exact hcont (by simpa using ha)
                  · intro w hw
                    rcases List.mem_append.mp hw with hw | hw
                    · exact Or.inl hw
                    · simp only [List.mem_singleton] at hw
                      subst hw
                      refine Or.inr ?_
                      rw [hct0, hobjty, hobjuid]
                · rw [if_neg hcf0]
                  exact ⟨fun hnd0 => hnd0, fun w hw => Or.inl hw⟩
              obtain ⟨hWdyn, hWother, hWpres, hWnone⟩ :=
                writeback_parent_facts hcf hdyn hePK hdisj hp'ty hp'uid hp'cls hp'fl hedit
              cases hadd : (writeBackIfPresent F p'.get_type p'.get_unique_id p').add obj with
              | error e =>
                rw [after_step_create_parent_add_err hac hadd] at hrun
                cases hrun
              | ok pr =>
                obtain ⟨st1, obj1⟩ := pr
                rw [after_step_create_parent hac hadd] at hrun
                obtain ⟨y, hobj1⟩ := add_obj_dsync hadd
                have hds := dsyncSet_fields obj y
                have hdyn1 : DynInv S D st1 := by
                  refine add_dyninv hWdyn hadd hclaux hobjfl hchaux
                have hPKne : ∀ x : SKey, x ≠ (P.get_type, P.get_unique_id) →
                    ((x.1, x.2) : SKey) ≠ (p'.get_type, p'.get_unique_id) := by
                  intro x hx
                  rw [hp'ty, hp'uid]
                  exact pair_ne_of_ne hx
                have hKne : ∀ x : SKey, x ≠ keyOfPair (some sv) none →
                    ((x.1, x.2) : SKey) ≠ (obj.get_type, obj.get_unique_id) := by
                  intro x hx
                  rw [hobjty, hobjuid]
                  exact pair_ne_of_ne hx
                have htrans : ∀ x : SKey, x ≠ keyOfPair (some sv) none →
                    (∀ P0 : Model, (some P : Option Model) = some P0 →
                      x ≠ (P0.get_type, P0.get_unique_id)) →
                    alookup (st1.getData x.1) x.2 = alookup (F.getData x.1) x.2 := by
                  intro x hx hcar
                  rw [add_lookup_other hadd (hKne x hx)]
                  exact hWother x (hcar P rfl)
                have hlookK : alookup (st1.getData (keyOfPair (some sv) none).1)
                    (keyOfPair (some sv) none).2 = some obj1 := by
                  have h0 := add_lookup_self hadd
                  rw [hobjty, hobjuid] at h0
                  exact h0
                have hagree21 : ∀ x : SKey, Reach S D (keyOfPair (some sv) none) x →
                    x ≠ keyOfPair (some sv) none →
                    alookup (st1.getData x.1) x.2 = alookup (D.getData x.1) x.2 := by
                  intro x hx hne
                  rw [add_lookup_other hadd (hKne x hne),
                    hWother x (reach_ne_parent hcf hePK hx)]
                  exact hagreeB x hx hne
                obtain ⟨psAll, hflat1, hflat2, hflat3, hdyn', hpout, hcframe, hnewRaw,
                  hcnew, hsynced', P'', hpe'', hePr, heNo⟩ :=
                  safter_core ihG hcf hg hdyn1
                    (by rw [hobj1]; rw [hds.2.1]; exact hobjty)
                    (by rw [hobj1]; rw [hds.2.2.1]; exact hobjuid)
                    (Or.inl hlookK) hagree21 hrun
                refine elempost_assemble hcf hdyn' hpout hcframe hcnew hedgesP htrans ?_
                  ?_ (fun h => Option.noConfusion h) ?_ (fun h => Option.noConfusion h)
                · -- new keys of the transition: only the element's own key
                  intro x hFx hF2x
                  by_cases hxK : x = keyOfPair (some sv) none
                  · subst hxK
                    exact ⟨rfl, hSsomeK⟩
                  · exfalso
                    rw [add_lookup_other hadd (hKne x hxK)] at hF2x
                    by_cases hxP : x = (P.get_type, P.get_unique_id)
                    · rcases hdisj with hFP | hFP
                      · rw [hxP] at hFx
                        rw [hFP] at hFx
                        cases hFx
                      · rw [hxP] at hF2x hFx
                        rw [hWnone hFP] at hF2x
                        simp at hF2x
                    · rw [hWother x hxP, hFx] at hF2x
                      simp at hF2x
                · -- parent evolution
                  intro P0 hP0
                  cases hP0
                  refine ⟨p', rfl, hPE, ?_, ?_⟩
                  · intro hpre
                    rw [add_lookup_other hadd (hKne _ (Ne.symm hKnePK))]
                    exact hWpres hpre
                  · intro hpre
                    rw [add_lookup_other hadd (hKne _ (Ne.symm hKnePK))]
                    exact hWnone hpre
                · -- the created subtree is synced
                  intro s0 h0
                  cases h0
                  have hattrs' : P''.get_attrs = sv.get_attrs := by
                    rw [(pEdits_fields hpe'').2.2.2.2.2.1, hobj1, hds.2.2.2.2.1]
                    exact hobjattrs sv rfl
                  refine synced_of_batch hcf hg rfl hflat1 hflat2 hflat3 hdyn1 hdyn' ?_ ?_
                    hlookK hagree21 hpe'' (hePr hlookK) hattrs' hnewRaw hsynced'
                  · rw [hobj1, hds.1]
                    exact hobjcls
                  · intro cf0
                    rw [hobj1, hds.2.2.2.2.2.2 cf0]
                    exact hobjch cf0
      · -- create with no parent model
        subst hPo
        cases hadd : F.add obj with
        | error e =>
          rw [after_step_create_noparent_err hadd] at hrun
          cases hrun
        | ok pr =>
          obtain ⟨st1, obj1⟩ := pr
          rw [after_step_create_noparent hadd] at hrun
          obtain ⟨y, hobj1⟩ := add_obj_dsync hadd
          have hds := dsyncSet_fields obj y
          have hdyn1 : DynInv S D st1 := add_dyninv hdyn hadd hclaux hobjfl hchaux
          have hKne : ∀ x : SKey, x ≠ keyOfPair (some sv) none →
              ((x.1, x.2) : SKey) ≠ (obj.get_type, obj.get_unique_id) := by
            intro x hx
            rw [hobjty, hobjuid]
            exact pair_ne_of_ne hx
          have hlookK : alookup (st1.getData (keyOfPair (some sv) none).1)
              (keyOfPair (some sv) none).2 = some obj1 := by
            have h0 := add_lookup_self hadd
            rw [hobjty, hobjuid] at h0
            exact h0
          have hagree21 : ∀ x : SKey, Reach S D (keyOfPair (some sv) none) x →
              x ≠ keyOfPair (some sv) none →
              alookup (st1.getData x.1) x.2 = alookup (D.getData x.1) x.2 := by
            intro x hx hne
            rw [add_lookup_other hadd (hKne x hne)]
            exact hagreeB x hx hne
          obtain ⟨psAll, hflat1, hflat2, hflat3, hdyn', hpout, hcframe, hnewRaw,
            hcnew, hsynced', P'', hpe'', hePr, heNo⟩ :=
            safter_core ihG hcf hg hdyn1
              (by rw [hobj1]; rw [hds.2.1]; exact hobjty)
              (by rw [hobj1]; rw [hds.2.2.1]; exact hobjuid)
              (Or.inl hlookK) hagree21 hrun
          refine elempost_assemble hcf hdyn' hpout hcframe hcnew hedgesP ?_ ?_
            (fun P0 hP0 => Option.noConfusion hP0) (fun _ => rfl) ?_
            (fun h => Option.noConfusion h)
          · intro x hx _
            exact add_lookup_other hadd (hKne x hx)
          · intro x hFx hF2x
            by_cases hxK : x = keyOfPair (some sv) none
            · subst hxK
              exact ⟨rfl, hSsomeK⟩
            · exfalso
              rw [add_lookup_other hadd (hKne x hxK), hFx] at hF2x
              simp at hF2x
          · intro s0 h0
            cases h0
            have hattrs' : P''.get_attrs = sv.get_attrs := by
              rw [(pEdits_fields hpe'').2.2.2.2.2.1, hobj1, hds.2.2.2.2.1]
              exact hobjattrs sv rfl
            refine synced_of_batch hcf hg rfl hflat1 hflat2 hflat3 hdyn1 hdyn' ?_ ?_
              hlookK hagree21 hpe'' (hePr hlookK) hattrs' hnewRaw hsynced'
            · rw [hobj1, hds.1]
              exact hobjcls
            · intro cf0
              rw [hobj1, hds.2.2.2.2.2.2 cf0]
              exact hobjch cf0
  · subst hso
    rcases option_some_or_none d? with ⟨dv, hdo⟩ | hdo
    · -- destination only: the element is a delete
      subst hdo
      have hsa2 : el.source_attrs = none := by simpa using hsattrs
      have hda2 : el.dest_attrs = some dv.get_attrs := by simpa using hdattrs
      have hact : el.action = some "delete" := action_delete hsa2 hda2
      rcases hentry with ⟨hss0, _, _⟩ | ⟨_, hFk⟩
      · simp at hss0
      rw [hact] at hrun
      have hskip : hasFlag obj.model_flags SKIP_CHILDREN_ON_DELETE = false := by
        rw [hobjfl]
        exact hasFlag_zero _
      have hKne : ∀ x : SKey, x ≠ keyOfPair none (some dv) →
          ((x.1, x.2) : SKey) ≠ (obj.get_type, obj.get_unique_id) := by
        intro x hx
        rw [hobjty, hobjuid]
        exact pair_ne_of_ne hx
      rcases option_some_or_none parent? with ⟨P, hPo⟩ | hPo
      · -- delete with a parent model
        subst hPo
        obtain ⟨hePK, hdisj⟩ := hpar P rfl
        have hKnePK : keyOfPair none (some dv) ≠ (P.get_type, P.get_unique_id) :=
          edge_target_ne hcf hePK
        cases hrc : P.remove_child obj with
        | error e =>
          rw [after_step_delete_parent_err hrc] at hrun
          cases hrun
        | ok p' =>
          have hrcs := hrc
          simp only [Model.remove_child] at hrcs
          cases hlc : alookup P.cls.children obj.get_type with
          | none =>
            rw [hlc] at hrcs
            cases hrcs
          | some attrName =>
            rw [hlc] at hrcs
            simp only [] at hrcs
            by_cases hcont : (P.getChildList attrName).contains obj.get_unique_id = true
            · rw [if_pos hcont] at hrcs
              have hp' : p' = { P with childFields := aset P.childFields attrName ((P.getChildList attrName).erase obj.get_unique_id) } := by
                injection hrcs with h
                exact h.symm
              have hPE : PEdit (none, some dv) P p' := by
                refine ⟨Or.inr rfl, ?_, ?_, ?_⟩
                · intro h1 _
                  exact absurd h1 (by simp)
                · intro h1 _
                  exact absurd h1 (by simp)
                · intro _ _
                  refine ⟨attrName, ?_, ?_, ?_⟩
                  · rw [← hobjty]
                    exact hlc
                  · rw [← hobjuid]
                    simpa using hcont
                  · rw [hp', hobjuid]
              have hp'ty : p'.get_type = P.get_type := (pEdit_fields hPE).2.2.2.1
              have hp'uid : p'.get_unique_id = P.get_unique_id :=
                (pEdit_fields hPE).2.2.2.2.1
              have hp'cls : p'.cls = P.cls := (pEdit_fields hPE).1
              have hp'fl : p'.model_flags = P.model_flags := (pEdit_fields hPE).2.2.1
              have hlists : ∀ cf0, p'.getChildList cf0 =
                  if cf0 = attrName then (P.getChildList attrName).erase obj.get_unique_id
                  else P.getChildList cf0 := by
                intro cf0
                rw [hp']
                show (alookup (aset P.childFields attrName
                  ((P.getChildList attrName).erase obj.get_unique_id)) cf0).getD [] = _
                by_cases hcf0 : cf0 = attrName
                · subst hcf0
                  rw [alookup_aset_self, if_pos rfl]
                  rfl
                · rw [alookup_aset_ne _ _ (Ne.symm hcf0), if_neg hcf0]
                  rfl
              have hedit : alookup D.classes P.get_type = some P.cls →
                  ∀ ct0 cf0, (ct0, cf0) ∈ P.cls.children →
                    ((P.getChildList cf0).Nodup → (p'.getChildList cf0).Nodup) ∧
                    ∀ w ∈ p'.getChildList cf0, w ∈ P.getChildList cf0 ∨
                      ((ct0, w) : SKey) = keyOfPair none (some dv) := by
                intro _ ct0 cf0 hm0
                rw [hlists cf0]
                by_cases hcf0 : cf0 = attrName
                · subst hcf0
                  rw [if_pos rfl]
                  exact ⟨fun hnd0 => hnd0.erase _,
                    fun w hw => Or.inl (List.mem_of_mem_erase hw)⟩
                · rw [if_neg hcf0]
                  exact ⟨fun hnd0 => hnd0, fun w hw => Or.inl hw⟩
              obtain ⟨hWdyn, hWother, hWpres, hWnone⟩ :=
                writeback_parent_facts hcf hdyn hePK hdisj hp'ty hp'uid hp'cls hp'fl hedit
              cases hrem : Store.remove g
                  (writeBackIfPresent F p'.get_type p'.get_unique_id p') obj false with
              | error epr =>
                rw [after_step_delete_parent_rem_err hrc hskip hrem] at hrun
                cases hrun
              | ok pr =>
                obtain ⟨st1, o1⟩ := pr
                rw [after_step_delete_parent hrc hskip hrem] at hrun
                obtain ⟨hisl, hst1, y, ho1⟩ := remove_false_spec hrem
                have hds := dsyncSet_fields obj y
                have hdyn1 : DynInv S D st1 := by
                  rw [hst1]
                  exact dynInv_del_entry hWdyn _ _
                have hF2Kn : alookup (st1.getData (keyOfPair none (some dv)).1)
                    (keyOfPair none (some dv)).2 = none := by
                  have h0 := remove_false_lookup_self hrem hWdyn.2.2.2.2.1
                  rw [hobjty, hobjuid] at h0
                  exact h0
                have hremother : ∀ x : SKey, x ≠ keyOfPair none (some dv) →
                    alookup (st1.getData x.1) x.2 =
                    alookup ((writeBackIfPresent F p'.get_type p'.get_unique_id
                      p').getData x.1) x.2 := by
                  intro x hx
                  exact remove_false_lookup_other hrem (hKne x hx)
                have htrans : ∀ x : SKey, x ≠ keyOfPair none (some dv) →
                    (∀ P0 : Model, (some P : Option Model) = some P0 →
                      x ≠ (P0.get_type, P0.get_unique_id)) →
                    alookup (st1.getData x.1) x.2 = alookup (F.getData x.1) x.2 := by
                  intro x hx hcar
                  rw [hremother x hx]
                  exact hWother x (hcar P rfl)
                have hagree21 : ∀ x : SKey, Reach S D (keyOfPair none (some dv)) x →
                    x ≠ keyOfPair none (some dv) →
                    alookup (st1.getData x.1) x.2 = alookup (D.getData x.1) x.2 := by
                  intro x hx hne
                  rw [hremother x hne, hWother x (reach_ne_parent hcf hePK hx)]
                  exact hagreeB x hx hne
                obtain ⟨psAll, hflat1, hflat2, hflat3, hdyn', hpout, hcframe, hnewRaw,
                  hcnew, hsynced', P'', hpe'', hePr, heNo⟩ :=
                  safter_core ihG hcf hg hdyn1
                    (by rw [ho1]; rw [hds.2.1]; exact hobjty)
                    (by rw [ho1]; rw [hds.2.2.1]; exact hobjuid)
                    (Or.inr hF2Kn) hagree21 hrun
                refine elempost_assemble hcf hdyn' hpout hcframe hcnew hedgesP htrans ?_
                  ?_ (fun h => Option.noConfusion h)
                  (fun s0 h0 => Option.noConfusion h0) (fun _ => heNo hF2Kn)
                · intro x hFx hF2x
                  exfalso
                  by_cases hxK : x = keyOfPair none (some dv)
                  · rw [hxK, hF2Kn] at hF2x
                    simp at hF2x
                  · rw [hremother x hxK] at hF2x
                    by_cases hxP : x = (P.get_type, P.get_unique_id)
                    · rcases hdisj with hFP | hFP
                      · rw [hxP, hFP] at hFx
                        cases hFx
                      · rw [hxP] at hF2x hFx
                        rw [hWnone hFP] at hF2x
                        simp at hF2x
                    · rw [hWother x hxP, hFx] at hF2x
                      simp at hF2x
                · intro P0 hP0
                  cases hP0
                  refine ⟨p', rfl, hPE, ?_, ?_⟩
                  · intro hpre
                    rw [hremother _ (Ne.symm hKnePK)]
                    exact hWpres hpre
                  · intro hpre
                    rw [hremother _ (Ne.symm hKnePK)]
                    exact hWnone hpre
            · rw [if_neg hcont] at hrcs
              cases hrcs
      · -- delete with no parent model
        subst hPo
        cases hrem : Store.remove g F obj false with
        | error epr =>
          rw [after_step_delete_noparent_err hskip hrem] at hrun
          cases hrun
        | ok pr =>
          obtain ⟨st1, o1⟩ := pr
          rw [after_step_delete_noparent hskip hrem] at hrun
          obtain ⟨hisl, hst1, y, ho1⟩ := remove_false_spec hrem
          have hds := dsyncSet_fields obj y
          have hdyn1 : DynInv S D st1 := by
            rw [hst1]
            exact dynInv_del_entry hdyn _ _
          have hF2Kn : alookup (st1.getData (keyOfPair none (some dv)).1)
              (keyOfPair none (some dv)).2 = none := by
            have h0 := remove_false_lookup_self hrem hdyn.2.2.2.2.1
            rw [hobjty, hobjuid] at h0
            exact h0
          have hremother : ∀ x : SKey, x ≠ keyOfPair none (some dv) →
              alookup (st1.getData x.1) x.2 = alookup (F.getData x.1) x.2 := by
            intro x hx
            exact remove_false_lookup_other hrem (hKne x hx)
          have hagree21 : ∀ x : SKey, Reach S D (keyOfPair none (some dv)) x →
              x ≠ keyOfPair none (some dv) →
              alookup (st1.getData x.1) x.2 = alookup (D.getData x.1) x.2 := by
            intro x hx hne
            rw [hremother x hne]
            exact hagreeB x hx hne
          obtain ⟨psAll, hflat1, hflat2, hflat3, hdyn', hpout, hcframe, hnewRaw,
            hcnew, hsynced', P'', hpe'', hePr, heNo⟩ :=
            safter_core ihG hcf hg hdyn1
              (by rw [ho1]; rw [hds.2.1]; exact hobjty)
              (by rw [ho1]; rw [hds.2.2.1]; exact hobjuid)
              (Or.inr hF2Kn) hagree21 hrun
          refine elempost_assemble hcf hdyn' hpout hcframe hcnew hedgesP
            (fun x hx _ => hremother x hx) ?_
            (fun P0 hP0 => Option.noConfusion hP0) (fun _ => rfl)
            (fun s0 h0 => Option.noConfusion h0) (fun _ => heNo hF2Kn)
          intro x hFx hF2x
          exfalso
          by_cases hxK : x = keyOfPair none (some dv)
          · rw [hxK, hF2Kn] at hF2x
            simp at hF2x
          · rw [hremother x hxK, hFx] at hF2x
            simp at hF2x
    · subst hdo
      rcases hsome' with h | h <;> simp at h


theorem snames_step (g : Nat) (ihE : SElemPred g) (ihN : SNamesPred g) :
    SNamesPred (g + 1) := by
  intro S D rank hcf ps gitems hgp F P tr out hdyn hedges hagree hndk hPent hrun
  cases gitems with
  | nil =>
    have hps : ps = [] := goodPairs_right_nil hgp
    subst hps
    simp only [syncNames] at hrun
    injection hrun with h
    subst h
    refine ⟨⟨hdyn, fun x _ _ => rfl, ?_, fun q hq => absurd hq (List.not_mem_nil _)⟩,
      P, rfl, PEdits.nil P, fun h => h, fun h => h⟩
    intro x hFx hsome
    exfalso
    have hsome2 : (alookup (F.getData x.1) x.2).isSome := hsome
    rw [hFx] at hsome2
    simp at hsome2
  | cons hd rest =>
    obtain ⟨nm, child⟩ := hd
    obtain ⟨p, ps', rfl, hpg, hpsg⟩ := goodPairs_els_cons_inv hgp
    have hndk2 : ((keyOfPair p.1 p.2) ::
        (ps'.map fun q => keyOfPair q.1 q.2)).Nodup := hndk
    obtain ⟨hnotin, hndk'⟩ := List.nodup_cons.mp hndk2
    have hKneAll : ∀ q ∈ ps', keyOfPair p.1 p.2 ≠ keyOfPair q.1 q.2 := by
      intro q hq he
      apply hnotin
      rw [he]
      exact List.mem_map_of_mem _ hq
    have hep : Edge S D (P.get_type, P.get_unique_id) (keyOfPair p.1 p.2) :=
      hedges p (List.mem_cons_self _ _)
    simp only [syncNames] at hrun
    cases hel : sync_from_diff_element g defaultHooks 0 F (some P) tr child with
    | error e =>
      rw [hel] at hrun
      cases hrun
    | ok trip =>
      obtain ⟨F1, obj?1, tr1⟩ := trip
      rw [hel] at hrun
      have hrun2 : syncNames g defaultHooks 0 F1 (obj?1.getD P) tr1 rest = .ok out := hrun
      have hpost := ihE S D rank hcf p.1 p.2 child hpg F (some P) tr (F1, obj?1, tr1) hdyn
        (hagree p (List.mem_cons_self _ _))
        (fun P0 hP0 => by cases hP0; exact ⟨hep, hPent⟩) hel
      have hdyn1 : DynInv S D F1 := hpost.1
      have hframe1 : ∀ x : SKey, ¬ Reach S D (keyOfPair p.1 p.2) x →
          (∀ P0 : Model, (some P : Option Model) = some P0 →
            x ≠ (P0.get_type, P0.get_unique_id)) →
          alookup (F1.getData x.1) x.2 = alookup (F.getData x.1) x.2 := hpost.2.1
      have hnew1 : ∀ x : SKey, alookup (F.getData x.1) x.2 = none →
          (alookup (F1.getData x.1) x.2).isSome →
          (alookup (S.getData x.1) x.2).isSome ∧
          (x = keyOfPair p.1 p.2 ∨ ∃ pk, StoreEdge S pk x) := hpost.2.2.1
      have hsyn1 : ∀ s, p.1 = some s → Synced S F1 s := hpost.2.2.2.2.2.1
      obtain ⟨P1, hobj1, hPE1, hPpres1, hPnone1⟩ := hpost.2.2.2.1 P rfl
      have hobj1e : obj?1 = some P1 := hobj1
      have hPpres1e : alookup (F.getData P.get_type) P.get_unique_id = some P →
          alookup (F1.getData P.get_type) P.get_unique_id = some P1 := hPpres1
      have hPnone1e : alookup (F.getData P.get_type) P.get_unique_id = none →
          alookup (F1.getData P.get_type) P.get_unique_id = none := hPnone1
      have hrun3 : syncNames g defaultHooks 0 F1 P1 tr1 rest = .ok out := by
        rw [hobj1e] at hrun2
        exact hrun2
      have hty : P1.get_type = P.get_type := (pEdit_fields hPE1).2.2.2.1
      have huid : P1.get_unique_id = P.get_unique_id := (pEdit_fields hPE1).2.2.2.2.1
      have hedges' : ∀ q ∈ ps',
          Edge S D (P1.get_type, P1.get_unique_id) (keyOfPair q.1 q.2) := by
        rw [hty, huid]
        intro q hq
        exact hedges q (List.mem_cons_of_mem _ hq)
      have hagree' : ∀ q ∈ ps', ∀ x : SKey, Reach S D (keyOfPair q.1 q.2) x →
          alookup (F1.getData x.1) x.2 = alookup (D.getData x.1) x.2 := by
        intro q hq x hx
        have heq : Edge S D (P.get_type, P.get_unique_id) (keyOfPair q.1 q.2) :=
          hedges q (List.mem_cons_of_mem _ hq)
        have hnr : ¬ Reach S D (keyOfPair p.1 p.2) x :=
          fun hr => sibling_no_cross hcf hep heq (hKneAll q hq) hr hx
        have hcar : ∀ P0 : Model, (some P : Option Model) = some P0 →
            x ≠ (P0.get_type, P0.get_unique_id) := by
          intro P0 hP0
          cases hP0
          exact reach_ne_parent hcf heq hx
        rw [hframe1 x hnr hcar]
        exact hagree q (List.mem_cons_of_mem _ hq) x hx
      have hPent1 : alookup (F1.getData P1.get_type) P1.get_unique_id = some P1 ∨
          alookup (F1.getData P1.get_type) P1.get_unique_id = none := by
        rw [hty, huid]
        rcases hPent with h | h
        · exact Or.inl (hPpres1e h)
        · exact Or.inr (hPnone1e h)
      obtain ⟨hbatch2, P2, hobj2, hpe2, hpres2, hnone2⟩ :=
        ihN S D rank hcf ps' rest hpsg F1 P1 tr1 out hdyn1 hedges' hagree' hndk' hPent1
          hrun3
      rw [hty, huid] at hbatch2 hpres2 hnone2
      obtain ⟨hdyn2, hframe2, hnew2, hsynced2⟩ := hbatch2
      refine ⟨⟨hdyn2, ?_, ?_, ?_⟩, P2, hobj2, PEdits.cons hPE1 hpe2, ?_, ?_⟩
      · -- frame of the whole batch
        intro x hnall hxPK
        have h2 := hframe2 x (fun q hq => hnall q (List.mem_cons_of_mem _ hq)) hxPK
        have h1 := hframe1 x (hnall p (List.mem_cons_self _ _))
          (fun P0 hP0 => by cases hP0; exact hxPK)
        rw [h2, h1]
      · -- new keys of the whole batch
        intro x hFx hsome
        rcases option_some_or_none (alookup (F1.getData x.1) x.2) with ⟨v, hF1⟩ | hF1
        · obtain ⟨hS, hds⟩ := hnew1 x hFx (by rw [hF1]; rfl)
          refine ⟨hS, ?_⟩
          rcases hds with h | h
          · exact Or.inl ⟨p, List.mem_cons_self _ _, h⟩
          · exact Or.inr h
        · obtain ⟨hS, hds⟩ := hnew2 x hF1 hsome
          refine ⟨hS, ?_⟩
          rcases hds with ⟨q, hq, h⟩ | h
          · exact Or.inl ⟨q, List.mem_cons_of_mem _ hq, h⟩
          · exact Or.inr h
      · -- each source record of the batch ends synced
        intro q hq s hs
        rcases List.mem_cons.mp hq with rfl | hq'
        · have hsF1 : Synced S F1 s := hsyn1 s hs
          refine synced_mono hcf.wfS.wellKeyed hdyn1 hsF1 ?_
          intro x hx
          have hxK : Reach S D (keyOfPair q.1 q.2) x := by
            rw [hs]
            exact hx
          refine hframe2 x ?_ (reach_ne_parent hcf hep hxK)
          intro r hr hrx
          exact sibling_no_cross hcf hep (hedges r (List.mem_cons_of_mem _ hr))
            (hKneAll r hr) hxK hrx
        · exact hsynced2 q hq' s hs
      · intro h
        exact hpres2 (hPpres1e h)
      · intro h
        exact hnone2 (hPnone1e h)


theorem sgroups_step (g : Nat) (ihN : SNamesPred g) (ihG : SGroupsPred g) :
    SGroupsPred (g + 1) := by
  intro S D rank hcf pss groups halign F P tr parentOut out hdyn hedges hagree hndk
    hPent hrun
  cases groups with
  | nil =>
    cases pss with
    | cons ps1 pssr => exact False.elim halign
    | nil =>
      simp only [syncGroups] at hrun
      injection hrun with h
      subst h
      refine ⟨⟨hdyn, fun x _ _ => rfl, ?_, fun q hq => absurd hq (List.not_mem_nil _)⟩,
        rfl, P, PEdits.nil P, fun h => h, fun h => h⟩
      intro x hFx hsome
      exfalso
      have hsome2 : (alookup (F.getData x.1) x.2).isSome := hsome
      rw [hFx] at hsome2
      simp at hsome2
  | cons grp rest =>
    obtain ⟨nm1, g1⟩ := grp
    cases pss with
    | nil => exact False.elim halign
    | cons ps1 pssr =>
      obtain ⟨hgp1, halign'⟩ := halign
      have hndkApp : ((ps1 ++ pssr.flatten).map fun q => keyOfPair q.1 q.2).Nodup := hndk
      rw [List.map_append] at hndkApp
      obtain ⟨hndk1, hndkR, hdisj⟩ := List.nodup_append.mp hndkApp
      have hKneLR : ∀ q ∈ ps1, ∀ r ∈ pssr.flatten,
          keyOfPair q.1 q.2 ≠ keyOfPair r.1 r.2 := by
        intro q hq r hr he
        apply hdisj (List.mem_map_of_mem _ hq)
        rw [he]
        exact List.mem_map_of_mem _ hr
      simp only [syncGroups] at hrun
      cases hnm : syncNames g defaultHooks 0 F P tr g1 with
      | error e =>
        rw [hnm] at hrun
        cases hrun
      | ok trip =>
        obtain ⟨F1, obj?1, tr1⟩ := trip
        rw [hnm] at hrun
        have hrun2 : syncGroups g defaultHooks 0 F1 (obj?1.getD P) tr1 parentOut rest
            = .ok out := hrun
        have hres1 := ihN S D rank hcf ps1 g1 hgp1 F P tr (F1, obj?1, tr1) hdyn
          (fun q hq => hedges q (List.mem_append_left _ hq))
          (fun q hq => hagree q (List.mem_append_left _ hq))
          hndk1 hPent hnm
        have hdyn1 : DynInv S D F1 := hres1.1.1
        have hframe1 : ∀ x : SKey, (∀ q ∈ ps1, ¬ Reach S D (keyOfPair q.1 q.2) x) →
            x ≠ (P.get_type, P.get_unique_id) →
            alookup (F1.getData x.1) x.2 = alookup (F.getData x.1) x.2 := hres1.1.2.1
        have hnew1 : ∀ x : SKey, alookup (F.getData x.1) x.2 = none →
            (alookup (F1.getData x.1) x.2).isSome →
            (alookup (S.getData x.1) x.2).isSome ∧
            ((∃ q ∈ ps1, x = keyOfPair q.1 q.2) ∨ ∃ pk, StoreEdge S pk x) :=
          hres1.1.2.2.1
        have hsynced1 : ∀ q ∈ ps1, ∀ s, q.1 = some s → Synced S F1 s := hres1.1.2.2.2
        obtain ⟨P1, hobj1, hpe1, hPpres1, hPnone1⟩ := hres1.2
        have hobj1e : obj?1 = some P1 := hobj1
        have hPpres1e : alookup (F.getData P.get_type) P.get_unique_id = some P →
            alookup (F1.getData P.get_type) P.get_unique_id = some P1 := hPpres1
        have hPnone1e : alookup (F.getData P.get_type) P.get_unique_id = none →
            alookup (F1.getData P.get_type) P.get_unique_id = none := hPnone1
        have hrun3 : syncGroups g defaultHooks 0 F1 P1 tr1 parentOut rest = .ok out := by
          rw [hobj1e] at hrun2
          exact hrun2
        have hty : P1.get_type = P.get_type := (pEdits_fields hpe1).2.2.2.1
        have huid : P1.get_unique_id = P.get_unique_id := (pEdits_fields hpe1).2.2.2.2.1
        have hedges2 : ∀ q ∈ pssr.flatten,
            Edge S D (P1.get_type, P1.get_unique_id) (keyOfPair q.1 q.2) := by
          rw [hty, huid]
          intro q hq
          exact hedges q (List.mem_append_right _ hq)
        have hagree2 : ∀ q ∈ pssr.flatten, ∀ x : SKey, Reach S D (keyOfPair q.1 q.2) x →
            alookup (F1.getData x.1) x.2 = alookup (D.getData x.1) x.2 := by
          intro q hq x hx
          have heq : Edge S D (P.get_type, P.get_unique_id) (keyOfPair q.1 q.2) :=
            hedges q (List.mem_append_right _ hq)
          have hnr : ∀ r ∈ ps1, ¬ Reach S D (keyOfPair r.1 r.2) x := by
            intro r hr hrx
            exact sibling_no_cross hcf (hedges r (List.mem_append_left _ hr)) heq
              (hKneLR r hr q hq) hrx hx
          rw [hframe1 x hnr (reach_ne_parent hcf heq hx)]
          exact hagree q (List.mem_append_right _ hq) x hx
        have hPent1 : alookup (F1.getData P1.get_type) P1.get_unique_id = some P1 ∨
            alookup (F1.getData P1.get_type) P1.get_unique_id = none := by
          rw [hty, huid]
          rcases hPent with h | h
          · exact Or.inl (hPpres1e h)
          · exact Or.inr (hPnone1e h)
        obtain ⟨hbatch2, hpout2, P2, hpe2, hpres2, hnone2⟩ :=
          ihG S D rank hcf pssr rest halign' F1 P1 tr1 parentOut out hdyn1 hedges2
            hagree2 hndkR hPent1 hrun3
        rw [hty, huid] at hbatch2 hpres2 hnone2
        obtain ⟨hdyn2, hframe2, hnew2, hsynced2⟩ := hbatch2
        refine ⟨⟨hdyn2, ?_, ?_, ?_⟩, hpout2, P2, pEdits_append hpe1 hpe2, ?_, ?_⟩
        · intro x hnall hxPK
          have h2 := hframe2 x (fun q hq => hnall q (List.mem_append_right _ hq)) hxPK
          have h1 := hframe1 x (fun q hq => hnall q (List.mem_append_left _ hq)) hxPK
          rw [h2, h1]
        · intro x hFx hsome
          rcases option_some_or_none (alookup (F1.getData x.1) x.2) with ⟨v, hF1⟩ | hF1
          · obtain ⟨hS, hds⟩ := hnew1 x hFx (by rw [hF1]; rfl)
            refine ⟨hS, ?_⟩
            rcases hds with ⟨q, hq, h⟩ | h
            · exact Or.inl ⟨q, List.mem_append_left _ hq, h⟩
            · exact Or.inr h
          · obtain ⟨hS, hds⟩ := hnew2 x hF1 hsome
            refine ⟨hS, ?_⟩
            rcases hds with ⟨q, hq, h⟩ | h
            · exact Or.inl ⟨q, List.mem_append_right _ hq, h⟩
            · exact Or.inr h
        · intro q hq s hs
          have hq2 : q ∈ ps1 ++ pssr.flatten := hq
          rcases List.mem_append.mp hq2 with hq' | hq'
          · have hsF1 : Synced S F1 s := hsynced1 q hq' s hs
            have heq : Edge S D (P.get_type, P.get_unique_id) (keyOfPair q.1 q.2) :=
              hedges q (List.mem_append_left _ hq')
            refine synced_mono hcf.wfS.wellKeyed hdyn1 hsF1 ?_
            intro x hx
            have hxK : Reach S D (keyOfPair q.1 q.2) x := by
              rw [hs]
              exact hx
            refine hframe2 x ?_ (reach_ne_parent hcf heq hxK)
            intro r hr hrx
            exact sibling_no_cross hcf heq (hedges r (List.mem_append_right _ hr))
              (hKneLR q hq' r hr) hxK hrx
          · exact hsynced2 q hq' s hs
        · intro h
          exact hpres2 (hPpres1e h)
        · intro h
          exact hnone2 (hPnone1e h)


theorem syncProd : ∀ g, SElemPred g ∧ SAfterPred g ∧ SGroupsPred g ∧ SNamesPred g := by
  intro g
  induction g with
  | zero =>
    refine ⟨?_, ?_, ?_, ?_⟩
    · intro S D rank hcf s? d? el hg F parent? tr out hdyn hagree hpar hrun
      cases hrun
    · intro S D rank hcf s? d? el hg F parent? tr obj out hdyn hagree hpar h1 h2 h3 h4
        h5 h6 h7 hrun
      cases hrun
    · intro S D rank hcf pss groups halign F P tr parentOut out hdyn hedges hagree
        hndk hPent hrun
      cases hrun
    · intro S D rank hcf ps gitems hgp F P tr out hdyn hedges hagree hndk hPent hrun
      cases hrun
  | succ g ih =>
    exact ⟨selem_step g ih.2.1, safter_step g ih.2.2.1,
      sgroups_step g ih.2.2.2 ih.2.2.1, snames_step g ih.1 ih.2.2.2⟩


/-- Contract of the top-level element loop of `sync_from`: every source-side
record ends synced, delete-only keys end absent, keys outside every element's
reach are untouched, and no key absent from both `F` and `S` appears. -/
theorem syncTop_good {S D : Store} {rank : SKey → Nat} (hcf : ConflictFree S D rank)
    (fuel : Nat) :
    ∀ (els : List DiffElement) (ps : List (Option Model × Option Model)),
    GoodPairs S D ps els →
    ∀ (F : Store) (tr : List Ev) (out : Store × List Ev),
    DynInv S D F →
    (∀ p ∈ ps, (keyOfPair p.1 p.2).1 ∈ D.top_level) →
    ((ps.map fun p => keyOfPair p.1 p.2).Nodup) →
    (∀ p ∈ ps, ∀ x : SKey, Reach S D (keyOfPair p.1 p.2) x →
      alookup (F.getData x.1) x.2 = alookup (D.getData x.1) x.2) →
    syncTop fuel defaultHooks 0 F tr els = .ok out →
    DynInv S D out.1 ∧
    (∀ x : SKey, (∀ p ∈ ps, ¬ Reach S D (keyOfPair p.1 p.2) x) →
      alookup (out.1.getData x.1) x.2 = alookup (F.getData x.1) x.2) ∧
    (∀ x : SKey, alookup (F.getData x.1) x.2 = none →
      (alookup (out.1.getData x.1) x.2).isSome →
      (alookup (S.getData x.1) x.2).isSome) ∧
    (∀ p ∈ ps, ∀ s, p.1 = some s → Synced S out.1 s) ∧
    (∀ p ∈ ps, p.1 = none →
      alookup (out.1.getData (keyOfPair p.1 p.2).1) (keyOfPair p.1 p.2).2 = none) := by
  intro els
  induction els with
  | nil =>
    intro ps hgp F tr out hdyn htop hndk hagree hrun
    have hps := goodPairs_right_nil hgp
    subst hps
    simp only [syncTop] at hrun
    injection hrun with h
    subst h
    refine ⟨hdyn, fun x _ => rfl, ?_, fun q hq => absurd hq (List.not_mem_nil _),
      fun q hq => absurd hq (List.not_mem_nil _)⟩
    intro x hFx hsome
    exfalso
    have hsome2 : (alookup (F.getData x.1) x.2).isSome := hsome
    rw [hFx] at hsome2
    simp at hsome2
  | cons el els' ih =>
    intro ps hgp F tr out hdyn htop hndk hagree hrun
    obtain ⟨p, ps', rfl, hpg, hpsg⟩ := goodPairs_els_cons_inv hgp
    have hndk2 : ((keyOfPair p.1 p.2) ::
        (ps'.map fun q => keyOfPair q.1 q.2)).Nodup := hndk
    obtain ⟨hnotin, hndk'⟩ := List.nodup_cons.mp hndk2
    have hKneAll : ∀ q ∈ ps', keyOfPair p.1 p.2 ≠ keyOfPair q.1 q.2 := by
      intro q hq he
      apply hnotin
      rw [he]
      exact List.mem_map_of_mem _ hq
    have htopp : (keyOfPair p.1 p.2).1 ∈ D.top_level := htop p (List.mem_cons_self _ _)
    simp only [syncTop] at hrun
    cases hel : sync_from_diff_element fuel defaultHooks 0 F none tr el with
    | error e =>
      rw [hel] at hrun
      cases hrun
    | ok trip =>
      obtain ⟨F1, o1, tr1⟩ := trip
      rw [hel] at hrun
      have hrun2 : syncTop fuel defaultHooks 0 F1 tr1 els' = .ok out := hrun
      have hpost := (syncProd fuel).1 S D rank hcf p.1 p.2 el hpg F none tr (F1, o1, tr1)
        hdyn (hagree p (List.mem_cons_self _ _)) (fun P hP => Option.noConfusion hP) hel
      have hdyn1 : DynInv S D F1 := hpost.1
      have hframe1 : ∀ x : SKey, ¬ Reach S D (keyOfPair p.1 p.2) x →
          alookup (F1.getData x.1) x.2 = alookup (F.getData x.1) x.2 :=
        fun x hx => hpost.2.1 x hx (fun P hP => Option.noConfusion hP)
      have hnew1 : ∀ x : SKey, alookup (F.getData x.1) x.2 = none →
          (alookup (F1.getData x.1) x.2).isSome →
          (alookup (S.getData x.1) x.2).isSome ∧
          (x = keyOfPair p.1 p.2 ∨ ∃ pk, StoreEdge S pk x) := hpost.2.2.1
      have hsyn1 : ∀ s, p.1 = some s → Synced S F1 s := hpost.2.2.2.2.2.1
      have habs1 : p.1 = none →
          alookup (F1.getData (keyOfPair p.1 p.2).1) (keyOfPair p.1 p.2).2 = none :=
        hpost.2.2.2.2.2.2
      have hagree1 : ∀ q ∈ ps', ∀ x : SKey, Reach S D (keyOfPair q.1 q.2) x →
          alookup (F1.getData x.1) x.2 = alookup (D.getData x.1) x.2 := by
        intro q hq x hx
        have hnr : ¬ Reach S D (keyOfPair p.1 p.2) x := fun hpx =>
          top_no_cross hcf (htop q (List.mem_cons_of_mem _ hq)) htopp
            (Ne.symm (hKneAll q hq)) hx hpx
        rw [hframe1 x hnr]
        exact hagree q (List.mem_cons_of_mem _ hq) x hx
      obtain ⟨hdyn2, hframe2, hnew2, hsynced2, habs2⟩ :=
        ih ps' hpsg F1 tr1 out hdyn1 (fun q hq => htop q (List.mem_cons_of_mem _ hq))
          hndk' hagree1 hrun2
      refine ⟨hdyn2, ?_, ?_, ?_, ?_⟩
      · intro x hnall
        rw [hframe2 x (fun q hq => hnall q (List.mem_cons_of_mem _ hq)),
          hframe1 x (hnall p (List.mem_cons_self _ _))]
      · intro x hFx hsome
        rcases option_some_or_none (alookup (F1.getData x.1) x.2) with ⟨v, hF1⟩ | hF1
        · exact (hnew1 x hFx (by rw [hF1]; rfl)).1
        · exact hnew2 x hF1 hsome
      · intro q hq s hs
        rcases List.mem_cons.mp hq with rfl | hq'
        · have hsF1 : Synced S F1 s := hsyn1 s hs
          refine synced_mono hcf.wfS.wellKeyed hdyn1 hsF1 ?_
          intro x hx
          have hxK : Reach S D (keyOfPair q.1 q.2) x := by
            rw [hs]
            exact hx
          refine hframe2 x ?_
          intro r hr hrx
          exact top_no_cross hcf (htop r (List.mem_cons_of_mem _ hr)) htopp
            (Ne.symm (hKneAll r hr)) hrx hxK
        · exact hsynced2 q hq' s hs
      · intro q hq hqn
        rcases List.mem_cons.mp hq with rfl | hq'
        · have h1 := habs1 hqn
          rw [hframe2 (keyOfPair q.1 q.2) ?_]
          · exact h1
          · intro r hr hrx
            exact top_no_cross hcf (htop r (List.mem_cons_of_mem _ hr)) htopp
              (Ne.symm (hKneAll r hr)) hrx (Reach.refl _)
        · exact habs2 q hq' hqn


theorem goodPairs_flatMap {S D : Store}
    (pf : String → List (Option Model × Option Model)) :
    ∀ (ch : List (String × List (String × DiffElement))),
    (∀ q ∈ ch, GoodPairs S D (pf q.1) (q.2.map Prod.snd)) →
    GoodPairs S D (ch.flatMap fun q => pf q.1) (diffGetChildren ch) := by
  intro ch
  induction ch with
  | nil =>
    intro _
    exact GoodPairs.nil
  | cons q rest ih =>
    intro h
    exact goodPairs_append (h q (List.mem_cons_self _ _))
      (ih fun r hr => h r (List.mem_cons_of_mem _ hr))

theorem nodup_keyed_flat {α β : Type} (key : β → SKey) (tf : α → String)
    (pf : α → List β) :
    ∀ (ch : List α), ((ch.map tf).Nodup) →
    (∀ q ∈ ch, ((pf q).map key).Nodup) →
    (∀ q ∈ ch, ∀ b ∈ pf q, (key b).1 = tf q) →
    ((ch.flatMap pf).map key).Nodup := by
  intro ch
  induction ch with
  | nil =>
    intro _ _ _
    exact List.nodup_nil
  | cons q rest ih =>
    intro hnd hper hfst
    have hnd2 : (tf q :: rest.map tf).Nodup := hnd
    obtain ⟨hqnot, hndr⟩ := List.nodup_cons.mp hnd2
    have hrest := ih hndr (fun r hr => hper r (List.mem_cons_of_mem _ hr))
      (fun r hr => hfst r (List.mem_cons_of_mem _ hr))
    have happ : ((pf q ++ rest.flatMap pf).map key).Nodup := by
      rw [List.map_append]
      refine List.Nodup.append (hper q (List.mem_cons_self _ _)) hrest ?_
      intro k hk1 hk2
      obtain ⟨b1, hb1, hkb1⟩ := List.mem_map.mp hk1
      obtain ⟨b2, hb2, hkb2⟩ := List.mem_map.mp hk2
      obtain ⟨r, hr, hb2r⟩ := List.mem_flatMap.mp hb2
      have h1 : k.1 = tf q := by
        rw [← hkb1]
        exact hfst q (List.mem_cons_self _ _) b1 hb1
      have h2 : k.1 = tf r := by
        rw [← hkb2]
        exact hfst r (List.mem_cons_of_mem _ hr) b2 hb2r
      apply hqnot
      rw [show tf q = tf r from by rw [← h1, h2]]
      exact List.mem_map_of_mem _ hr
    exact happ


/-- C1: round-trip convergence. For a pair of acyclic, conflict-free stores —
destination `A` and source `B`, captured by `ConflictFree B A rank` over the
joint reference graph — a completed `A.sync_from(B)` followed by
`A.diff_from(B)` yields a `Diff` whose `has_diffs` is `false`. -/
theorem C1_round_trip {A B : Store} {rank : SKey → Nat} (hcf : ConflictFree B A rank)
    {f1 f2 : Nat} {out : Store × List Ev} {d : Diff}
    (hsync : Store.sync_from defaultHooks f1 A B 0 = .ok out)
    (hdiff : Store.diff_from f2 out.1 B 0 = .ok d) :
    d.has_diffs = false := by
  simp only [Store.sync_from] at hsync
  cases hd0 : Store.diff_from f1 A B 0 with
  | error e =>
    rw [hd0] at hsync
    cases hsync
  | ok diff0 =>
    rw [hd0] at hsync
    have hsync2 : syncTop f1 defaultHooks 0 A [] (diffGetChildren diff0.children)
        = .ok out := hsync
    simp only [Store.diff_from, calculate_diffs] at hd0
    obtain ⟨ch0, hcalc, hch⟩ := except_bind_eq_ok hd0
    injection hch with h
    subst h
    have hinv0 : ChTopInv B A [] [] :=
      ⟨List.nodup_nil, fun q hq => absurd hq (List.not_mem_nil _),
        fun t ht => absurd ht (List.not_mem_nil _)⟩
    have hinv : ChTopInv B A ch0 (intersection A.top_level B.top_level) :=
      calcTopLevel_good hcf f1 (intersection A.top_level B.top_level) [] [] ch0 rfl
        hinv0 hcalc
    have hlsB : ∀ t : String, ∀ m ∈ B.get_all t,
        ∃ u, alookup (B.getData t) u = some m :=
      fun t m hm => (get_all_mem hcf.wfS.nodup).mp hm
    have hldA : ∀ t : String, ∀ m ∈ A.get_all t,
        ∃ u, alookup (A.getData t) u = some m :=
      fun t m hm => (get_all_mem hcf.wfD.nodup).mp hm
    have hgood : ∀ q ∈ ch0, GoodPairs B A
        (combinedPairs (B.get_all q.1) (A.get_all q.1)) (q.2.map Prod.snd) := by
      intro q hq
      have hg := hinv.2.2 q.1 (hinv.2.1 q hq)
      rw [groupOf, alookup_of_mem_nodup hinv.1 hq] at hg
      exact hg
    have hgoodAll : GoodPairs B A
        (ch0.flatMap fun q => combinedPairs (B.get_all q.1) (A.get_all q.1))
        (diffGetChildren ch0) :=
      goodPairs_flatMap (fun t => combinedPairs (B.get_all t) (A.get_all t)) ch0 hgood
    have htopAll : ∀ p ∈ ch0.flatMap fun q =>
        combinedPairs (B.get_all q.1) (A.get_all q.1),
        (keyOfPair p.1 p.2).1 ∈ A.top_level := by
      intro p hp
      obtain ⟨q, hq, hpq⟩ := List.mem_flatMap.mp hp
      obtain ⟨u, hpu, hsm⟩ := combinedPairs_mem hpq
      have hKey : keyOfPair p.1 p.2 = (q.1, u) := by
        rw [hpu]
        exact keyOfPair_dicts hcf (hlsB q.1) (hldA q.1) hsm
      rw [hKey]
      have hqT : q.1 ∈ intersection A.top_level B.top_level := hinv.2.1 q hq
      exact (List.mem_filter.mp hqT).1
    have hkeysAll : (((ch0.flatMap fun q =>
        combinedPairs (B.get_all q.1) (A.get_all q.1)).map
        fun p => keyOfPair p.1 p.2)).Nodup := by
      refine nodup_keyed_flat (fun p => keyOfPair p.1 p.2) Prod.fst
        (fun q => combinedPairs (B.get_all q.1) (A.get_all q.1)) ch0 hinv.1 ?_ ?_
      · intro q hq
        rw [combined_keys_map hcf (hlsB q.1) (hldA q.1)]
        exact (combinedUids_nodup _ _).map (fun a b h => congrArg Prod.snd h)
      · intro q hq b hb
        obtain ⟨u, hbu, hsm⟩ := combinedPairs_mem hb
        have hKey : keyOfPair b.1 b.2 = (q.1, u) := by
          rw [hbu]
          exact keyOfPair_dicts hcf (hlsB q.1) (hldA q.1) hsm
        have h2 : (keyOfPair b.1 b.2).1 = ((q.1, u) : SKey).1 :=
          congrArg Prod.fst hKey
        exact h2
    obtain ⟨hdynOut, hframeOut, hnewOut, hsyncedOut, habsOut⟩ :=
      syncTop_good hcf f1 (diffGetChildren ch0)
        (ch0.flatMap fun q => combinedPairs (B.get_all q.1) (A.get_all q.1))
        hgoodAll A [] out (dynInv_init hcf) htopAll hkeysAll
        (fun p hp x hx => rfl) hsync2
    simp only [Store.diff_from, calculate_diffs] at hdiff
    obtain ⟨ch2, hcalc2, hch2⟩ := except_bind_eq_ok hdiff
    injection hch2 with h2
    subst h2
    have htopEq : out.1.top_level = A.top_level := hdynOut.2.1
    rw [htopEq] at hcalc2
    show groupsHasDiffs ch2 = false
    refine calcTopLevel_agree f2 (intersection A.top_level B.top_level) [] ch2 rfl
      ?_ hcalc2
    intro t ht p hp
    have hwkO : WellKeyed out.1 := hdynOut.2.2.2.1
    have hndO : StoreNodup out.1 := hdynOut.2.2.2.2.1
    obtain ⟨u, hpu, hsome2⟩ := combinedPairs_mem hp
    have hBd : alookup (toDict (B.get_all t)) u = alookup (B.getData t) u :=
      toDict_get_all hcf.wfS.wellKeyed hcf.wfS.nodup t u
    have hOd : alookup (toDict (out.1.get_all t)) u = alookup (out.1.getData t) u :=
      toDict_get_all hwkO hndO t u
    have hAd : alookup (toDict (A.get_all t)) u = alookup (A.getData t) u :=
      toDict_get_all hcf.wfD.wellKeyed hcf.wfD.nodup t u
    have hmemPs : ((alookup (toDict (B.get_all t)) u).isSome ∨
        (alookup (toDict (A.get_all t)) u).isSome) →
        (alookup (toDict (B.get_all t)) u, alookup (toDict (A.get_all t)) u)
          ∈ ch0.flatMap fun q => combinedPairs (B.get_all q.1) (A.get_all q.1) := by
      intro hsm
      have hp0 := combinedPairs_complete hsm
      have hgt := hinv.2.2 t ht
      cases hck : alookup ch0 t with
      | some grp =>
        exact List.mem_flatMap.mpr ⟨(t, grp), mem_of_alookup_eq_some hck, hp0⟩
      | none =>
        exfalso
        have hempty : groupOf ch0 t = [] := by
          rw [groupOf, hck]
          rfl
        rw [hempty] at hgt
        have hnil := goodPairs_right_nil hgt
        rw [hnil] at hp0
        exact absurd hp0 (List.not_mem_nil _)
    rcases option_some_or_none (alookup (B.getData t) u) with ⟨sm, hB⟩ | hB
    · -- the source record at (t, u) ends synced in the written store
      have hsomeB : (alookup (toDict (B.get_all t)) u).isSome := by
        rw [hBd, hB]
        rfl
      have hmemAll := hmemPs (Or.inl hsomeB)
      have hs0 : alookup (toDict (B.get_all t)) u = some sm := by
        rw [hBd]
        exact hB
      have hsync_s := hsyncedOut _ hmemAll sm hs0
      have hk := wellKeyed_getData hcf.wfS.wellKeyed hB
      obtain ⟨d', hd'⟩ : ∃ d',
          alookup (out.1.getData sm.get_type) sm.get_unique_id = some d' := by
        cases hsync_s with
        | intro hsS hlook hcls hattrs hpairs hrec => exact ⟨_, hlook⟩
      have hAg := synced_agreePair hcf hdynOut hsync_s d' hd'
      refine ⟨sm, d', ?_, hAg⟩
      have hd2 : alookup (toDict (out.1.get_all t)) u = some d' := by
        rw [hOd, ← hk.1, ← hk.2]
        exact hd'
      rw [hpu, hs0, hd2]
    · -- no source record at (t, u): the pair cannot exist in the second diff
      exfalso
      rcases option_some_or_none (alookup (out.1.getData t) u) with ⟨v, hO⟩ | hO
      · rcases option_some_or_none (alookup (A.getData t) u) with ⟨a0, hA⟩ | hA
        · -- a destination-only record was deleted, so the key is absent
          have hsomeA : (alookup (toDict (A.get_all t)) u).isSome := by
            rw [hAd, hA]
            rfl
          have hmemAll := hmemPs (Or.inr hsomeA)
          have hBn : alookup (toDict (B.get_all t)) u = none := by
            rw [hBd]
            exact hB
          have hKey : keyOfPair (alookup (toDict (B.get_all t)) u)
              (alookup (toDict (A.get_all t)) u) = (t, u) :=
            keyOfPair_dicts hcf (hlsB t) (hldA t) (Or.inr hsomeA)
          have h0 : alookup (out.1.getData (keyOfPair (alookup (toDict (B.get_all t)) u)
              (alookup (toDict (A.get_all t)) u)).1)
              (keyOfPair (alookup (toDict (B.get_all t)) u)
              (alookup (toDict (A.get_all t)) u)).2 = none :=
            habsOut _ hmemAll hBn
          rw [hKey] at h0
          have h1 : alookup (out.1.getData t) u = none := h0
          rw [h1] at hO
          cases hO
        · -- the key was absent on both sides, so the sync never introduced it
          have h1 : alookup (A.getData ((t, u) : SKey).1) ((t, u) : SKey).2 = none := hA
          have h2 : (alookup (out.1.getData ((t, u) : SKey).1)
              ((t, u) : SKey).2).isSome := by
            have h3 : (alookup (out.1.getData t) u).isSome := by
              rw [hO]
              rfl
            exact h3
          have h4 : (alookup (B.getData t) u).isSome := hnewOut (t, u) h1 h2
          rw [hB] at h4
          simp at h4
      · rcases hsome2 with h | h
        · rw [hBd, hB] at h
          simp at h
        · rw [hOd, hO] at h
          simp at h


theorem getData_mem {st : Store} {t u : String} {m : Model}
    (h : alookup (st.getData t) u = some m) :
    ∃ entries, alookup st.data t = some entries ∧ (u, m) ∈ entries := by
  unfold Store.getData at h
  cases he : alookup st.data t with
  | none =>
    rw [he] at h
    cases h
  | some entries =>
    rw [he] at h
    exact ⟨entries, rfl, mem_of_alookup_eq_some h⟩

/-- `StoreWF` from finitely checkable, member-based conditions. -/
theorem storeWF_of_members {st : Store}
    (h1 : WellKeyed st) (h2 : StoreNodup st)
    (h3 : (st.data.map Prod.fst).Nodup) (h4 : st.top_level.Nodup)
    (h5 : ∀ q ∈ st.classes, (q.2 : ModelClass).modelname = q.1)
    (h6 : ∀ q ∈ st.classes, ClassWF (q.2 : ModelClass))
    (h7 : ∀ p ∈ st.data, ∀ q ∈ p.2, alookup st.classes p.1 = some (q.2 : Model).cls)
    (h8 : ∀ p ∈ st.data, ∀ q ∈ p.2, (q.2 : Model).model_flags = 0)
    (h9 : ∀ p ∈ st.data, ∀ q ∈ p.2, ∀ cc ∈ (q.2 : Model).cls.children,
      ((q.2 : Model).getChildList cc.2).Nodup) :
    StoreWF st := by
  refine ⟨h1, h2, h3, h4, ?_, ?_, ?_, ?_, ?_⟩
  · intro n c hc
    exact h5 (n, c) (mem_of_alookup_eq_some hc)
  · intro n c hc
    exact h6 (n, c) (mem_of_alookup_eq_some hc)
  · intro t u m hm
    obtain ⟨entries, he, hq⟩ := getData_mem hm
    exact h7 (t, entries) (mem_of_alookup_eq_some he) (u, m) hq
  · intro t u m hm
    obtain ⟨entries, he, hq⟩ := getData_mem hm
    exact h8 (t, entries) (mem_of_alookup_eq_some he) (u, m) hq
  · intro t u m hm ct cf hcc
    obtain ⟨entries, he, hq⟩ := getData_mem hm
    exact h9 (t, entries) (mem_of_alookup_eq_some he) (u, m) hq (ct, cf) hcc

/-- The finite list of reference edges a store's records carry. -/
def storeEdges (st : Store) : List (SKey × SKey) :=
  st.data.flatMap fun p =>
    p.2.flatMap fun q =>
      (q.2 : Model).cls.children.flatMap fun cc =>
        ((q.2 : Model).getChildList cc.2).map fun w =>
          (((p.1, q.1) : SKey), ((cc.1, w) : SKey))

theorem storeEdge_mem {st : Store} {p x : SKey} (h : StoreEdge st p x) :
    (p, x) ∈ storeEdges st := by
  obtain ⟨m, cf, hm, hcc, hw⟩ := h
  obtain ⟨entries, he, hq⟩ := getData_mem hm
  refine List.mem_flatMap.mpr ⟨(p.1, entries), mem_of_alookup_eq_some he, ?_⟩
  refine List.mem_flatMap.mpr ⟨(p.2, m), hq, ?_⟩
  refine List.mem_flatMap.mpr ⟨(x.1, cf), hcc, ?_⟩
  exact List.mem_map.mpr ⟨x.2, hw, rfl⟩

/-- `ConflictFree` from finitely checkable conditions on the edge lists. -/
theorem conflictFree_of_bounded {S D : Store} (rank : SKey → Nat)
    (hwS : StoreWF S) (hwD : StoreWF D) (hcls : D.classes = S.classes)
    (hup : ∀ e1 ∈ storeEdges S ++ storeEdges D, ∀ e2 ∈ storeEdges S ++ storeEdges D,
      e1.2 = e2.2 → e1.1 = e2.1)
    (hrk : ∀ e ∈ storeEdges S ++ storeEdges D, rank e.2 < rank e.1)
    (htf : ∀ e ∈ storeEdges S ++ storeEdges D,
      e.2.1 ∉ S.top_level ∧ e.2.1 ∉ D.top_level) :
    ConflictFree S D rank := by
  have hmem : ∀ p x, Edge S D p x → (p, x) ∈ storeEdges S ++ storeEdges D := by
    intro p x he
    rcases he with he | he
    · exact List.mem_append_left _ (storeEdge_mem he)
    · exact List.mem_append_right _ (storeEdge_mem he)
  refine ⟨hwS, hwD, hcls, ?_, ?_, ?_⟩
  · intro p q x h1 h2
    exact hup (p, x) (hmem p x h1) (q, x) (hmem q x h2) rfl
  · intro p x h
    exact hrk (p, x) (hmem p x h)
  · intro t ht u p he
    have h := htf (p, (t, u)) (hmem p (t, u) he)
    rcases ht with ht | ht
    · exact h.1 ht
    · exact h.2 ht

end Dsync
